import Mathlib

/-!
# ThreadsPool: a shallow embedding of `src/ThreadPool.h`

The class `ThreadsPool` owns a FIFO queue `taskPool` of `(Task, id)` pairs, a
registry `tasksInfoMap : id -> TaskInfo`, the atomics `quite`, `lastTaskIndex`
and `completedTasksCounter`, and a vector of worker threads that all execute
the member function `run`.

Embedding conventions.

* Every member function becomes a Lean function on the record `ThreadsPool`
  of data members; a function that mutates the object returns the new record.
* `std::unordered_map::operator[]` inserts a default record when the key is
  absent. The registry is a function `Nat → Option TaskInfo` and
  `Registry.subscript` returns the record together with the (possibly grown)
  map, so every lookup in the source is a potential mutation here as well.
* A submitted callable may read and write state outside the pool and may throw.
  It is a function `W → Except Exn (W × result)` on an environment `W`.
* `std::any` is `StdAny V`: empty, an `int` (the stand-in lambda of the `Task`
  constructor returns `0`), or a value of the callable's result type `V`.
* `uint64_t` counters are natural numbers. Every `add_task` inserts one record
  into `tasksInfoMap`, which never shrinks, so `lastTaskIndex` cannot come near
  `2^64`.
* Threads are interleaved at the granularity of the atomic operations and
  critical sections of the source.
  - `add_task` is three steps: the atomic `lastTaskIndex++` made before any
    lock is taken, the registration under `tasksInfoMutex`, the enqueue under
    `taskPoolMutex`. Calls in progress are kept in `submitting`, keyed by the
    id they took, so calls of different threads overlap one another, the
    observers and the workers. A call whose three steps follow one another
    directly is also available as the single action `Action.add_task`.
  - `task_completed`, the predicate of `wait` and the predicate of `wait_all`
    are one step each (they run under `tasksInfoMutex`), and so is the
    destructor's `quite = true`. `wait_result` is `wait` followed by the lookup
    `tasksInfoMap[task_id].result`, made after the lock is released; it is one
    step here, and the round-trip theorem shows that the lookup finds the
    same value in every later state.
  - One scheduling of a worker thread is one of: the guarded dequeue under
    `taskPoolMutex`, the call `task.first.run()` made without any lock, the
    publication under `tasksInfoMutex`, or leaving the loop.
  - An exception that leaves `run` ends that thread and calls
    `std::terminate`; nothing in the source stops the other threads before
    the process dies, so they keep taking steps.
* `enqueueLog`, `dequeueLog` and `runLog` are history variables: they record
  which ids were pushed, which were popped and which `run()` calls returned,
  and no function of the pool reads them.
-/

namespace ThreadPool

/-! ## Data model -/

/-- An exception object thrown by a submitted callable. -/
structure Exn where
  what : Nat
deriving DecidableEq, Repr

/-- Status of a task record: `enum class TaskStatus`. -/
inductive TaskStatus where
  | in_proces
  | completed
deriving DecidableEq, Repr

/-- The content of a `std::any`. -/
inductive StdAny (V : Type) where
  | empty : StdAny V
  | ofInt (i : Int) : StdAny V
  | ofVal (v : V) : StdAny V
deriving DecidableEq, Repr

/-- Member `std::any::has_value`. -/
def StdAny.has_value {V : Type} : StdAny V → Bool
  | .empty => false
  | .ofInt _ => true
  | .ofVal _ => true

/-- The record `struct TaskInfo`. -/
structure TaskInfo (V : Type) where
  status : TaskStatus
  result : StdAny V
deriving DecidableEq, Repr

/-- The value-initialised record `TaskInfo()`: status `in_proces`, empty result. -/
def TaskInfo.default {V : Type} : TaskInfo V :=
  { status := TaskStatus.in_proces, result := StdAny.empty }

/-- The nested class `Task`: two stored callables, the result slot and the flag. -/
structure Task (W V : Type) where
  void_function : W → Except Exn W
  non_void_function : W → Except Exn (W × StdAny V)
  return_value : StdAny V
  is_void : Bool

/-- A plain function pointer `FuncReturnType(*func)(FuncTypes...)`, split by
whether `FuncReturnType` is `void`; `A` is the type of the argument pack and
`V` the result type, whose values convert to a non-empty `std::any`. -/
inductive Func (A W V : Type) where
  | returnsVoid (func : A → W → Except Exn W) : Func A W V
  | returnsValue (func : A → W → Except Exn (W × V)) : Func A W V

/-- Constructor `Task(func, args...)`: binds the arguments with `std::bind` and
fills the other slot with a stand-in lambda (`[]()->int { return 0; }`, resp.
`[]()->void {}`). -/
def Task.construct {A W V : Type} (func : Func A W V) (args : A) : Task W V :=
  match func with
  | .returnsVoid f =>
      { void_function := f args
        non_void_function := fun w => Except.ok (w, StdAny.ofInt 0)
        return_value := StdAny.empty
        is_void := true }
  | .returnsValue f =>
      { void_function := fun w => Except.ok w
        non_void_function := fun w =>
          match f args w with
          | Except.error e => Except.error e
          | Except.ok (w1, v) => Except.ok (w1, StdAny.ofVal v)
        return_value := StdAny.empty
        is_void := false }

/-- Member `Task::run` of `src/ThreadPool.h`: calls `void_function()` and then
assigns `return_value = non_void_function()`, with no branch on `is_void`. -/
def Task.run {W V : Type} (t : Task W V) (w : W) : Except Exn (Task W V × W) :=
  match t.void_function w with
  | Except.error e => Except.error e
  | Except.ok w1 =>
      match t.non_void_function w1 with
      | Except.error e => Except.error e
      | Except.ok (w2, r) => Except.ok ({ t with return_value := r }, w2)

/-- Member `Task::run` of the second copy, `src/Src/ThreadPool.h`: branches on
`is_void` and calls only the matching callable. -/
def Task.run_Src {W V : Type} (t : Task W V) (w : W) : Except Exn (Task W V × W) :=
  if t.is_void then
    match t.void_function w with
    | Except.error e => Except.error e
    | Except.ok w1 => Except.ok (t, w1)
  else
    match t.non_void_function w with
    | Except.error e => Except.error e
    | Except.ok (w2, r) => Except.ok ({ t with return_value := r }, w2)

/-- Member `Task::has_result`. -/
def Task.has_result {W V : Type} (t : Task W V) : Bool :=
  !t.is_void

/-- Member `Task::get_result`; `none` stands for a failed `assert`. -/
def Task.get_result {W V : Type} (t : Task W V) : Option (StdAny V) :=
  if !t.is_void && t.return_value.has_value then some t.return_value else none

/-- The registry `std::unordered_map<uint64_t, TaskInfo>`. -/
abbrev Registry (V : Type) := Nat → Option (TaskInfo V)

/-- The lookup `tasksInfoMap[k]`: returns the record and the map after the
lookup; an absent key is inserted with a value-initialised record. -/
def Registry.subscript {V : Type} (m : Registry V) (k : Nat) : TaskInfo V × Registry V :=
  match m k with
  | some info => (info, m)
  | none => (TaskInfo.default, Function.update m k (some TaskInfo.default))

/-- The assignment `tasksInfoMap[k] = info`. -/
def Registry.assign {V : Type} (m : Registry V) (k : Nat) (info : TaskInfo V) : Registry V :=
  Function.update (Registry.subscript m k).2 k (some info)

/-- The assignment `tasksInfoMap[k].result = r`. -/
def Registry.assign_result {V : Type} (m : Registry V) (k : Nat) (r : StdAny V) : Registry V :=
  let (info, m1) := Registry.subscript m k
  Function.update m1 k (some { info with result := r })

/-- The assignment `tasksInfoMap[k].status = st`. -/
def Registry.assign_status {V : Type} (m : Registry V) (k : Nat) (st : TaskStatus) : Registry V :=
  let (info, m1) := Registry.subscript m k
  Function.update m1 k (some { info with status := st })

/-- The data members of `class ThreadsPool` (mutexes and condition variables
carry no data; the worker threads are part of `System`). -/
structure ThreadsPool (W V : Type) where
  taskPool : List (Task W V × Nat)
  tasksInfoMap : Registry V
  quite : Bool
  lastTaskIndex : Nat
  completedTasksCounter : Nat

/-! ## Member functions -/

/-- First statement of `add_task` (line 145): `task_id = lastTaskIndex++`, an
atomic read-modify-write made before any lock is taken. Returns `task_id`. -/
def add_task_alloc {W V : Type} (p : ThreadsPool W V) : Nat × ThreadsPool W V :=
  (p.lastTaskIndex, { p with lastTaskIndex := p.lastTaskIndex + 1 })

/-- Second section of `add_task` (lines 147-150), under `tasksInfoMutex`:
`tasksInfoMap[task_id] = TaskInfo()`. -/
def add_task_register {W V : Type} (p : ThreadsPool W V) (task_id : Nat) : ThreadsPool W V :=
  { p with tasksInfoMap := Registry.assign p.tasksInfoMap task_id TaskInfo.default }

/-- Third section of `add_task` (lines 152-155), under `taskPoolMutex`:
`taskPool.emplace(Task(func, args...), task_id)`; `task` is the constructed
`Task(func, args...)`. -/
def add_task_enqueue {W V : Type} (p : ThreadsPool W V) (task : Task W V) (task_id : Nat) :
    ThreadsPool W V :=
  { p with taskPool := p.taskPool ++ [(task, task_id)] }

/-- Member `add_task` run without interruption: `task_id = lastTaskIndex++`,
then `tasksInfoMap[task_id] = TaskInfo()`, then
`taskPool.emplace(Task(...), task_id)`; returns `task_id`. -/
def add_task {A W V : Type} (p : ThreadsPool W V) (func : Func A W V) (args : A) :
    Nat × ThreadsPool W V :=
  let (task_id, p1) := add_task_alloc p
  let p2 := add_task_register p1 task_id
  (task_id, add_task_enqueue p2 (Task.construct func args) task_id)

/-- The guarded dequeue of `run` (lines 103-111): when
`!taskPool.empty() && !quite`, move out the front pair and pop it. `none` when
the guard fails. -/
def run_dequeue {W V : Type} (p : ThreadsPool W V) :
    Option ((Task W V × Nat) × ThreadsPool W V) :=
  match p.taskPool with
  | [] => none
  | task :: rest => if !p.quite then some (task, { p with taskPool := rest }) else none

/-- The publication of `run` (lines 115-123) for the pair `task` that was run:
store the result when `has_result()`, set the status to `completed`, increment
`completedTasksCounter`. `none` when an `assert` of `get_result` fails. -/
def run_publish {W V : Type} (p : ThreadsPool W V) (task : Task W V × Nat) :
    Option (ThreadsPool W V) :=
  if task.1.has_result then
    match task.1.get_result with
    | none => none
    | some r =>
        some { p with
          tasksInfoMap :=
            Registry.assign_status (Registry.assign_result p.tasksInfoMap task.2 r) task.2
              TaskStatus.completed
          completedTasksCounter := p.completedTasksCounter + 1 }
  else
    some { p with
      tasksInfoMap := Registry.assign_status p.tasksInfoMap task.2 TaskStatus.completed
      completedTasksCounter := p.completedTasksCounter + 1 }

/-- Member `task_completed`: `task_id < lastTaskIndex &&
tasksInfoMap[task_id].status == TaskStatus::completed`, with the short circuit
of `&&`. Returns the answer and the pool after the lookup. -/
def task_completed {W V : Type} (p : ThreadsPool W V) (task_id : Nat) :
    Bool × ThreadsPool W V :=
  if task_id < p.lastTaskIndex then
    let (info, m) := Registry.subscript p.tasksInfoMap task_id
    (decide (info.status = TaskStatus.completed), { p with tasksInfoMap := m })
  else
    (false, p)

/-- The predicate lambda of `wait`: the same expression as `task_completed`. -/
def wait_predicate {W V : Type} (p : ThreadsPool W V) (task_id : Nat) :
    Bool × ThreadsPool W V :=
  if task_id < p.lastTaskIndex then
    let (info, m) := Registry.subscript p.tasksInfoMap task_id
    (decide (info.status = TaskStatus.completed), { p with tasksInfoMap := m })
  else
    (false, p)

/-- Member `wait`: returns once its predicate holds; `none` means the caller
stays blocked on `tasksInfoCv` in this state. -/
def wait {W V : Type} (p : ThreadsPool W V) (task_id : Nat) : Option (ThreadsPool W V) :=
  match wait_predicate p task_id with
  | (true, p1) => some p1
  | (false, _) => none

/-- Member `wait_result(task_id)`: `wait(task_id)` followed by
`return tasksInfoMap[task_id].result`. -/
def wait_result {W V : Type} (p : ThreadsPool W V) (task_id : Nat) :
    Option (StdAny V × ThreadsPool W V) :=
  match wait p task_id with
  | none => none
  | some p1 =>
      let (info, m) := Registry.subscript p1.tasksInfoMap task_id
      some (info.result, { p1 with tasksInfoMap := m })

/-- The predicate lambda of `wait_all`: `completedTasksCounter == lastTaskIndex`. -/
def wait_all_predicate {W V : Type} (p : ThreadsPool W V) : Bool :=
  decide (p.completedTasksCounter = p.lastTaskIndex)

/-- Member `wait_all`: returns once its predicate holds and changes nothing. -/
def wait_all {W V : Type} (p : ThreadsPool W V) : Option (ThreadsPool W V) :=
  if wait_all_predicate p then some p else none

/-- The destructor up to the joins: `quite = true`. -/
def destructor {W V : Type} (p : ThreadsPool W V) : ThreadsPool W V :=
  { p with quite := true }

/-! ## Threads and their interleaving -/

/-- Where a worker thread stands inside `run`. -/
inductive Worker (W V : Type) where
  /-- At the loop head, or blocked in `taskPoolCv.wait`. -/
  | idle : Worker W V
  /-- Holds the pair moved out of the queue; `task.first.run()` not yet called. -/
  | dequeued (task : Task W V × Nat) : Worker W V
  /-- The call `task.first.run()` has returned; outcome not yet published. -/
  | ran (task : Task W V × Nat) : Worker W V
  /-- Has left the `while (!quite)` loop. -/
  | exited : Worker W V
  /-- An exception left `run` while the thread held `task` (or an `assert` of
  `get_result` failed): the thread executes nothing any more. -/
  | dead (task : Task W V × Nat) : Worker W V

/-- The id of the pair a worker holds, if any. -/
def Worker.heldId {W V : Type} : Worker W V → Option Nat
  | .idle => none
  | .dequeued task => some task.2
  | .ran task => some task.2
  | .exited => none
  | .dead task => some task.2

/-- Where a client thread stands inside a call of `add_task` that has taken its
id; `task` is the `Task(func, args...)` the call will emplace. -/
inductive Submitting (W V : Type) where
  /-- After `lastTaskIndex++` (line 145), before the registration. -/
  | allocated (task : Task W V) : Submitting W V
  /-- After the registration (lines 147-150), before the enqueue. -/
  | registered (task : Task W V) : Submitting W V

/-- The task a call in progress will emplace. -/
def Submitting.task {W V : Type} : Submitting W V → Task W V
  | .allocated task => task
  | .registered task => task

/-- A pool object together with its worker threads, the calls of `add_task` in
progress (keyed by the id each has taken), the environment the callables act
on, whether `std::terminate` was called, and the three history variables. -/
structure System (W V : Type) where
  pool : ThreadsPool W V
  workers : List (Worker W V)
  submitting : Nat → Option (Submitting W V)
  world : W
  terminated : Bool
  enqueueLog : List Nat
  dequeueLog : List Nat
  runLog : List (Nat × StdAny V)

/-- Constructor `ThreadsPool(num_threads)`: default member initialisers and
`num_threads` threads started on `run`. -/
def System.fresh {W V : Type} (num_threads : Nat) (w0 : W) : System W V :=
  { pool :=
      { taskPool := []
        tasksInfoMap := fun _ => none
        quite := false
        lastTaskIndex := 0
        completedTasksCounter := 0 }
    workers := List.replicate num_threads Worker.idle
    submitting := fun _ => none
    world := w0
    terminated := false
    enqueueLog := []
    dequeueLog := []
    runLog := [] }

/-- The ids whose `run()` call has returned, in the order the calls returned. -/
def System.runIds {W V : Type} (s : System W V) : List Nat :=
  s.runLog.map Prod.fst

/-- One scheduling of worker thread `i`, following its place in `run`.

* `idle`: leaves the loop when `quite` is set; otherwise performs the guarded
  dequeue, or stays blocked in `taskPoolCv.wait` when the queue is empty.
* `dequeued`: calls `task.first.run()`. There is no handler around the call,
  so an exception leaves the thread function: the thread is dead and
  `std::terminate` is called.
* `ran`: publishes the outcome and returns to the loop head.
* `exited`, `dead`: the thread does nothing. -/
def run_step {W V : Type} (s : System W V) (i : Nat) : System W V :=
  match s.workers[i]? with
  | none => s
  | some Worker.exited => s
  | some (Worker.dead _) => s
  | some Worker.idle =>
      if s.pool.quite then
        { s with workers := s.workers.set i Worker.exited }
      else
        match run_dequeue s.pool with
        | none => s
        | some (task, p1) =>
            { s with
              pool := p1
              workers := s.workers.set i (Worker.dequeued task)
              dequeueLog := s.dequeueLog ++ [task.2] }
  | some (Worker.dequeued task) =>
      match task.1.run s.world with
      | Except.error _ =>
          { s with workers := s.workers.set i (Worker.dead task), terminated := true }
      | Except.ok (t1, w1) =>
          { s with
            world := w1
            workers := s.workers.set i (Worker.ran (t1, task.2))
            runLog := s.runLog ++ [(task.2, t1.return_value)] }
  | some (Worker.ran task) =>
      match run_publish s.pool task with
      | none => { s with workers := s.workers.set i (Worker.dead task), terminated := true }
      | some p1 => { s with pool := p1, workers := s.workers.set i Worker.idle }

/-- The call of `add_task` that took `task_id` performs its registration. -/
def register_step {W V : Type} (s : System W V) (task_id : Nat) : System W V :=
  match s.submitting task_id with
  | some (Submitting.allocated task) =>
      { s with
        pool := add_task_register s.pool task_id
        submitting := Function.update s.submitting task_id (some (Submitting.registered task)) }
  | _ => s

/-- The call of `add_task` that took `task_id` performs its enqueue and
returns. -/
def enqueue_step {W V : Type} (s : System W V) (task_id : Nat) : System W V :=
  match s.submitting task_id with
  | some (Submitting.registered task) =>
      { s with
        pool := add_task_enqueue s.pool task task_id
        submitting := Function.update s.submitting task_id none
        enqueueLog := s.enqueueLog ++ [task_id] }
  | _ => s

/-- What a thread may do next. -/
inductive Action (W V : Type) : Type 1 where
  /-- A whole call of `add_task` with no step of another thread in between. -/
  | add_task {A : Type} (func : Func A W V) (args : A) : Action W V
  /-- A client thread enters `add_task(func, args...)` and takes its id. -/
  | add_task_alloc {A : Type} (func : Func A W V) (args : A) : Action W V
  /-- The call that took `task_id` registers the record. -/
  | add_task_register (task_id : Nat) : Action W V
  /-- The call that took `task_id` enqueues the pair and returns. -/
  | add_task_enqueue (task_id : Nat) : Action W V
  /-- Worker thread `i` is scheduled. -/
  | worker (i : Nat) : Action W V
  | task_completed (task_id : Nat) : Action W V
  | wait (task_id : Nat) : Action W V
  | wait_result (task_id : Nat) : Action W V
  | wait_all : Action W V
  /-- The destructor sets `quite`. -/
  | shutdown : Action W V

/-- The effect of one action on the system. A blocked `wait` or `wait_result`
has still evaluated its predicate, so the pool after the evaluation is kept. -/
def step {W V : Type} (a : Action W V) (s : System W V) : System W V :=
  match a with
  | .add_task func args =>
      { s with
        pool := (add_task s.pool func args).2
        enqueueLog := s.enqueueLog ++ [(add_task s.pool func args).1] }
  | .add_task_alloc func args =>
      { s with
        pool := (add_task_alloc s.pool).2
        submitting := Function.update s.submitting (add_task_alloc s.pool).1
          (some (Submitting.allocated (Task.construct func args))) }
  | .add_task_register task_id => register_step s task_id
  | .add_task_enqueue task_id => enqueue_step s task_id
  | .worker i => run_step s i
  | .task_completed task_id => { s with pool := (task_completed s.pool task_id).2 }
  | .wait task_id => { s with pool := (wait_predicate s.pool task_id).2 }
  | .wait_result task_id =>
      match wait_result s.pool task_id with
      | none => { s with pool := (wait_predicate s.pool task_id).2 }
      | some (_, p1) => { s with pool := p1 }
  | .wait_all => s
  | .shutdown => { s with pool := destructor s.pool }

/-- Runs a schedule, first action first. -/
def exec {W V : Type} (acts : List (Action W V)) (s : System W V) : System W V :=
  acts.foldl (fun s1 a => step a s1) s

/-- The state `s1` is reached from `s0` by a schedule all of whose actions
satisfy `allowed`. -/
def Steps {W V : Type} (allowed : Action W V → Prop) (s0 s1 : System W V) : Prop :=
  ∃ acts : List (Action W V), (∀ a ∈ acts, allowed a) ∧ s1 = exec acts s0

/-- No restriction on the actions of a schedule. -/
def anyAction {W V : Type} : Action W V → Prop :=
  fun _ => True

/-- The state `s` is reachable from a freshly constructed pool with
`num_threads` workers and initial environment `w0`. -/
def Reachable {W V : Type} (num_threads : Nat) (w0 : W) (s : System W V) : Prop :=
  Steps anyAction (System.fresh num_threads w0) s

/-- The ids taken by the calls of `add_task` of a schedule, in the order of the
increments with which the calls start. -/
def issuedIds {W V : Type} : List (Action W V) → System W V → List Nat
  | [], _ => []
  | a :: acts, s =>
      match a with
      | .add_task func args => (add_task s.pool func args).1 :: issuedIds acts (step a s)
      | .add_task_alloc _ _ => (add_task_alloc s.pool).1 :: issuedIds acts (step a s)
      | _ => issuedIds acts (step a s)

/-- The number of calls of `add_task` started in a schedule. -/
def countAddTask {W V : Type} : List (Action W V) → Nat
  | [] => 0
  | .add_task _ _ :: acts => countAddTask acts + 1
  | .add_task_alloc _ _ :: acts => countAddTask acts + 1
  | _ :: acts => countAddTask acts

/-- Whether some call of `add_task` has taken its id and not yet returned. -/
def callInProgress {W V : Type} (s : System W V) : Bool :=
  (List.range s.pool.lastTaskIndex).any (fun k => (s.submitting k).isSome)

/-- Whether the action is the start of a call of `add_task`. -/
def startsCall {W V : Type} : Action W V → Bool
  | .add_task _ _ => true
  | .add_task_alloc _ _ => true
  | _ => false

/-- No two calls of `add_task` overlap in the schedule `acts` run from `s`:
a call starts only when no other call is in progress. Workers and observers
are unrestricted. -/
def noOverlap {W V : Type} : List (Action W V) → System W V → Bool
  | [], _ => true
  | a :: acts, s => (!startsCall a || !callInProgress s) && noOverlap acts (step a s)

/-! ## Definitions used to state the properties -/

/-- Whether the registry holds a record for `k` whose status is `completed`
(a pure read: no record is inserted). -/
def completedAt {V : Type} (m : Registry V) (k : Nat) : Bool :=
  match m k with
  | some info => decide (info.status = TaskStatus.completed)
  | none => false

/-- The number of ids below `n` whose record is `completed`. -/
def numCompleted {V : Type} (m : Registry V) : Nat → Nat
  | 0 => 0
  | n + 1 => numCompleted m n + (if completedAt m n then 1 else 0)

/-- The value-path callable of a task never yields an empty `std::any`. -/
def WellFormedTask {W V : Type} (t : Task W V) : Prop :=
  ∀ w w1 r, t.non_void_function w = Except.ok (w1, r) → r.has_value = true

/-- The invariant of the interleaving: it holds in a fresh system and every
action preserves it. -/
structure Inv {W V : Type} (s : System W V) : Prop where
  enq_deq : s.enqueueLog = s.dequeueLog ++ s.pool.taskPool.map Prod.snd
  enq_nodup : s.enqueueLog.Nodup
  enq_lt : ∀ k, k ∈ s.enqueueLog → k < s.pool.lastTaskIndex
  enq_done : ∀ k, k ∈ s.enqueueLog → s.submitting k = none
  sub_none : ∀ k, s.pool.lastTaskIndex ≤ k → s.submitting k = none
  issued : ∀ k, k < s.pool.lastTaskIndex → s.submitting k = none → k ∈ s.enqueueLog
  keys_enq : ∀ k, k ∈ s.enqueueLog → ∃ info, s.pool.tasksInfoMap k = some info
  keys_none : ∀ k, s.pool.lastTaskIndex ≤ k → s.pool.tasksInfoMap k = none
  sub_registered : ∀ (k : Nat) (task : Task W V),
    s.submitting k = some (Submitting.registered task) →
    s.pool.tasksInfoMap k = some TaskInfo.default
  rec_default : ∀ (k : Nat) (info : TaskInfo V), k ∉ s.dequeueLog →
    s.pool.tasksInfoMap k = some info → info = TaskInfo.default
  held_deq : ∀ (i : Nat) (w : Worker W V) (k : Nat), s.workers[i]? = some w →
    w.heldId = some k → k ∈ s.dequeueLog
  held_default : ∀ (i : Nat) (w : Worker W V) (k : Nat), s.workers[i]? = some w →
    w.heldId = some k → s.pool.tasksInfoMap k = some TaskInfo.default
  held_distinct : ∀ (i j : Nat) (wi wj : Worker W V) (k : Nat), s.workers[i]? = some wi →
    s.workers[j]? = some wj → wi.heldId = some k → wj.heldId = some k → i = j
  dequeued_not_run : ∀ (i : Nat) (task : Task W V × Nat),
    s.workers[i]? = some (Worker.dequeued task) → task.2 ∉ s.runIds
  ran_logged : ∀ (i : Nat) (task : Task W V × Nat), s.workers[i]? = some (Worker.ran task) →
    (task.2, task.1.return_value) ∈ s.runLog
  ran_has_value : ∀ (i : Nat) (task : Task W V × Nat), s.workers[i]? = some (Worker.ran task) →
    task.1.return_value.has_value = true
  completed_logged : ∀ k, completedAt s.pool.tasksInfoMap k = true → k ∈ s.runIds
  run_deq : ∀ k, k ∈ s.runIds → k ∈ s.dequeueLog
  run_nodup : s.runIds.Nodup
  counter : s.pool.completedTasksCounter =
    numCompleted s.pool.tasksInfoMap s.pool.lastTaskIndex
  wf_queue : ∀ task, task ∈ s.pool.taskPool → WellFormedTask task.1
  wf_dequeued : ∀ (i : Nat) (task : Task W V × Nat),
    s.workers[i]? = some (Worker.dequeued task) → WellFormedTask task.1
  wf_submitting : ∀ (k : Nat) (c : Submitting W V), s.submitting k = some c →
    WellFormedTask c.task

/-- What holds in addition when no two calls of `add_task` have overlapped:
ids were enqueued in increasing order, and at most the newest id is still
being submitted. -/
structure Sequential {W V : Type} (s : System W V) : Prop where
  enq_range : s.enqueueLog = List.range s.enqueueLog.length
  pending : ∀ k, s.submitting k ≠ none →
    k = s.enqueueLog.length ∧ s.pool.lastTaskIndex = s.enqueueLog.length + 1
  idle : (∀ k, s.submitting k = none) → s.pool.lastTaskIndex = s.enqueueLog.length

/-- The order of `run()` calls in a pool with exactly one worker thread: the
ids whose `run()` returned are the dequeued ids, in dequeue order, except for
the last one while the worker still holds it. -/
def SingleWorkerOrder {W V : Type} (s : System W V) : Prop :=
  ∃ w, s.workers = [w] ∧
    match w with
    | Worker.dequeued task => s.dequeueLog = s.runIds ++ [task.2]
    | Worker.dead task => s.dequeueLog = s.runIds ++ [task.2] ∨ s.dequeueLog = s.runIds
    | _ => s.dequeueLog = s.runIds

/-- Whether a call of `add_task` has taken the id `k` and not yet registered
its record. -/
def System.awaitsRegistration {W V : Type} (s : System W V) (k : Nat) : Bool :=
  match s.submitting k with
  | some (Submitting.allocated _) => true
  | _ => false

/-- The error kinds the specification names for the wait API. -/
inductive PoolError where
  | UnknownTask
  | NoResult
  | TypeMismatch
  | PoolShutdown
  | TaskPanicked
  | Timeout
deriving DecidableEq, Repr

/-- The specification's `isCompleted(id)`, written from its words: it fails
with `UnknownTask` for an id that was never registered and otherwise returns
whether the record is completed. -/
def isCompleted_spec {W V : Type} (p : ThreadsPool W V) (task_id : Nat) :
    Except PoolError Bool :=
  match p.tasksInfoMap task_id with
  | none => Except.error PoolError.UnknownTask
  | some info => Except.ok (decide (info.status = TaskStatus.completed))

/-- The callable `func(args...)` adds one to the shared counter (the
environment is the counter) and returns normally. -/
def IncrementsOnce {A V : Type} : Func A Nat V → A → Prop
  | Func.returnsVoid f, a => ∀ w, f a w = Except.ok (w + 1)
  | Func.returnsValue f, a => ∀ w, ∃ v, f a w = Except.ok (w + 1, v)

/-- Schedules in which every submitted callable increments the shared counter
once; all other actions are unrestricted. -/
def counterAction {V : Type} : Action Nat V → Prop
  | Action.add_task func args => IncrementsOnce func args
  | Action.add_task_alloc func args => IncrementsOnce func args
  | _ => True

/-- The call `t.run()` adds exactly one to the shared counter. -/
def Increments {V : Type} (t : Task Nat V) : Prop :=
  ∀ w, ∃ t1, t.run w = Except.ok (t1, w + 1)

/-- In a counting schedule the shared counter is the number of returned `run()`
calls, and every task still to be run increments it once. -/
structure CounterInv {V : Type} (s : System Nat V) : Prop where
  submitting : ∀ (k : Nat) (c : Submitting Nat V), s.submitting k = some c →
    Increments c.task
  queue : ∀ task, task ∈ s.pool.taskPool → Increments task.1
  dequeued : ∀ (i : Nat) (task : Task Nat V × Nat),
    s.workers[i]? = some (Worker.dequeued task) → Increments task.1
  world : s.world = s.runLog.length

/-- The callable `func(args...)` throws `e` when called in environment `w`. -/
def Throws {A W V : Type} : Func A W V → A → W → Exn → Prop
  | Func.returnsVoid f, a, w, e => f a w = Except.error e
  | Func.returnsValue f, a, w, e => f a w = Except.error e

/-- What is known about the task submitted as `func = f`, `args`, which took
the id `task_id`: wherever its pair sits it is still the task that was built
from `f` and `args`, and a result stored or about to be stored for it is a
value `f(args)` returned. -/
structure ResultInv {A W V : Type} (f : A → W → Except Exn (W × V)) (args : A)
    (task_id : Nat) (s : System W V) : Prop where
  issued : task_id < s.pool.lastTaskIndex
  pending : ∀ (c : Submitting W V), s.submitting task_id = some c →
    c.task = Task.construct (Func.returnsValue f) args
  queued : ∀ task, task ∈ s.pool.taskPool → task.2 = task_id →
    task.1 = Task.construct (Func.returnsValue f) args
  dequeued : ∀ (i : Nat) (task : Task W V × Nat),
    s.workers[i]? = some (Worker.dequeued task) → task.2 = task_id →
    task.1 = Task.construct (Func.returnsValue f) args
  ran : ∀ (i : Nat) (task : Task W V × Nat),
    s.workers[i]? = some (Worker.ran task) → task.2 = task_id →
    task.1.is_void = false ∧
      ∃ w w1 v, f args w = Except.ok (w1, v) ∧ task.1.return_value = StdAny.ofVal v
  completed : ∀ info, s.pool.tasksInfoMap task_id = some info →
    info.status = TaskStatus.completed →
    ∃ w w1 v, f args w = Except.ok (w1, v) ∧ info.result = StdAny.ofVal v ∧
      (task_id, StdAny.ofVal v) ∈ s.runLog

/-! ### Sample callables and schedules -/

/-- A function `int f(int a)` that bumps a shared counter and returns `a`. -/
def returnArgFn : Nat → Nat → Except Exn (Nat × Nat) :=
  fun a w => Except.ok (w + 1, a)

/-- The function pointer to `returnArgFn`. -/
def returnArg : Func Nat Nat Nat :=
  Func.returnsValue returnArgFn

/-- A function `void f()` that bumps a shared counter. -/
def bump : Func Unit Nat Nat :=
  Func.returnsVoid (fun _ w => Except.ok (w + 1))

/-- A function `void f()` that throws. -/
def thrower : Func Unit Nat Nat :=
  Func.returnsVoid (fun _ _ => Except.error { what := 7 })

/-- Two submissions, then two workers that dequeue, run and publish, the second
task finishing first. -/
def demoSchedule : List (Action Nat Nat) :=
  [Action.add_task returnArg 5, Action.add_task bump (), Action.worker 0, Action.worker 1,
   Action.worker 1, Action.worker 0, Action.worker 1, Action.worker 0]

/-- The state after `demoSchedule` on a fresh pool with two workers. -/
def demoState : System Nat Nat :=
  exec demoSchedule (System.fresh 2 0)

/-- Two calls of `add_task` that overlap: both take their ids, the second
registers and enqueues first. A worker step and an observer run in between,
and the workers finish both tasks. -/
def overlapDoneSchedule : List (Action Nat Nat) :=
  [Action.add_task_alloc returnArg 5, Action.add_task_alloc bump (), Action.worker 0,
   Action.add_task_register 1, Action.task_completed 0, Action.add_task_enqueue 1,
   Action.worker 0, Action.add_task_register 0, Action.worker 0, Action.add_task_enqueue 0,
   Action.worker 1, Action.worker 0, Action.worker 1, Action.worker 1]

/-- The state after `overlapDoneSchedule` on a fresh pool with two workers. -/
def overlapDoneState : System Nat Nat :=
  exec overlapDoneSchedule (System.fresh 2 0)

/-- Three submissions to a pool with one worker, whose calls do not overlap (the
second call is interleaved with worker steps); the worker handles the first
task completely and the second up to the return of `run()`. -/
def singleSchedule : List (Action Nat Nat) :=
  [Action.add_task returnArg 5, Action.add_task_alloc bump (), Action.worker 0,
   Action.add_task_register 1, Action.worker 0, Action.add_task_enqueue 1,
   Action.add_task returnArg 9, Action.worker 0, Action.worker 0, Action.worker 0]

/-- The state after `singleSchedule` on a fresh pool with one worker. -/
def singleState : System Nat Nat :=
  exec singleSchedule (System.fresh 1 0)

/-- Two calls of `add_task` from two threads: the first takes id 0, the second
takes id 1 and enqueues before the first does. -/
def overlapSchedule : List (Action Nat Nat) :=
  [Action.add_task_alloc returnArg 5, Action.add_task_alloc bump (),
   Action.add_task_register 1, Action.add_task_enqueue 1,
   Action.add_task_register 0, Action.add_task_enqueue 0]

/-- The state after `overlapSchedule` on a fresh pool with one worker. -/
def overlapState : System Nat Nat :=
  exec overlapSchedule (System.fresh 1 0)

/-- A call of `add_task` has taken id 0 and has not registered it yet. -/
def windowState : System Nat Nat :=
  exec [Action.add_task_alloc bump ()] (System.fresh 1 0)

/-- Three submissions, worker 0 dequeues the first task, then the destructor
sets `quite` while two tasks are still queued. -/
def shutdownSchedule : List (Action Nat Nat) :=
  [Action.add_task returnArg 5, Action.add_task bump (), Action.add_task bump (),
   Action.worker 0, Action.shutdown]

/-- The state after `shutdownSchedule` on a fresh pool with two workers. -/
def shutdownState : System Nat Nat :=
  exec shutdownSchedule (System.fresh 2 0)

/-- What the two workers can still do after `shutdownState`. -/
def afterShutdownSchedule : List (Action Nat Nat) :=
  [Action.worker 1, Action.worker 0, Action.worker 1, Action.worker 0, Action.worker 0,
   Action.worker 1]

/-- A throwing task and a normal one are submitted to a pool with one worker;
the worker dequeues the throwing task. -/
def beforeFailSchedule : List (Action Nat Nat) :=
  [Action.add_task thrower (), Action.add_task returnArg 5, Action.worker 0]

/-- The state in which the worker holds the throwing task. -/
def beforeFailState : System Nat Nat :=
  exec beforeFailSchedule (System.fresh 1 0)

/-- The worker runs the throwing task and is scheduled three more times. -/
def failState : System Nat Nat :=
  exec [Action.worker 0, Action.worker 0, Action.worker 0, Action.worker 0] beforeFailState

/-! ## Lemmas on the registry -/

theorem subscript_of_some {V : Type} {m : Registry V} {k : Nat} {info : TaskInfo V}
    (h : m k = some info) : Registry.subscript m k = (info, m) := by
  simp [Registry.subscript, h]

theorem subscript_of_none {V : Type} {m : Registry V} {k : Nat} (h : m k = none) :
    Registry.subscript m k =
      (TaskInfo.default, Function.update m k (some TaskInfo.default)) := by
  simp [Registry.subscript, h]

theorem assign_apply {V : Type} (m : Registry V) (k j : Nat) (info : TaskInfo V) :
    Registry.assign m k info j = if j = k then some info else m j := by
  unfold Registry.assign Registry.subscript
  by_cases hjk : j = k
  · subst hjk; simp
  · cases hm : m k <;> simp [hjk, Function.update_noteq]

theorem assign_status_apply {V : Type} (m : Registry V) (k j : Nat) (st : TaskStatus) :
    Registry.assign_status m k st j =
      if j = k then some { (Registry.subscript m k).1 with status := st } else m j := by
  unfold Registry.assign_status Registry.subscript
  by_cases hjk : j = k
  · subst hjk; cases hm : m j <;> simp
  · cases hm : m k <;> simp [hjk, Function.update_noteq]

theorem assign_result_apply {V : Type} (m : Registry V) (k j : Nat) (r : StdAny V) :
    Registry.assign_result m k r j =
      if j = k then some { (Registry.subscript m k).1 with result := r } else m j := by
  unfold Registry.assign_result Registry.subscript
  by_cases hjk : j = k
  · subst hjk; cases hm : m j <;> simp
  · cases hm : m k <;> simp [hjk, Function.update_noteq]

theorem completedAt_congr {V : Type} {m m1 : Registry V} {k : Nat} (h : m1 k = m k) :
    completedAt m1 k = completedAt m k := by
  simp [completedAt, h]

theorem completedAt_of_some {V : Type} {m : Registry V} {k : Nat} {info : TaskInfo V}
    (h : m k = some info) :
    completedAt m k = decide (info.status = TaskStatus.completed) := by
  simp [completedAt, h]

theorem numCompleted_congr {V : Type} {m m1 : Registry V} (n : Nat)
    (h : ∀ k, k < n → completedAt m1 k = completedAt m k) :
    numCompleted m1 n = numCompleted m n := by
  induction n with
  | zero => rfl
  | succ n ih =>
      have h1 : numCompleted m1 n = numCompleted m n :=
        ih (fun k hk => h k (Nat.lt_succ_of_lt hk))
      have h2 : completedAt m1 n = completedAt m n := h n (Nat.lt_succ_self n)
      simp [numCompleted, h1, h2]

theorem numCompleted_le {V : Type} (m : Registry V) (n : Nat) : numCompleted m n ≤ n := by
  induction n with
  | zero => simp [numCompleted]
  | succ n ih =>
      simp only [numCompleted]
      split <;> omega

theorem numCompleted_eq_all {V : Type} (m : Registry V) (n : Nat)
    (h : numCompleted m n = n) : ∀ k, k < n → completedAt m k = true := by
  induction n with
  | zero => intro k hk; omega
  | succ n ih =>
      have hle := numCompleted_le m n
      simp only [numCompleted] at h
      by_cases hc : completedAt m n = true
      · simp only [hc, if_true] at h
        intro k hk
        rcases Nat.lt_succ_iff_lt_or_eq.mp hk with hlt | heq
        · exact ih (by omega) k hlt
        · subst heq; exact hc
      · simp only [hc] at h
        simp at h
        omega

theorem numCompleted_all {V : Type} (m : Registry V) (n : Nat)
    (h : ∀ k, k < n → completedAt m k = true) : numCompleted m n = n := by
  induction n with
  | zero => rfl
  | succ n ih =>
      have h1 := ih (fun k hk => h k (Nat.lt_succ_of_lt hk))
      have h2 := h n (Nat.lt_succ_self n)
      simp [numCompleted, h1, h2]

/-- Publishing one record below `n` that was not completed raises the count by one. -/
theorem numCompleted_publish {V : Type} (m m1 : Registry V) (n j : Nat) (hj : j < n)
    (hold : completedAt m j = false) (hnew : completedAt m1 j = true)
    (hsame : ∀ k, k ≠ j → m1 k = m k) :
    numCompleted m1 n = numCompleted m n + 1 := by
  induction n with
  | zero => omega
  | succ n ih =>
      simp only [numCompleted]
      rcases Nat.lt_succ_iff_lt_or_eq.mp hj with hlt | heq
      · have h1 := ih hlt
        have hne : n ≠ j := by omega
        have h2 : completedAt m1 n = completedAt m n := completedAt_congr (hsame n hne)
        rw [h1, h2]; omega
      · subst heq
        have h1 : numCompleted m1 j = numCompleted m j :=
          numCompleted_congr j (fun k hk => completedAt_congr (hsame k (by omega)))
        rw [h1, hold, hnew]; simp


theorem completedAt_default {V : Type} {m : Registry V} {k : Nat}
    (h : m k = some TaskInfo.default) : completedAt m k = false := by
  simp [completedAt, h, TaskInfo.default]

theorem completedAt_none {V : Type} {m : Registry V} {k : Nat} (h : m k = none) :
    completedAt m k = false := by
  simp [completedAt, h]

theorem completedAt_some {V : Type} {m : Registry V} {k : Nat}
    (h : completedAt m k = true) :
    ∃ info, m k = some info ∧ info.status = TaskStatus.completed := by
  unfold completedAt at h
  cases hm : m k with
  | none => simp [hm] at h
  | some info =>
      simp only [hm, decide_eq_true_eq] at h
      exact ⟨info, rfl, h⟩

/-! ## Lemmas on the observers -/

/-- The answer of `task_completed` is the conjunction the source computes,
whether or not the lookup inserts a record. -/
theorem task_completed_fst {W V : Type} (p : ThreadsPool W V) (task_id : Nat) :
    (task_completed p task_id).1 =
      (decide (task_id < p.lastTaskIndex) && completedAt p.tasksInfoMap task_id) := by
  unfold task_completed
  by_cases hlt : task_id < p.lastTaskIndex
  · cases hm : p.tasksInfoMap task_id with
    | none => simp [hlt, subscript_of_none hm, completedAt_none hm, TaskInfo.default]
    | some info => simp [hlt, subscript_of_some hm, completedAt_of_some hm]
  · simp [hlt]

/-- The pool after `task_completed`: unchanged when the id has a record. -/
theorem task_completed_snd_of_some {W V : Type} (p : ThreadsPool W V) {task_id : Nat}
    {info : TaskInfo V} (hm : p.tasksInfoMap task_id = some info) :
    (task_completed p task_id).2 = p := by
  unfold task_completed
  by_cases hlt : task_id < p.lastTaskIndex
  · simp [hlt, subscript_of_some hm]
  · simp [hlt]

/-- The pool after `task_completed`: unchanged when the id is not below
`lastTaskIndex`. -/
theorem task_completed_snd_of_ge {W V : Type} (p : ThreadsPool W V) {task_id : Nat}
    (hge : p.lastTaskIndex ≤ task_id) : (task_completed p task_id).2 = p := by
  unfold task_completed
  have hlt : ¬ task_id < p.lastTaskIndex := by omega
  simp [hlt]

/-- The pool after `task_completed` for an id below `lastTaskIndex` that has no
record: a value-initialised record has been inserted. -/
theorem task_completed_snd_of_none {W V : Type} (p : ThreadsPool W V) {task_id : Nat}
    (hlt : task_id < p.lastTaskIndex) (hm : p.tasksInfoMap task_id = none) :
    (task_completed p task_id).2 =
      { p with tasksInfoMap :=
          Function.update p.tasksInfoMap task_id (some TaskInfo.default) } := by
  unfold task_completed
  simp [hlt, subscript_of_none hm]

theorem task_completed_snd {W V : Type} (p : ThreadsPool W V) (task_id : Nat) :
    (task_completed p task_id).2 = p ∨
      (task_id < p.lastTaskIndex ∧ p.tasksInfoMap task_id = none ∧
        (task_completed p task_id).2 =
          { p with tasksInfoMap :=
              Function.update p.tasksInfoMap task_id (some TaskInfo.default) }) := by
  by_cases hlt : task_id < p.lastTaskIndex
  · rcases Option.eq_none_or_eq_some (p.tasksInfoMap task_id) with hm | ⟨info, hm⟩
    · exact Or.inr ⟨hlt, hm, task_completed_snd_of_none p hlt hm⟩
    · exact Or.inl (task_completed_snd_of_some p hm)
  · exact Or.inl (task_completed_snd_of_ge p (by omega))

theorem wait_predicate_eq_task_completed {W V : Type} (p : ThreadsPool W V) (task_id : Nat) :
    wait_predicate p task_id = task_completed p task_id := rfl

/-- When `wait_result` returns, the record exists and is completed, the value
returned is its result and the pool is unchanged. -/
theorem wait_result_pool {W V : Type} (p : ThreadsPool W V) (task_id : Nat)
    (r : StdAny V) (p1 : ThreadsPool W V) (h : wait_result p task_id = some (r, p1)) :
    p1 = p ∧ task_id < p.lastTaskIndex ∧
      ∃ info, p.tasksInfoMap task_id = some info ∧
        info.status = TaskStatus.completed ∧ info.result = r := by
  unfold wait_result wait at h
  have h1 := task_completed_fst p task_id
  rw [wait_predicate_eq_task_completed] at h
  cases htc : task_completed p task_id with
  | mk b p2 =>
      rw [htc] at h h1
      simp only at h1
      cases b with
      | false => simp at h
      | true =>
          simp only at h
          have h3 := h1.symm
          simp only [Bool.and_eq_true, decide_eq_true_eq] at h3
          obtain ⟨hlt, hc⟩ := h3
          obtain ⟨info, hinfo, hst⟩ := completedAt_some hc
          have hp2 : p2 = p := by
            have := task_completed_snd_of_some p hinfo
            rw [htc] at this
            exact this
          subst hp2
          rw [subscript_of_some hinfo] at h
          simp only [Option.some.injEq, Prod.mk.injEq] at h
          exact ⟨h.2.symm, hlt, info, hinfo, hst, h.1⟩

/-- Every observer leaves one of two pools: the pool it found, or that pool
with a value-initialised record inserted for an id below `lastTaskIndex` that
had none. -/
theorem observer_pool {W V : Type} (p : ThreadsPool W V) (task_id : Nat) :
    ∀ p1, (p1 = (task_completed p task_id).2 ∨ p1 = (wait_predicate p task_id).2 ∨
        (∃ r, wait_result p task_id = some (r, p1))) →
      p1 = p ∨ (task_id < p.lastTaskIndex ∧ p.tasksInfoMap task_id = none ∧
        p1 = { p with tasksInfoMap :=
          Function.update p.tasksInfoMap task_id (some TaskInfo.default) }) := by
  intro p1 h
  rcases h with h | h | ⟨r, h⟩
  · rw [h]
    rcases task_completed_snd p task_id with h1 | ⟨h1, h2, h3⟩
    · exact Or.inl h1
    · exact Or.inr ⟨h1, h2, h3⟩
  · rw [h, wait_predicate_eq_task_completed]
    rcases task_completed_snd p task_id with h1 | ⟨h1, h2, h3⟩
    · exact Or.inl h1
    · exact Or.inr ⟨h1, h2, h3⟩
  · exact Or.inl (wait_result_pool p task_id r p1 h).1

/-! ## The invariant holds initially and is preserved -/

theorem inv_fresh {W V : Type} (num_threads : Nat) (w0 : W) :
    Inv (System.fresh num_threads w0 : System W V) := by
  have hidle : ∀ (i : Nat) (w : Worker W V),
      (System.fresh num_threads w0 : System W V).workers[i]? = some w → w = Worker.idle := by
    intro i w hw
    simp only [System.fresh, List.getElem?_replicate] at hw
    split at hw
    · cases hw; rfl
    · cases hw
  refine
    { enq_deq := by simp [System.fresh]
      enq_nodup := by simp [System.fresh]
      enq_lt := by intro k hk; simp [System.fresh] at hk
      enq_done := by intro k _; simp [System.fresh]
      sub_none := by intro k _; simp [System.fresh]
      issued := by intro k hk; simp [System.fresh] at hk
      keys_enq := by intro k hk; simp [System.fresh] at hk
      keys_none := by intro k _; simp [System.fresh]
      sub_registered := by intro k task hk; simp [System.fresh] at hk
      rec_default := by intro k info _ hk; simp [System.fresh] at hk
      held_deq := ?_
      held_default := ?_
      held_distinct := ?_
      dequeued_not_run := by intro i task _; simp [System.fresh, System.runIds]
      ran_logged := ?_
      ran_has_value := ?_
      completed_logged := by intro k hk; simp [System.fresh, completedAt] at hk
      run_deq := by intro k hk; simp [System.fresh, System.runIds] at hk
      run_nodup := by simp [System.fresh, System.runIds]
      counter := by simp [System.fresh, numCompleted]
      wf_queue := by intro task ht; simp [System.fresh] at ht
      wf_dequeued := ?_
      wf_submitting := by intro k c hk; simp [System.fresh] at hk }
  · intro i w k hw hk
    rw [hidle i w hw] at hk; simp [Worker.heldId] at hk
  · intro i w k hw hk
    rw [hidle i w hw] at hk; simp [Worker.heldId] at hk
  · intro i j wi wj k hwi _ hki _
    rw [hidle i wi hwi] at hki; simp [Worker.heldId] at hki
  · intro i task hw
    cases hidle i _ hw
  · intro i task hw
    cases hidle i _ hw
  · intro i task hw
    cases hidle i _ hw

theorem deq_subset {W V : Type} {s : System W V} (h : Inv s) {k : Nat}
    (hk : k ∈ s.dequeueLog) : k ∈ s.enqueueLog := by
  rw [h.enq_deq]; exact List.mem_append_left _ hk

theorem queue_subset {W V : Type} {s : System W V} (h : Inv s) {task : Task W V × Nat}
    (hk : task ∈ s.pool.taskPool) : task.2 ∈ s.enqueueLog := by
  rw [h.enq_deq]; exact List.mem_append_right _ (List.mem_map_of_mem _ hk)

theorem deq_nodup {W V : Type} {s : System W V} (h : Inv s) : s.dequeueLog.Nodup := by
  have := h.enq_nodup
  rw [h.enq_deq, List.nodup_append] at this
  exact this.1

theorem queue_not_deq {W V : Type} {s : System W V} (h : Inv s) {task : Task W V × Nat}
    (hk : task ∈ s.pool.taskPool) : task.2 ∉ s.dequeueLog := by
  have := h.enq_nodup
  rw [h.enq_deq, List.nodup_append] at this
  intro hd
  exact this.2.2 hd (List.mem_map_of_mem _ hk)

/-- An id has a record unless it is not issued yet or its call has not
registered it yet. -/
theorem record_of_enqueued_or_registered {W V : Type} {s : System W V} (h : Inv s) {k : Nat}
    (hlt : k < s.pool.lastTaskIndex)
    (hreg : ∀ task, s.submitting k ≠ some (Submitting.allocated task)) :
    ∃ info, s.pool.tasksInfoMap k = some info := by
  cases hs : s.submitting k with
  | none => exact h.keys_enq k (h.issued k hlt hs)
  | some c =>
      cases c with
      | allocated task => exact absurd hs (hreg task)
      | registered task => exact ⟨_, h.sub_registered k task hs⟩

theorem wf_construct {A W V : Type} (func : Func A W V) (args : A) :
    WellFormedTask (Task.construct func args) := by
  intro w w1 r h
  cases func with
  | returnsVoid f =>
      simp only [Task.construct] at h
      cases h
      rfl
  | returnsValue f =>
      simp only [Task.construct] at h
      split at h
      · cases h
      · cases h; rfl

theorem add_task_fst {A W V : Type} (p : ThreadsPool W V) (func : Func A W V) (args : A) :
    (add_task p func args).1 = p.lastTaskIndex := rfl

theorem add_task_alloc_fst {W V : Type} (p : ThreadsPool W V) :
    (add_task_alloc p).1 = p.lastTaskIndex := rfl

theorem add_task_register_map {W V : Type} (p : ThreadsPool W V) (task_id j : Nat) :
    (add_task_register p task_id).tasksInfoMap j =
      if j = task_id then some TaskInfo.default else p.tasksInfoMap j := by
  simp [add_task_register, assign_apply]

/-- A call of `add_task` enters and takes its id. -/
theorem inv_alloc {A W V : Type} {s : System W V} (h : Inv s) (func : Func A W V)
    (args : A) : Inv (step (Action.add_task_alloc func args) s) := by
  have hsub : ∀ k, k ≠ s.pool.lastTaskIndex →
      Function.update s.submitting s.pool.lastTaskIndex
        (some (Submitting.allocated (Task.construct func args))) k = s.submitting k :=
    fun k hk => Function.update_noteq hk _ _
  have hsubn : Function.update s.submitting s.pool.lastTaskIndex
        (some (Submitting.allocated (Task.construct func args))) s.pool.lastTaskIndex =
      some (Submitting.allocated (Task.construct func args)) := Function.update_same _ _ _
  refine
    { enq_deq := h.enq_deq, enq_nodup := h.enq_nodup, enq_lt := ?_, enq_done := ?_
      sub_none := ?_, issued := ?_, keys_enq := h.keys_enq, keys_none := ?_
      sub_registered := ?_, rec_default := h.rec_default
      held_deq := h.held_deq, held_default := h.held_default
      held_distinct := h.held_distinct, dequeued_not_run := h.dequeued_not_run
      ran_logged := h.ran_logged, ran_has_value := h.ran_has_value
      completed_logged := h.completed_logged, run_deq := h.run_deq, run_nodup := h.run_nodup
      counter := ?_, wf_queue := h.wf_queue, wf_dequeued := h.wf_dequeued
      wf_submitting := ?_ }
  · intro k hk
    have := h.enq_lt k hk
    show k < s.pool.lastTaskIndex + 1
    omega
  · intro k hk
    have := h.enq_lt k hk
    show Function.update s.submitting s.pool.lastTaskIndex _ k = none
    rw [hsub k (by omega)]; exact h.enq_done k hk
  · intro k hk
    have hk1 : s.pool.lastTaskIndex + 1 ≤ k := hk
    show Function.update s.submitting s.pool.lastTaskIndex _ k = none
    rw [hsub k (by omega)]; exact h.sub_none k (by omega)
  · intro k hk hnone
    have hk1 : k < s.pool.lastTaskIndex + 1 := hk
    have hnone1 : Function.update s.submitting s.pool.lastTaskIndex
        (some (Submitting.allocated (Task.construct func args))) k = none := hnone
    have hne : k ≠ s.pool.lastTaskIndex := by
      intro e; rw [e, hsubn] at hnone1; cases hnone1
    rw [hsub k hne] at hnone1
    exact h.issued k (by omega) hnone1
  · intro k hk
    have hk1 : s.pool.lastTaskIndex + 1 ≤ k := hk
    exact h.keys_none k (by omega)
  · intro k task hk
    have hk1 : Function.update s.submitting s.pool.lastTaskIndex
        (some (Submitting.allocated (Task.construct func args))) k =
          some (Submitting.registered task) := hk
    have hne : k ≠ s.pool.lastTaskIndex := by
      intro e; rw [e, hsubn] at hk1; cases hk1
    rw [hsub k hne] at hk1
    exact h.sub_registered k task hk1
  · show s.pool.completedTasksCounter =
      numCompleted s.pool.tasksInfoMap (s.pool.lastTaskIndex + 1)
    have h2 : completedAt s.pool.tasksInfoMap s.pool.lastTaskIndex = false :=
      completedAt_none (h.keys_none _ (Nat.le_refl _))
    simp [numCompleted, h2, h.counter]
  · intro k c hk
    have hk1 : Function.update s.submitting s.pool.lastTaskIndex
        (some (Submitting.allocated (Task.construct func args))) k = some c := hk
    by_cases hne : k = s.pool.lastTaskIndex
    · rw [hne, hsubn] at hk1
      injection hk1 with hk1
      rw [← hk1]
      exact wf_construct func args
    · rw [hsub k hne] at hk1
      exact h.wf_submitting k c hk1

/-- Facts about an id whose call is in progress. -/
theorem submitting_facts {W V : Type} {s : System W V} (h : Inv s) {k : Nat}
    {c : Submitting W V} (hc : s.submitting k = some c) :
    k < s.pool.lastTaskIndex ∧ k ∉ s.enqueueLog ∧ k ∉ s.dequeueLog := by
  have h1 : k < s.pool.lastTaskIndex := by
    by_contra hge
    rw [h.sub_none k (by omega)] at hc
    cases hc
  have h2 : k ∉ s.enqueueLog := by
    intro hmem
    rw [h.enq_done k hmem] at hc
    cases hc
  exact ⟨h1, h2, fun hd => h2 (deq_subset h hd)⟩

theorem register_step_eq {W V : Type} {s : System W V} {task_id : Nat} {task : Task W V}
    (hc : s.submitting task_id = some (Submitting.allocated task)) :
    register_step s task_id =
      { s with
        pool := add_task_register s.pool task_id
        submitting :=
          Function.update s.submitting task_id (some (Submitting.registered task)) } := by
  unfold register_step
  simp only [hc]

theorem register_step_noop {W V : Type} {s : System W V} {task_id : Nat}
    (hc : ∀ task, s.submitting task_id ≠ some (Submitting.allocated task)) :
    register_step s task_id = s := by
  unfold register_step
  split
  · next task hs => exact absurd hs (hc task)
  · rfl

theorem enqueue_step_eq {W V : Type} {s : System W V} {task_id : Nat} {task : Task W V}
    (hc : s.submitting task_id = some (Submitting.registered task)) :
    enqueue_step s task_id =
      { s with
        pool := add_task_enqueue s.pool task task_id
        submitting := Function.update s.submitting task_id none
        enqueueLog := s.enqueueLog ++ [task_id] } := by
  unfold enqueue_step
  simp only [hc]

theorem enqueue_step_noop {W V : Type} {s : System W V} {task_id : Nat}
    (hc : ∀ task, s.submitting task_id ≠ some (Submitting.registered task)) :
    enqueue_step s task_id = s := by
  unfold enqueue_step
  split
  · next task hs => exact absurd hs (hc task)
  · rfl

/-- Either a call is at the given stage for `task_id`, or it is not. -/
theorem allocated_or_not {W V : Type} (s : System W V) (task_id : Nat) :
    (∃ task, s.submitting task_id = some (Submitting.allocated task)) ∨
      ∀ task, s.submitting task_id ≠ some (Submitting.allocated task) := by
  cases hs : s.submitting task_id with
  | none => exact Or.inr (fun _ e => by cases e)
  | some c =>
      cases c with
      | allocated task => exact Or.inl ⟨task, rfl⟩
      | registered task => exact Or.inr (fun _ e => by cases e)

theorem registered_or_not {W V : Type} (s : System W V) (task_id : Nat) :
    (∃ task, s.submitting task_id = some (Submitting.registered task)) ∨
      ∀ task, s.submitting task_id ≠ some (Submitting.registered task) := by
  cases hs : s.submitting task_id with
  | none => exact Or.inr (fun _ e => by cases e)
  | some c =>
      cases c with
      | allocated task => exact Or.inr (fun _ e => by cases e)
      | registered task => exact Or.inl ⟨task, rfl⟩

/-- The call that took `task_id` registers the record. -/
theorem inv_register {W V : Type} {s : System W V} (h : Inv s) (task_id : Nat) :
    Inv (register_step s task_id) := by
  rcases allocated_or_not s task_id with ⟨task, hc⟩ | hno
  swap
  · rw [register_step_noop hno]; exact h
  rw [register_step_eq hc]
  obtain ⟨hlt, hnotE, hnotD⟩ := submitting_facts h hc
  have hmap := add_task_register_map s.pool task_id
  have hsub : ∀ k, k ≠ task_id →
      Function.update s.submitting task_id (some (Submitting.registered task)) k =
        s.submitting k := fun k hk => Function.update_noteq hk _ _
  have hsubn : Function.update s.submitting task_id (some (Submitting.registered task))
      task_id = some (Submitting.registered task) := Function.update_same _ _ _
  have hold : completedAt s.pool.tasksInfoMap task_id = false := by
    rcases Option.eq_none_or_eq_some (s.pool.tasksInfoMap task_id) with hm | ⟨info, hm⟩
    · exact completedAt_none hm
    · rw [h.rec_default task_id info hnotD hm] at hm
      exact completedAt_default hm
  have hcomp : ∀ k, completedAt (add_task_register s.pool task_id).tasksInfoMap k =
      completedAt s.pool.tasksInfoMap k := by
    intro k
    by_cases hk : k = task_id
    · rw [hk, hold]
      exact completedAt_default (by rw [hmap]; simp)
    · exact completedAt_congr (by rw [hmap]; simp [hk])
  refine
    { enq_deq := h.enq_deq, enq_nodup := h.enq_nodup, enq_lt := h.enq_lt, enq_done := ?_
      sub_none := ?_, issued := ?_, keys_enq := ?_, keys_none := ?_
      sub_registered := ?_, rec_default := ?_
      held_deq := h.held_deq, held_default := ?_
      held_distinct := h.held_distinct, dequeued_not_run := h.dequeued_not_run
      ran_logged := h.ran_logged, ran_has_value := h.ran_has_value
      completed_logged := ?_, run_deq := h.run_deq, run_nodup := h.run_nodup
      counter := ?_, wf_queue := h.wf_queue, wf_dequeued := h.wf_dequeued
      wf_submitting := ?_ }
  · intro k hk
    have hne : k ≠ task_id := fun e => hnotE (e ▸ hk)
    show Function.update s.submitting task_id _ k = none
    rw [hsub k hne]; exact h.enq_done k hk
  · intro k hk
    have hk1 : s.pool.lastTaskIndex ≤ k := hk
    show Function.update s.submitting task_id _ k = none
    rw [hsub k (by omega)]; exact h.sub_none k hk1
  · intro k hk hnone
    have hnone1 : Function.update s.submitting task_id
        (some (Submitting.registered task)) k = none := hnone
    have hne : k ≠ task_id := by
      intro e; rw [e, hsubn] at hnone1; cases hnone1
    rw [hsub k hne] at hnone1
    exact h.issued k hk hnone1
  · intro k hk
    show ∃ info, (add_task_register s.pool task_id).tasksInfoMap k = some info
    have hne : k ≠ task_id := fun e => hnotE (e ▸ hk)
    rw [hmap]; simp only [hne, if_false]
    exact h.keys_enq k hk
  · intro k hk
    have hk1 : s.pool.lastTaskIndex ≤ k := hk
    show (add_task_register s.pool task_id).tasksInfoMap k = none
    rw [hmap]
    have hne : k ≠ task_id := by omega
    simp only [hne, if_false]
    exact h.keys_none k hk1
  · intro k t hk
    have hk1 : Function.update s.submitting task_id
        (some (Submitting.registered task)) k = some (Submitting.registered t) := hk
    show (add_task_register s.pool task_id).tasksInfoMap k = some TaskInfo.default
    rw [hmap]
    by_cases hne : k = task_id
    · simp [hne]
    · simp only [hne, if_false]
      rw [hsub k hne] at hk1
      exact h.sub_registered k t hk1
  · intro k info hk hinfo
    have hinfo1 : (add_task_register s.pool task_id).tasksInfoMap k = some info := hinfo
    rw [hmap] at hinfo1
    by_cases hne : k = task_id
    · simp only [hne, if_true] at hinfo1
      injection hinfo1 with hinfo1
      exact hinfo1.symm
    · simp only [hne, if_false] at hinfo1
      exact h.rec_default k info hk hinfo1
  · intro i w k hw hk
    show (add_task_register s.pool task_id).tasksInfoMap k = some TaskInfo.default
    have hne : k ≠ task_id := fun e => hnotD (e ▸ h.held_deq i w k hw hk)
    rw [hmap]; simp only [hne, if_false]
    exact h.held_default i w k hw hk
  · intro k hk
    have hk1 : completedAt (add_task_register s.pool task_id).tasksInfoMap k = true := hk
    rw [hcomp] at hk1
    exact h.completed_logged k hk1
  · show s.pool.completedTasksCounter =
      numCompleted (add_task_register s.pool task_id).tasksInfoMap s.pool.lastTaskIndex
    rw [numCompleted_congr _ (fun k _ => hcomp k)]
    exact h.counter
  · intro k c hk
    have hk1 : Function.update s.submitting task_id
        (some (Submitting.registered task)) k = some c := hk
    by_cases hne : k = task_id
    · rw [hne, hsubn] at hk1
      injection hk1 with hk1
      rw [← hk1]
      exact h.wf_submitting task_id (Submitting.allocated task) hc
    · rw [hsub k hne] at hk1
      exact h.wf_submitting k c hk1

/-- The call that took `task_id` enqueues its pair and returns. -/
theorem inv_enqueue {W V : Type} {s : System W V} (h : Inv s) (task_id : Nat) :
    Inv (enqueue_step s task_id) := by
  rcases registered_or_not s task_id with ⟨task, hc⟩ | hno
  swap
  · rw [enqueue_step_noop hno]; exact h
  rw [enqueue_step_eq hc]
  obtain ⟨hlt, hnotE, hnotD⟩ := submitting_facts h hc
  have hsub : ∀ k, k ≠ task_id →
      Function.update s.submitting task_id none k = s.submitting k :=
    fun k hk => Function.update_noteq hk _ _
  have hsubn : Function.update s.submitting task_id none task_id = none :=
    Function.update_same _ _ _
  have hmemE : ∀ k, k ∈ s.enqueueLog ++ [task_id] ↔ k ∈ s.enqueueLog ∨ k = task_id := by
    intro k; simp
  refine
    { enq_deq := ?_, enq_nodup := ?_, enq_lt := ?_, enq_done := ?_
      sub_none := ?_, issued := ?_, keys_enq := ?_, keys_none := h.keys_none
      sub_registered := ?_, rec_default := h.rec_default
      held_deq := h.held_deq, held_default := h.held_default
      held_distinct := h.held_distinct, dequeued_not_run := h.dequeued_not_run
      ran_logged := h.ran_logged, ran_has_value := h.ran_has_value
      completed_logged := h.completed_logged, run_deq := h.run_deq, run_nodup := h.run_nodup
      counter := h.counter, wf_queue := ?_, wf_dequeued := h.wf_dequeued
      wf_submitting := ?_ }
  · show s.enqueueLog ++ [task_id] =
      s.dequeueLog ++ (s.pool.taskPool ++ [(task, task_id)]).map Prod.snd
    rw [List.map_append, ← List.append_assoc, ← h.enq_deq]
    rfl
  · show (s.enqueueLog ++ [task_id]).Nodup
    rw [List.nodup_append]
    refine ⟨h.enq_nodup, by simp, ?_⟩
    intro k hk1 hk2
    simp only [List.mem_singleton] at hk2
    exact hnotE (hk2 ▸ hk1)
  · intro k hk
    rcases (hmemE k).mp hk with h1 | h1
    · exact h.enq_lt k h1
    · rw [h1]; exact hlt
  · intro k hk
    show Function.update s.submitting task_id none k = none
    by_cases hne : k = task_id
    · rw [hne, hsubn]
    · rw [hsub k hne]
      rcases (hmemE k).mp hk with h1 | h1
      · exact h.enq_done k h1
      · exact absurd h1 hne
  · intro k hk
    have hk1 : s.pool.lastTaskIndex ≤ k := hk
    show Function.update s.submitting task_id none k = none
    rw [hsub k (by omega)]; exact h.sub_none k hk1
  · intro k hk hnone
    have hnone1 : Function.update s.submitting task_id none k = none := hnone
    have hk1 : k < s.pool.lastTaskIndex := hk
    apply (hmemE k).mpr
    by_cases hne : k = task_id
    · exact Or.inr hne
    · rw [hsub k hne] at hnone1
      exact Or.inl (h.issued k hk1 hnone1)
  · intro k hk
    rcases (hmemE k).mp hk with h1 | h1
    · exact h.keys_enq k h1
    · rw [h1]; exact ⟨_, h.sub_registered task_id task hc⟩
  · intro k t hk
    have hk1 : Function.update s.submitting task_id none k =
        some (Submitting.registered t) := hk
    have hne : k ≠ task_id := by
      intro e; rw [e, hsubn] at hk1; cases hk1
    rw [hsub k hne] at hk1
    exact h.sub_registered k t hk1
  · intro t ht
    have ht1 : t ∈ s.pool.taskPool ++ [(task, task_id)] := ht
    rw [List.mem_append, List.mem_singleton] at ht1
    rcases ht1 with h1 | h1
    · exact h.wf_queue t h1
    · rw [h1]; exact h.wf_submitting task_id _ hc
  · intro k c hk
    have hk1 : Function.update s.submitting task_id none k = some c := hk
    have hne : k ≠ task_id := by
      intro e; rw [e, hsubn] at hk1; cases hk1
    rw [hsub k hne] at hk1
    exact h.wf_submitting k c hk1

/-- A call of `add_task` made without interruption is the three steps of the
call, one after the other. -/
theorem step_add_task_eq {A W V : Type} {s : System W V} (h : Inv s) (func : Func A W V)
    (args : A) :
    step (Action.add_task func args) s =
      step (Action.add_task_enqueue s.pool.lastTaskIndex)
        (step (Action.add_task_register s.pool.lastTaskIndex)
          (step (Action.add_task_alloc func args) s)) := by
  have hnone : s.submitting s.pool.lastTaskIndex = none := h.sub_none _ (Nat.le_refl _)
  have h1 : (step (Action.add_task_alloc func args) s).submitting s.pool.lastTaskIndex =
      some (Submitting.allocated (Task.construct func args)) := Function.update_same _ _ _
  show _ = enqueue_step (register_step (step (Action.add_task_alloc func args) s) _) _
  rw [register_step_eq h1]
  have h2 : ({ step (Action.add_task_alloc func args) s with
      pool := add_task_register (step (Action.add_task_alloc func args) s).pool
        s.pool.lastTaskIndex
      submitting := Function.update (step (Action.add_task_alloc func args) s).submitting
        s.pool.lastTaskIndex (some (Submitting.registered (Task.construct func args))) } :
      System W V).submitting s.pool.lastTaskIndex =
      some (Submitting.registered (Task.construct func args)) := Function.update_same _ _ _
  rw [enqueue_step_eq h2]
  have hsub : Function.update (Function.update (Function.update s.submitting
      s.pool.lastTaskIndex (some (Submitting.allocated (Task.construct func args))))
      s.pool.lastTaskIndex (some (Submitting.registered (Task.construct func args))))
      s.pool.lastTaskIndex none = s.submitting := by
    rw [Function.update_idem, Function.update_idem, ← hnone, Function.update_eq_self]
  show ({ s with
      pool := (add_task s.pool func args).2
      enqueueLog := s.enqueueLog ++ [(add_task s.pool func args).1] } : System W V) = _
  simp only [step, add_task_alloc]
  rw [hsub]
  rfl

theorem inv_add_task {A W V : Type} {s : System W V} (h : Inv s) (func : Func A W V)
    (args : A) : Inv (step (Action.add_task func args) s) := by
  rw [step_add_task_eq h]
  exact inv_enqueue (inv_register (inv_alloc h func args) _) _

theorem getElem?_set_cases {α : Type} {l : List α} {i j : Nat} {a w : α}
    (h : (l.set i a)[j]? = some w) : (j = i ∧ w = a) ∨ (j ≠ i ∧ l[j]? = some w) := by
  rw [List.getElem?_set] at h
  by_cases hij : i = j
  · subst hij
    simp only [if_true] at h
    split at h
    · cases h; exact Or.inl ⟨rfl, rfl⟩
    · cases h
  · simp only [hij, if_false] at h
    exact Or.inr ⟨fun e => hij e.symm, h⟩

theorem run_ok {W V : Type} {t t1 : Task W V} {w w1 : W}
    (h : t.run w = Except.ok (t1, w1)) :
    ∃ wa r, t.void_function w = Except.ok wa ∧ t.non_void_function wa = Except.ok (w1, r) ∧
      t1 = { t with return_value := r } := by
  unfold Task.run at h
  cases hv : t.void_function w with
  | error e => simp [hv] at h
  | ok wa =>
      cases hn : t.non_void_function wa with
      | error e => simp [hv, hn] at h
      | ok pr =>
          obtain ⟨w2, r⟩ := pr
          simp only [hv, hn] at h
          injection h with h
          injection h with ht hw
          exact ⟨wa, r, rfl, by rw [← hw]; exact hn, ht.symm⟩

/-- What the publication does to a record that exists and whose task carries a
non-empty `return_value`. -/
theorem run_publish_spec {W V : Type} (p : ThreadsPool W V) (task : Task W V × Nat)
    (info : TaskInfo V) (hinfo : p.tasksInfoMap task.2 = some info)
    (hval : task.1.return_value.has_value = true) :
    ∃ p1, run_publish p task = some p1 ∧
      p1.taskPool = p.taskPool ∧ p1.quite = p.quite ∧
      p1.lastTaskIndex = p.lastTaskIndex ∧
      p1.completedTasksCounter = p.completedTasksCounter + 1 ∧
      ∀ j, p1.tasksInfoMap j =
        if j = task.2 then
          some { status := TaskStatus.completed
                 result := if task.1.has_result then task.1.return_value else info.result }
        else p.tasksInfoMap j := by
  unfold run_publish
  by_cases hr : task.1.has_result = true
  · have hg : task.1.get_result = some task.1.return_value := by
      unfold Task.get_result
      have hv : (!task.1.is_void) = true := hr
      simp [hv, hval]
    simp only [hr, if_true, hg]
    refine ⟨_, rfl, rfl, rfl, rfl, rfl, ?_⟩
    intro j
    simp only [assign_status_apply, assign_result_apply]
    by_cases hj : j = task.2
    · subst hj
      have h1 : Registry.assign_result p.tasksInfoMap task.2 task.1.return_value task.2 =
          some { (Registry.subscript p.tasksInfoMap task.2).1 with
            result := task.1.return_value } := by
        rw [assign_result_apply]; simp
      simp [subscript_of_some h1]
    · simp [hj]
  · simp only [hr]
    refine ⟨_, rfl, rfl, rfl, rfl, rfl, ?_⟩
    intro j
    simp only [assign_status_apply]
    by_cases hj : j = task.2
    · subst hj
      simp [subscript_of_some hinfo]
    · simp [hj]

theorem run_dequeue_spec {W V : Type} {p p1 : ThreadsPool W V} {task : Task W V × Nat}
    (h : run_dequeue p = some (task, p1)) :
    p.taskPool = task :: p1.taskPool ∧ p.quite = false ∧
      p1.tasksInfoMap = p.tasksInfoMap ∧ p1.quite = p.quite ∧
      p1.lastTaskIndex = p.lastTaskIndex ∧
      p1.completedTasksCounter = p.completedTasksCounter := by
  unfold run_dequeue at h
  cases hq : p.taskPool with
  | nil => simp [hq] at h
  | cons t rest =>
      simp only [hq] at h
      by_cases hquite : p.quite = true
      · simp [hquite] at h
      · simp only [Bool.not_eq_true] at hquite
        simp only [hquite, Bool.not_false, if_true] at h
        injection h with h
        injection h with h1 h2
        subst h1; subst h2
        exact ⟨rfl, hquite, rfl, hquite.symm, rfl, rfl⟩

/-- The registry after the publication of `task`, whose record was `info`. -/
theorem run_publish_eq {W V : Type} (p : ThreadsPool W V) (task : Task W V × Nat)
    (info : TaskInfo V) (hinfo : p.tasksInfoMap task.2 = some info)
    (hval : task.1.return_value.has_value = true) :
    run_publish p task =
      some { p with
        tasksInfoMap := Function.update p.tasksInfoMap task.2
          (some { status := TaskStatus.completed
                  result := if task.1.has_result then task.1.return_value else info.result })
        completedTasksCounter := p.completedTasksCounter + 1 } := by
  obtain ⟨p1, hp1, hq, hqu, hn, hc, hm⟩ := run_publish_spec p task info hinfo hval
  rw [hp1]
  congr 1
  cases p1 with
  | mk q m qu n c =>
      simp only at hq hqu hn hc hm
      subst hq; subst hqu; subst hn; subst hc
      congr 1
      funext j
      rw [hm j]
      by_cases hj : j = task.2
      · subst hj; simp
      · simp [hj, Function.update_noteq]

theorem mem_runIds_of_mem {W V : Type} {s : System W V} {k : Nat} {r : StdAny V}
    (h : (k, r) ∈ s.runLog) : k ∈ s.runIds := by
  unfold System.runIds
  exact List.mem_map.mpr ⟨(k, r), h, rfl⟩

/-- An observer inserts a value-initialised record for an id below
`lastTaskIndex` that has none. -/
theorem inv_insert {W V : Type} {s : System W V} (h : Inv s) {task_id : Nat}
    (hlt : task_id < s.pool.lastTaskIndex) (hm : s.pool.tasksInfoMap task_id = none) :
    Inv { s with pool := { s.pool with
      tasksInfoMap := Function.update s.pool.tasksInfoMap task_id (some TaskInfo.default) } } := by
  have hmap : ∀ k, k ≠ task_id →
      Function.update s.pool.tasksInfoMap task_id (some TaskInfo.default) k =
        s.pool.tasksInfoMap k := fun k hk => Function.update_noteq hk _ _
  have hmapn : Function.update s.pool.tasksInfoMap task_id (some TaskInfo.default) task_id =
      some (TaskInfo.default : TaskInfo V) := Function.update_same _ _ _
  have hne_of_some : ∀ k info, s.pool.tasksInfoMap k = some info → k ≠ task_id := by
    intro k info hk e
    rw [e, hm] at hk; cases hk
  have hcomp : ∀ k, completedAt
      (Function.update s.pool.tasksInfoMap task_id (some TaskInfo.default)) k =
      completedAt s.pool.tasksInfoMap k := by
    intro k
    by_cases hk : k = task_id
    · rw [hk, completedAt_none hm]
      exact completedAt_default hmapn
    · exact completedAt_congr (hmap k hk)
  refine
    { enq_deq := h.enq_deq, enq_nodup := h.enq_nodup, enq_lt := h.enq_lt
      enq_done := h.enq_done, sub_none := h.sub_none, issued := h.issued
      keys_enq := ?_, keys_none := ?_
      sub_registered := ?_, rec_default := ?_
      held_deq := h.held_deq, held_default := ?_
      held_distinct := h.held_distinct, dequeued_not_run := h.dequeued_not_run
      ran_logged := h.ran_logged, ran_has_value := h.ran_has_value
      completed_logged := ?_, run_deq := h.run_deq, run_nodup := h.run_nodup
      counter := ?_, wf_queue := h.wf_queue, wf_dequeued := h.wf_dequeued
      wf_submitting := h.wf_submitting }
  · intro k hk
    obtain ⟨info, hinfo⟩ := h.keys_enq k hk
    exact ⟨info, by
      show Function.update s.pool.tasksInfoMap task_id _ k = some info
      rw [hmap k (hne_of_some k info hinfo)]; exact hinfo⟩
  · intro k hk
    show Function.update s.pool.tasksInfoMap task_id _ k = none
    have hk1 : s.pool.lastTaskIndex ≤ k := hk
    rw [hmap k (by omega)]; exact h.keys_none k hk1
  · intro k t hk
    have := h.sub_registered k t hk
    show Function.update s.pool.tasksInfoMap task_id _ k = some TaskInfo.default
    rw [hmap k (hne_of_some k _ this)]; exact this
  · intro k info hk hinfo
    have hinfo1 : Function.update s.pool.tasksInfoMap task_id (some TaskInfo.default) k =
        some info := hinfo
    by_cases hkt : k = task_id
    · rw [hkt, hmapn] at hinfo1
      injection hinfo1 with hinfo1
      exact hinfo1.symm
    · rw [hmap k hkt] at hinfo1
      exact h.rec_default k info hk hinfo1
  · intro i w k hw hk
    have := h.held_default i w k hw hk
    show Function.update s.pool.tasksInfoMap task_id _ k = some TaskInfo.default
    rw [hmap k (hne_of_some k _ this)]; exact this
  · intro k hk
    have hk1 : completedAt
        (Function.update s.pool.tasksInfoMap task_id (some TaskInfo.default)) k = true := hk
    rw [hcomp] at hk1
    exact h.completed_logged k hk1
  · show s.pool.completedTasksCounter =
      numCompleted (Function.update s.pool.tasksInfoMap task_id (some TaskInfo.default))
        s.pool.lastTaskIndex
    rw [numCompleted_congr _ (fun k _ => hcomp k)]
    exact h.counter

theorem inv_observer {W V : Type} {s : System W V} (h : Inv s) (task_id : Nat)
    (p1 : ThreadsPool W V)
    (hp : p1 = (task_completed s.pool task_id).2 ∨ p1 = (wait_predicate s.pool task_id).2 ∨
      (∃ r, wait_result s.pool task_id = some (r, p1))) :
    Inv { s with pool := p1 } := by
  rcases observer_pool s.pool task_id p1 hp with h1 | ⟨hlt, hm, h1⟩
  · rw [h1]; exact h
  · rw [h1]; exact inv_insert h hlt hm

theorem inv_shutdown {W V : Type} {s : System W V} (h : Inv s) :
    Inv { s with pool := destructor s.pool } := by
  exact
    { enq_deq := h.enq_deq, enq_nodup := h.enq_nodup, enq_lt := h.enq_lt
      enq_done := h.enq_done, sub_none := h.sub_none, issued := h.issued
      keys_enq := h.keys_enq, keys_none := h.keys_none
      sub_registered := h.sub_registered, rec_default := h.rec_default
      held_deq := h.held_deq, held_default := h.held_default
      held_distinct := h.held_distinct, dequeued_not_run := h.dequeued_not_run
      ran_logged := h.ran_logged, ran_has_value := h.ran_has_value
      completed_logged := h.completed_logged, run_deq := h.run_deq, run_nodup := h.run_nodup
      counter := h.counter, wf_queue := h.wf_queue, wf_dequeued := h.wf_dequeued
      wf_submitting := h.wf_submitting }

/-- Worker `i` is replaced by a worker that holds nothing. -/
theorem inv_release {W V : Type} {s : System W V} (h : Inv s) (i : Nat) (w1 : Worker W V)
    (hfree : w1 = Worker.idle ∨ w1 = Worker.exited) :
    Inv { s with workers := s.workers.set i w1 } := by
  have hheld : w1.heldId = none := by
    rcases hfree with e | e <;> rw [e] <;> rfl
  have hnd : ∀ task, w1 ≠ Worker.dequeued task := by
    intro task e
    rcases hfree with e1 | e1 <;> rw [e1] at e <;> cases e
  have hnr : ∀ task, w1 ≠ Worker.ran task := by
    intro task e
    rcases hfree with e1 | e1 <;> rw [e1] at e <;> cases e
  refine
    { enq_deq := h.enq_deq, enq_nodup := h.enq_nodup, enq_lt := h.enq_lt
      enq_done := h.enq_done, sub_none := h.sub_none, issued := h.issued
      keys_enq := h.keys_enq, keys_none := h.keys_none
      sub_registered := h.sub_registered, rec_default := h.rec_default
      held_deq := ?_, held_default := ?_
      held_distinct := ?_, dequeued_not_run := ?_
      ran_logged := ?_, ran_has_value := ?_
      completed_logged := h.completed_logged, run_deq := h.run_deq, run_nodup := h.run_nodup
      counter := h.counter, wf_queue := h.wf_queue, wf_dequeued := ?_
      wf_submitting := h.wf_submitting }
  · intro j w k hw hk
    rcases getElem?_set_cases hw with ⟨_, e⟩ | ⟨_, hold⟩
    · rw [e, hheld] at hk; cases hk
    · exact h.held_deq j w k hold hk
  · intro j w k hw hk
    rcases getElem?_set_cases hw with ⟨_, e⟩ | ⟨_, hold⟩
    · rw [e, hheld] at hk; cases hk
    · exact h.held_default j w k hold hk
  · intro j1 j2 w2 w3 k hw2 hw3 hk2 hk3
    rcases getElem?_set_cases hw2 with ⟨_, e⟩ | ⟨_, hold2⟩
    · rw [e, hheld] at hk2; cases hk2
    · rcases getElem?_set_cases hw3 with ⟨_, e⟩ | ⟨_, hold3⟩
      · rw [e, hheld] at hk3; cases hk3
      · exact h.held_distinct j1 j2 w2 w3 k hold2 hold3 hk2 hk3
  · intro j task hw
    rcases getElem?_set_cases hw with ⟨_, e⟩ | ⟨_, hold⟩
    · exact absurd e.symm (hnd task)
    · exact h.dequeued_not_run j task hold
  · intro j task hw
    rcases getElem?_set_cases hw with ⟨_, e⟩ | ⟨_, hold⟩
    · exact absurd e.symm (hnr task)
    · exact h.ran_logged j task hold
  · intro j task hw
    rcases getElem?_set_cases hw with ⟨_, e⟩ | ⟨_, hold⟩
    · exact absurd e.symm (hnr task)
    · exact h.ran_has_value j task hold
  · intro j task hw
    rcases getElem?_set_cases hw with ⟨_, e⟩ | ⟨_, hold⟩
    · exact absurd e.symm (hnd task)
    · exact h.wf_dequeued j task hold

/-- Worker `i`, which holds `task`, dies, and `std::terminate` is called. -/
theorem inv_dead {W V : Type} {s : System W V} (h : Inv s) (i : Nat) (w : Worker W V)
    (task : Task W V × Nat) (hw : s.workers[i]? = some w) (hheld : w.heldId = some task.2) :
    Inv { s with workers := s.workers.set i (Worker.dead task), terminated := true } := by
  refine
    { enq_deq := h.enq_deq, enq_nodup := h.enq_nodup, enq_lt := h.enq_lt
      enq_done := h.enq_done, sub_none := h.sub_none, issued := h.issued
      keys_enq := h.keys_enq, keys_none := h.keys_none
      sub_registered := h.sub_registered, rec_default := h.rec_default
      held_deq := ?_, held_default := ?_
      held_distinct := ?_, dequeued_not_run := ?_
      ran_logged := ?_, ran_has_value := ?_
      completed_logged := h.completed_logged, run_deq := h.run_deq, run_nodup := h.run_nodup
      counter := h.counter, wf_queue := h.wf_queue, wf_dequeued := ?_
      wf_submitting := h.wf_submitting }
  · intro j w1 k hj hk
    rcases getElem?_set_cases hj with ⟨_, e⟩ | ⟨_, hold⟩
    · subst e
      exact h.held_deq i w k hw (by rw [hheld]; exact hk)
    · exact h.held_deq j w1 k hold hk
  · intro j w1 k hj hk
    rcases getElem?_set_cases hj with ⟨_, e⟩ | ⟨_, hold⟩
    · subst e
      exact h.held_default i w k hw (by rw [hheld]; exact hk)
    · exact h.held_default j w1 k hold hk
  · intro j1 j2 w2 w3 k hw2 hw3 hk2 hk3
    rcases getElem?_set_cases hw2 with ⟨e1, e⟩ | ⟨_, hold2⟩
    · subst e
      rcases getElem?_set_cases hw3 with ⟨e2, _⟩ | ⟨_, hold3⟩
      · rw [e1, e2]
      · rw [e1]
        exact h.held_distinct i j2 w w3 k hw hold3 (by rw [hheld]; exact hk2) hk3
    · rcases getElem?_set_cases hw3 with ⟨e2, e⟩ | ⟨_, hold3⟩
      · subst e
        rw [e2]
        exact h.held_distinct j1 i w2 w k hold2 hw hk2 (by rw [hheld]; exact hk3)
      · exact h.held_distinct j1 j2 w2 w3 k hold2 hold3 hk2 hk3
  · intro j t hj
    rcases getElem?_set_cases hj with ⟨_, e⟩ | ⟨_, hold⟩
    · cases e
    · exact h.dequeued_not_run j t hold
  · intro j t hj
    rcases getElem?_set_cases hj with ⟨_, e⟩ | ⟨_, hold⟩
    · cases e
    · exact h.ran_logged j t hold
  · intro j t hj
    rcases getElem?_set_cases hj with ⟨_, e⟩ | ⟨_, hold⟩
    · cases e
    · exact h.ran_has_value j t hold
  · intro j t hj
    rcases getElem?_set_cases hj with ⟨_, e⟩ | ⟨_, hold⟩
    · cases e
    · exact h.wf_dequeued j t hold

theorem inv_dequeue {W V : Type} {s : System W V} (h : Inv s) (i : Nat)
    {task : Task W V × Nat} {p1 : ThreadsPool W V}
    (hd : run_dequeue s.pool = some (task, p1)) :
    Inv { s with
      pool := p1
      workers := s.workers.set i (Worker.dequeued task)
      dequeueLog := s.dequeueLog ++ [task.2] } := by
  obtain ⟨hq, _, hm, _, hn, hc⟩ := run_dequeue_spec hd
  have hmemq : task ∈ s.pool.taskPool := by rw [hq]; exact List.mem_cons_self _ _
  have hnotD : task.2 ∉ s.dequeueLog := queue_not_deq h hmemq
  have hrec : s.pool.tasksInfoMap task.2 = some TaskInfo.default := by
    obtain ⟨info, hinfo⟩ := h.keys_enq _ (queue_subset h hmemq)
    rw [h.rec_default _ info hnotD hinfo] at hinfo
    exact hinfo
  have hmemD : ∀ k, k ∈ s.dequeueLog ++ [task.2] ↔ k ∈ s.dequeueLog ∨ k = task.2 := by
    intro k; simp
  refine
    { enq_deq := ?_, enq_nodup := h.enq_nodup, enq_lt := ?_
      enq_done := h.enq_done, sub_none := ?_, issued := ?_
      keys_enq := ?_, keys_none := ?_
      sub_registered := ?_, rec_default := ?_
      held_deq := ?_, held_default := ?_
      held_distinct := ?_, dequeued_not_run := ?_
      ran_logged := ?_, ran_has_value := ?_
      completed_logged := ?_, run_deq := ?_, run_nodup := h.run_nodup
      counter := ?_, wf_queue := ?_, wf_dequeued := ?_
      wf_submitting := h.wf_submitting }
  · show s.enqueueLog = (s.dequeueLog ++ [task.2]) ++ p1.taskPool.map Prod.snd
    rw [h.enq_deq, hq]
    simp
  · intro k hk
    show k < p1.lastTaskIndex
    rw [hn]; exact h.enq_lt k hk
  · intro k hk
    have hk1 : p1.lastTaskIndex ≤ k := hk
    rw [hn] at hk1
    exact h.sub_none k hk1
  · intro k hk hnone
    have hk1 : k < p1.lastTaskIndex := hk
    rw [hn] at hk1
    exact h.issued k hk1 hnone
  · intro k hk
    show ∃ info, p1.tasksInfoMap k = some info
    rw [hm]; exact h.keys_enq k hk
  · intro k hk
    have hk1 : p1.lastTaskIndex ≤ k := hk
    rw [hn] at hk1
    show p1.tasksInfoMap k = none
    rw [hm]; exact h.keys_none k hk1
  · intro k t hk
    show p1.tasksInfoMap k = some TaskInfo.default
    rw [hm]; exact h.sub_registered k t hk
  · intro k info hk hinfo
    have hinfo1 : p1.tasksInfoMap k = some info := hinfo
    rw [hm] at hinfo1
    exact h.rec_default k info (fun hdq => hk ((hmemD k).mpr (Or.inl hdq))) hinfo1
  · intro j w k hw hk
    apply (hmemD k).mpr
    rcases getElem?_set_cases hw with ⟨_, e⟩ | ⟨_, hold⟩
    · subst e
      simp only [Worker.heldId, Option.some.injEq] at hk
      exact Or.inr hk.symm
    · exact Or.inl (h.held_deq j w k hold hk)
  · intro j w k hw hk
    show p1.tasksInfoMap k = some TaskInfo.default
    rw [hm]
    rcases getElem?_set_cases hw with ⟨_, e⟩ | ⟨_, hold⟩
    · subst e
      simp only [Worker.heldId, Option.some.injEq] at hk
      rw [← hk]; exact hrec
    · exact h.held_default j w k hold hk
  · intro j1 j2 w1 w2 k hw1 hw2 hk1 hk2
    rcases getElem?_set_cases hw1 with ⟨e1, e⟩ | ⟨_, hold1⟩
    · subst e
      simp only [Worker.heldId, Option.some.injEq] at hk1
      rcases getElem?_set_cases hw2 with ⟨e2, _⟩ | ⟨_, hold2⟩
      · rw [e1, e2]
      · exact absurd (h.held_deq j2 w2 k hold2 hk2) (hk1 ▸ hnotD)
    · rcases getElem?_set_cases hw2 with ⟨_, e⟩ | ⟨_, hold2⟩
      · subst e
        simp only [Worker.heldId, Option.some.injEq] at hk2
        exact absurd (h.held_deq j1 w1 k hold1 hk1) (hk2 ▸ hnotD)
      · exact h.held_distinct j1 j2 w1 w2 k hold1 hold2 hk1 hk2
  · intro j t hj
    rcases getElem?_set_cases hj with ⟨_, e⟩ | ⟨_, hold⟩
    · injection e with e
      subst e
      intro hmem
      exact hnotD (h.run_deq _ hmem)
    · exact h.dequeued_not_run j t hold
  · intro j t hj
    rcases getElem?_set_cases hj with ⟨_, e⟩ | ⟨_, hold⟩
    · cases e
    · exact h.ran_logged j t hold
  · intro j t hj
    rcases getElem?_set_cases hj with ⟨_, e⟩ | ⟨_, hold⟩
    · cases e
    · exact h.ran_has_value j t hold
  · intro k hk
    have hk1 : completedAt p1.tasksInfoMap k = true := hk
    rw [hm] at hk1
    exact h.completed_logged k hk1
  · intro k hk
    exact (hmemD k).mpr (Or.inl (h.run_deq k hk))
  · show p1.completedTasksCounter = numCompleted p1.tasksInfoMap p1.lastTaskIndex
    rw [hc, hm, hn]; exact h.counter
  · intro t ht
    have ht1 : t ∈ p1.taskPool := ht
    exact h.wf_queue t (by rw [hq]; exact List.mem_cons_of_mem _ ht1)
  · intro j t hj
    rcases getElem?_set_cases hj with ⟨_, e⟩ | ⟨_, hold⟩
    · injection e with e
      subst e
      exact h.wf_queue _ hmemq
    · exact h.wf_dequeued j t hold

theorem inv_execute {W V : Type} {s : System W V} (h : Inv s) (i : Nat)
    {task : Task W V × Nat} {t1 : Task W V} {w1 : W}
    (hw : s.workers[i]? = some (Worker.dequeued task))
    (hrun : task.1.run s.world = Except.ok (t1, w1)) :
    Inv { s with
      world := w1
      workers := s.workers.set i (Worker.ran (t1, task.2))
      runLog := s.runLog ++ [(task.2, t1.return_value)] } := by
  have hids : ∀ k, k ∈ (s.runLog ++ [(task.2, t1.return_value)]).map Prod.fst ↔
      k ∈ s.runIds ∨ k = task.2 := by
    intro k; simp [System.runIds]
  have hnot := h.dequeued_not_run i task hw
  have hheld : (Worker.dequeued task : Worker W V).heldId = some task.2 := rfl
  refine
    { enq_deq := h.enq_deq, enq_nodup := h.enq_nodup, enq_lt := h.enq_lt
      enq_done := h.enq_done, sub_none := h.sub_none, issued := h.issued
      keys_enq := h.keys_enq, keys_none := h.keys_none
      sub_registered := h.sub_registered, rec_default := h.rec_default
      held_deq := ?_, held_default := ?_
      held_distinct := ?_, dequeued_not_run := ?_
      ran_logged := ?_, ran_has_value := ?_
      completed_logged := ?_, run_deq := ?_, run_nodup := ?_
      counter := h.counter, wf_queue := h.wf_queue, wf_dequeued := ?_
      wf_submitting := h.wf_submitting }
  · intro j w k hj hk
    rcases getElem?_set_cases hj with ⟨_, e⟩ | ⟨_, hold⟩
    · subst e
      exact h.held_deq i _ k hw hk
    · exact h.held_deq j w k hold hk
  · intro j w k hj hk
    rcases getElem?_set_cases hj with ⟨_, e⟩ | ⟨_, hold⟩
    · subst e
      exact h.held_default i _ k hw hk
    · exact h.held_default j w k hold hk
  · intro j1 j2 w2 w3 k hw2 hw3 hk2 hk3
    rcases getElem?_set_cases hw2 with ⟨e1, e⟩ | ⟨_, hold2⟩
    · subst e
      rcases getElem?_set_cases hw3 with ⟨e2, _⟩ | ⟨_, hold3⟩
      · rw [e1, e2]
      · rw [e1]
        exact h.held_distinct i j2 _ w3 k hw hold3 hk2 hk3
    · rcases getElem?_set_cases hw3 with ⟨e2, e⟩ | ⟨_, hold3⟩
      · subst e
        rw [e2]
        exact h.held_distinct j1 i w2 _ k hold2 hw hk2 hk3
      · exact h.held_distinct j1 j2 w2 w3 k hold2 hold3 hk2 hk3
  · intro j t hj
    rcases getElem?_set_cases hj with ⟨_, e⟩ | ⟨hne, hold⟩
    · cases e
    · intro hmem
      rcases (hids t.2).mp hmem with hm | hm
      · exact h.dequeued_not_run j t hold hm
      · exact hne (h.held_distinct j i _ _ t.2 hold hw rfl (by rw [hheld, hm]))
  · intro j t hj
    show (t.2, t.1.return_value) ∈ s.runLog ++ [(task.2, t1.return_value)]
    rcases getElem?_set_cases hj with ⟨_, e⟩ | ⟨_, hold⟩
    · injection e with e
      subst e
      simp
    · exact List.mem_append_left _ (h.ran_logged j t hold)
  · intro j t hj
    rcases getElem?_set_cases hj with ⟨_, e⟩ | ⟨_, hold⟩
    · injection e with e
      subst e
      obtain ⟨wa, r, _, hnv, ht1⟩ := run_ok hrun
      have := h.wf_dequeued i task hw wa w1 r hnv
      rw [ht1]; exact this
    · exact h.ran_has_value j t hold
  · intro k hk
    exact (hids k).mpr (Or.inl (h.completed_logged k hk))
  · intro k hk
    rcases (hids k).mp hk with hm | hm
    · exact h.run_deq k hm
    · rw [hm]; exact h.held_deq i _ task.2 hw rfl
  · show ((s.runLog ++ [(task.2, t1.return_value)]).map Prod.fst).Nodup
    rw [List.map_append, List.nodup_append]
    refine ⟨h.run_nodup, by simp, ?_⟩
    intro k hk1 hk2
    simp only [List.map_cons, List.map_nil, List.mem_singleton] at hk2
    subst hk2
    exact hnot hk1
  · intro j t hj
    rcases getElem?_set_cases hj with ⟨_, e⟩ | ⟨_, hold⟩
    · cases e
    · exact h.wf_dequeued j t hold

/-- The publication by worker `i` of the pair it has run. -/
theorem inv_publish {W V : Type} {s : System W V} (h : Inv s) (i : Nat)
    {task : Task W V × Nat} (hw : s.workers[i]? = some (Worker.ran task)) :
    Inv { s with
      pool := { s.pool with
        tasksInfoMap := Function.update s.pool.tasksInfoMap task.2
          (some { status := TaskStatus.completed
                  result :=
                    if task.1.has_result then task.1.return_value
                    else (TaskInfo.default : TaskInfo V).result })
        completedTasksCounter := s.pool.completedTasksCounter + 1 }
      workers := s.workers.set i Worker.idle } := by
  have hheld : (Worker.ran task : Worker W V).heldId = some task.2 := rfl
  have hD := h.held_deq i _ task.2 hw hheld
  have hE := deq_subset h hD
  have hlt := h.enq_lt _ hE
  have hrec := h.held_default i _ task.2 hw hheld
  have hbase : Inv ({ s with workers := s.workers.set i Worker.idle } : System W V) :=
    inv_release h i Worker.idle (Or.inl rfl)
  have hmap : ∀ k, k ≠ task.2 →
      Function.update s.pool.tasksInfoMap task.2
        (some { status := TaskStatus.completed
                result :=
                  if task.1.has_result then task.1.return_value
                  else (TaskInfo.default : TaskInfo V).result }) k =
        s.pool.tasksInfoMap k := fun k hk => Function.update_noteq hk _ _
  have hnew : completedAt (Function.update s.pool.tasksInfoMap task.2
        (some { status := TaskStatus.completed
                result :=
                  if task.1.has_result then task.1.return_value
                  else (TaskInfo.default : TaskInfo V).result })) task.2 = true := by
    simp [completedAt]
  refine
    { enq_deq := h.enq_deq, enq_nodup := h.enq_nodup, enq_lt := h.enq_lt
      enq_done := h.enq_done, sub_none := h.sub_none, issued := h.issued
      keys_enq := ?_, keys_none := ?_
      sub_registered := ?_, rec_default := ?_
      held_deq := hbase.held_deq, held_default := ?_
      held_distinct := hbase.held_distinct, dequeued_not_run := hbase.dequeued_not_run
      ran_logged := hbase.ran_logged, ran_has_value := hbase.ran_has_value
      completed_logged := ?_, run_deq := h.run_deq, run_nodup := h.run_nodup
      counter := ?_, wf_queue := h.wf_queue, wf_dequeued := hbase.wf_dequeued
      wf_submitting := h.wf_submitting }
  · intro k hk
    show ∃ info, Function.update s.pool.tasksInfoMap task.2 _ k = some info
    by_cases hkt : k = task.2
    · rw [hkt, Function.update_same]; exact ⟨_, rfl⟩
    · rw [hmap k hkt]; exact h.keys_enq k hk
  · intro k hk
    have hk1 : s.pool.lastTaskIndex ≤ k := hk
    show Function.update s.pool.tasksInfoMap task.2 _ k = none
    rw [hmap k (by omega)]; exact h.keys_none k hk1
  · intro k t hk
    have hne : k ≠ task.2 := by
      intro e
      rw [e, h.enq_done _ hE] at hk
      cases hk
    show Function.update s.pool.tasksInfoMap task.2 _ k = some TaskInfo.default
    rw [hmap k hne]; exact h.sub_registered k t hk
  · intro k info hk hinfo
    have hne : k ≠ task.2 := fun e => hk (e ▸ hD)
    have hinfo1 : Function.update s.pool.tasksInfoMap task.2
        (some { status := TaskStatus.completed
                result :=
                  if task.1.has_result then task.1.return_value
                  else (TaskInfo.default : TaskInfo V).result }) k = some info := hinfo
    rw [hmap k hne] at hinfo1
    exact h.rec_default k info hk hinfo1
  · intro j w k hj hk
    show Function.update s.pool.tasksInfoMap task.2 _ k = some TaskInfo.default
    rcases getElem?_set_cases hj with ⟨_, e⟩ | ⟨hne, hold⟩
    · subst e; simp [Worker.heldId] at hk
    · have hkt : k ≠ task.2 := by
        intro e
        exact hne (h.held_distinct j i w _ k hold hw hk (by rw [hheld, e]))
      rw [hmap k hkt]
      exact h.held_default j w k hold hk
  · intro k hk
    have hk1 : completedAt (Function.update s.pool.tasksInfoMap task.2
        (some { status := TaskStatus.completed
                result :=
                  if task.1.has_result then task.1.return_value
                  else (TaskInfo.default : TaskInfo V).result })) k = true := hk
    by_cases hkt : k = task.2
    · rw [hkt]; exact mem_runIds_of_mem (h.ran_logged i task hw)
    · rw [completedAt_congr (hmap k hkt)] at hk1
      exact h.completed_logged k hk1
  · show s.pool.completedTasksCounter + 1 =
      numCompleted (Function.update s.pool.tasksInfoMap task.2 _) s.pool.lastTaskIndex
    rw [h.counter]
    exact (numCompleted_publish s.pool.tasksInfoMap _ s.pool.lastTaskIndex
      task.2 hlt (completedAt_default hrec) hnew hmap).symm

/-! ## The shape of every step -/

/-- Every scheduling of a worker in a state that satisfies the invariant is one
of: nothing happens (no such worker, worker exited or dead, or blocked on the
empty queue); the worker leaves the loop because `quite` is set; it dequeues
the front pair while `quite` is clear; `run()` throws, the worker is dead and
`std::terminate` is called; `run()` returns; the worker publishes the outcome
for a record that was value-initialised. -/
theorem run_step_cases {W V : Type} {s : System W V} (h : Inv s) (i : Nat) :
    run_step s i = s ∨
      (s.workers[i]? = some Worker.idle ∧ s.pool.quite = true ∧
        run_step s i = { s with workers := s.workers.set i Worker.exited }) ∨
      (∃ task rest, s.workers[i]? = some Worker.idle ∧ s.pool.quite = false ∧
        s.pool.taskPool = task :: rest ∧
        run_dequeue s.pool = some (task, { s.pool with taskPool := rest }) ∧
        run_step s i =
          { s with
            pool := { s.pool with taskPool := rest }
            workers := s.workers.set i (Worker.dequeued task)
            dequeueLog := s.dequeueLog ++ [task.2] }) ∨
      (∃ task e, s.workers[i]? = some (Worker.dequeued task) ∧
        task.1.run s.world = Except.error e ∧
        run_step s i =
          { s with workers := s.workers.set i (Worker.dead task), terminated := true }) ∨
      (∃ task t1 w1, s.workers[i]? = some (Worker.dequeued task) ∧
        task.1.run s.world = Except.ok (t1, w1) ∧
        run_step s i =
          { s with
            world := w1
            workers := s.workers.set i (Worker.ran (t1, task.2))
            runLog := s.runLog ++ [(task.2, t1.return_value)] }) ∨
      (∃ task, s.workers[i]? = some (Worker.ran task) ∧
        s.pool.tasksInfoMap task.2 = some TaskInfo.default ∧
        run_step s i =
          { s with
            pool := { s.pool with
              tasksInfoMap := Function.update s.pool.tasksInfoMap task.2
                (some { status := TaskStatus.completed
                        result :=
                          if task.1.has_result then task.1.return_value
                          else (TaskInfo.default : TaskInfo V).result })
              completedTasksCounter := s.pool.completedTasksCounter + 1 }
            workers := s.workers.set i Worker.idle }) := by
  unfold run_step
  split
  · exact Or.inl rfl
  · exact Or.inl rfl
  · exact Or.inl rfl
  · next hw =>
    split
    · next hq => exact Or.inr (Or.inl ⟨hw, hq, rfl⟩)
    · next hq =>
      split
      · exact Or.inl rfl
      · next task p1 hd =>
        obtain ⟨hpool, hquite, hm, hqu, hn, hc⟩ := run_dequeue_spec hd
        have hp1 : p1 = { s.pool with taskPool := p1.taskPool } := by
          cases p1 with
          | mk q m qu n c =>
              simp only at hm hqu hn hc
              subst hm; subst hqu; subst hn; subst hc
              rfl
        refine Or.inr (Or.inr (Or.inl ⟨task, p1.taskPool, hw, hquite, hpool, ?_, ?_⟩))
        · rw [← hp1]; exact hd
        · rw [← hp1]
  · next task hw =>
    split
    · next e he => exact Or.inr (Or.inr (Or.inr (Or.inl ⟨task, e, hw, he, rfl⟩)))
    · next t1 w1 hrun =>
      exact Or.inr (Or.inr (Or.inr (Or.inr (Or.inl ⟨task, t1, w1, hw, hrun, rfl⟩))))
  · next task hw =>
    have hheld : (Worker.ran task : Worker W V).heldId = some task.2 := rfl
    have hrec := h.held_default i _ task.2 hw hheld
    rw [run_publish_eq s.pool task TaskInfo.default hrec (h.ran_has_value i task hw)]
    exact Or.inr (Or.inr (Or.inr (Or.inr (Or.inr ⟨task, hw, hrec, rfl⟩))))

theorem inv_run_step {W V : Type} {s : System W V} (h : Inv s) (i : Nat) :
    Inv (run_step s i) := by
  rcases run_step_cases h i with e | ⟨_, _, e⟩ | ⟨task, rest, _, _, _, hd, e⟩ |
      ⟨task, err, hw, _, e⟩ | ⟨task, t1, w1, hw, hrun, e⟩ | ⟨task, hw, _, e⟩
  · rw [e]; exact h
  · rw [e]; exact inv_release h i Worker.exited (Or.inr rfl)
  · rw [e]; exact inv_dequeue h i hd
  · rw [e]; exact inv_dead h i _ task hw rfl
  · rw [e]; exact inv_execute h i hw hrun
  · rw [e]; exact inv_publish h i hw

theorem inv_step {W V : Type} {s : System W V} (h : Inv s) (a : Action W V) :
    Inv (step a s) := by
  cases a with
  | add_task func args => exact inv_add_task h func args
  | add_task_alloc func args => exact inv_alloc h func args
  | add_task_register task_id => exact inv_register h task_id
  | add_task_enqueue task_id => exact inv_enqueue h task_id
  | worker i => exact inv_run_step h i
  | task_completed task_id => exact inv_observer h task_id _ (Or.inl rfl)
  | wait task_id => exact inv_observer h task_id _ (Or.inr (Or.inl rfl))
  | wait_result task_id =>
      show Inv (match wait_result s.pool task_id with
        | none => { s with pool := (wait_predicate s.pool task_id).2 }
        | some (_, p1) => { s with pool := p1 })
      split
      · exact inv_observer h task_id _ (Or.inr (Or.inl rfl))
      · next r p1 hr => exact inv_observer h task_id _ (Or.inr (Or.inr ⟨r, hr⟩))
  | wait_all => exact h
  | shutdown => exact inv_shutdown h

theorem exec_cons {W V : Type} (a : Action W V) (acts : List (Action W V)) (s : System W V) :
    exec (a :: acts) s = exec acts (step a s) := rfl

theorem exec_append {W V : Type} (acts1 acts2 : List (Action W V)) (s : System W V) :
    exec (acts1 ++ acts2) s = exec acts2 (exec acts1 s) := by
  simp [exec, List.foldl_append]

theorem inv_exec {W V : Type} (acts : List (Action W V)) {s : System W V} (h : Inv s) :
    Inv (exec acts s) := by
  induction acts generalizing s with
  | nil => exact h
  | cons a acts ih => exact ih (inv_step h a)

theorem inv_steps {W V : Type} {allowed : Action W V → Prop} {s0 s1 : System W V}
    (h : Inv s0) (hs : Steps allowed s0 s1) : Inv s1 := by
  obtain ⟨acts, _, e⟩ := hs
  rw [e]; exact inv_exec acts h

theorem inv_reachable {W V : Type} {num_threads : Nat} {w0 : W} {s : System W V}
    (h : Reachable num_threads w0 s) : Inv s :=
  inv_steps (inv_fresh num_threads w0) h

theorem steps_refl {W V : Type} (allowed : Action W V → Prop) (s : System W V) :
    Steps allowed s s :=
  ⟨[], by simp, rfl⟩

theorem steps_of_exec {W V : Type} (acts : List (Action W V)) (s : System W V) :
    Steps anyAction s (exec acts s) :=
  ⟨acts, fun _ _ => trivial, rfl⟩

theorem steps_trans {W V : Type} {allowed : Action W V → Prop} {s0 s1 s2 : System W V}
    (h1 : Steps allowed s0 s1) (h2 : Steps allowed s1 s2) : Steps allowed s0 s2 := by
  obtain ⟨a1, ha1, e1⟩ := h1
  obtain ⟨a2, ha2, e2⟩ := h2
  refine ⟨a1 ++ a2, ?_, by rw [exec_append, ← e1, e2]⟩
  intro a ha
  rcases List.mem_append.mp ha with h | h
  · exact ha1 a h
  · exact ha2 a h

/-- The pool and the rest of the system after an observer: the system is
unchanged, or a value-initialised record was inserted for an id below
`lastTaskIndex` that had none. -/
theorem step_observer {W V : Type} (s : System W V) (a : Action W V)
    (ha : (∃ k, a = Action.task_completed k) ∨ (∃ k, a = Action.wait k) ∨
      (∃ k, a = Action.wait_result k) ∨ a = Action.wait_all) :
    step a s = s ∨
      ∃ k, k < s.pool.lastTaskIndex ∧ s.pool.tasksInfoMap k = none ∧
        step a s = { s with pool := { s.pool with
          tasksInfoMap := Function.update s.pool.tasksInfoMap k (some TaskInfo.default) } } := by
  have key : ∀ k p1, (p1 = (task_completed s.pool k).2 ∨ p1 = (wait_predicate s.pool k).2 ∨
        (∃ r, wait_result s.pool k = some (r, p1))) →
      ({ s with pool := p1 } : System W V) = s ∨
        ∃ k, k < s.pool.lastTaskIndex ∧ s.pool.tasksInfoMap k = none ∧
          ({ s with pool := p1 } : System W V) = { s with pool := { s.pool with
            tasksInfoMap :=
              Function.update s.pool.tasksInfoMap k (some TaskInfo.default) } } := by
    intro k p1 hp
    rcases observer_pool s.pool k p1 hp with h1 | ⟨hlt, hm, h1⟩
    · left; rw [h1]
    · right; exact ⟨k, hlt, hm, by rw [h1]⟩
  rcases ha with ⟨k, e⟩ | ⟨k, e⟩ | ⟨k, e⟩ | e
  · subst e; exact key k _ (Or.inl rfl)
  · subst e; exact key k _ (Or.inr (Or.inl rfl))
  · subst e
    have e1 : step (Action.wait_result k) s =
        (match wait_result s.pool k with
          | none => { s with pool := (wait_predicate s.pool k).2 }
          | some (_, p1) => { s with pool := p1 }) := rfl
    rw [e1]
    split
    · exact key k _ (Or.inr (Or.inl rfl))
    · next r p1 hr => exact key k _ (Or.inr (Or.inr ⟨r, hr⟩))
  · subst e; exact Or.inl rfl

/-! ## C1: after `wait_all`, every issued id is completed -/

/-- C1. In every state reachable from a freshly constructed pool in which the
predicate of `wait_all` holds (`completedTasksCounter == lastTaskIndex`),
`task_completed(id)` returns `true` for every id below `lastTaskIndex`. -/
theorem wait_all_then_all_completed {W V : Type} (num_threads : Nat) (w0 : W)
    (s : System W V) (hreach : Reachable num_threads w0 s)
    (hall : wait_all_predicate s.pool = true) :
    ∀ task_id, task_id < s.pool.lastTaskIndex → (task_completed s.pool task_id).1 = true := by
  intro task_id hlt
  have hinv := inv_reachable hreach
  have hcount : numCompleted s.pool.tasksInfoMap s.pool.lastTaskIndex = s.pool.lastTaskIndex := by
    rw [← hinv.counter]
    simpa [wait_all_predicate] using hall
  have hc := numCompleted_eq_all _ _ hcount task_id hlt
  rw [task_completed_fst]
  simp [hlt, hc]

/-- C1 at the demo schedule: two tasks submitted, both published, `wait_all`
returns and both ids are reported completed. -/
theorem wait_all_then_all_completed_witness :
    Reachable 2 0 demoState ∧ wait_all_predicate demoState.pool = true ∧
      demoState.pool.lastTaskIndex = 2 ∧
      (∀ task_id, task_id < demoState.pool.lastTaskIndex →
        (task_completed demoState.pool task_id).1 = true) :=
  ⟨steps_of_exec demoSchedule _, by decide, by decide,
    wait_all_then_all_completed 2 0 demoState (steps_of_exec demoSchedule _) (by decide)⟩

/-! ## C3: ids are dense and ordered by submission -/

theorem run_publish_lastTaskIndex {W V : Type} {p p1 : ThreadsPool W V}
    {task : Task W V × Nat} (h : run_publish p task = some p1) :
    p1.lastTaskIndex = p.lastTaskIndex := by
  unfold run_publish at h
  split at h
  · split at h
    · cases h
    · injection h with h; subst h; rfl
  · injection h with h; subst h; rfl

theorem run_step_lastTaskIndex {W V : Type} (s : System W V) (i : Nat) :
    (run_step s i).pool.lastTaskIndex = s.pool.lastTaskIndex := by
  unfold run_step
  split
  · rfl
  · rfl
  · rfl
  · split
    · rfl
    · split
      · rfl
      · next task p1 hd => exact (run_dequeue_spec hd).2.2.2.2.1
  · split <;> rfl
  · split
    · rfl
    · next p1 hp => exact run_publish_lastTaskIndex hp

theorem task_completed_lastTaskIndex {W V : Type} (p : ThreadsPool W V) (task_id : Nat) :
    (task_completed p task_id).2.lastTaskIndex = p.lastTaskIndex := by
  unfold task_completed
  split <;> rfl

theorem register_step_lastTaskIndex {W V : Type} (s : System W V) (task_id : Nat) :
    (register_step s task_id).pool.lastTaskIndex = s.pool.lastTaskIndex := by
  unfold register_step
  split <;> rfl

theorem enqueue_step_lastTaskIndex {W V : Type} (s : System W V) (task_id : Nat) :
    (enqueue_step s task_id).pool.lastTaskIndex = s.pool.lastTaskIndex := by
  unfold enqueue_step
  split <;> rfl

/-- An action that does not start a call of `add_task` leaves `lastTaskIndex`
alone; one that does adds one. -/
theorem step_lastTaskIndex {W V : Type} (a : Action W V) (s : System W V) :
    (step a s).pool.lastTaskIndex =
      if startsCall a then s.pool.lastTaskIndex + 1 else s.pool.lastTaskIndex := by
  cases a with
  | add_task func args => rfl
  | add_task_alloc func args => rfl
  | add_task_register task_id => exact register_step_lastTaskIndex s task_id
  | add_task_enqueue task_id => exact enqueue_step_lastTaskIndex s task_id
  | worker i => exact run_step_lastTaskIndex s i
  | task_completed task_id => exact task_completed_lastTaskIndex s.pool task_id
  | wait task_id => exact task_completed_lastTaskIndex s.pool task_id
  | wait_result task_id =>
      show (match wait_result s.pool task_id with
        | none => { s with pool := (wait_predicate s.pool task_id).2 }
        | some (_, p1) => { s with pool := p1 }).pool.lastTaskIndex = s.pool.lastTaskIndex
      split
      · exact task_completed_lastTaskIndex s.pool task_id
      · next r p1 hr => rw [(wait_result_pool s.pool task_id r p1 hr).1]
  | wait_all => rfl
  | shutdown => rfl

theorem issuedIds_range {W V : Type} (acts : List (Action W V)) (s : System W V) :
    issuedIds acts s = List.range' s.pool.lastTaskIndex (countAddTask acts) ∧
      (exec acts s).pool.lastTaskIndex = s.pool.lastTaskIndex + countAddTask acts := by
  induction acts generalizing s with
  | nil => simp [issuedIds, exec, countAddTask]
  | cons a acts ih =>
      obtain ⟨ih1, ih2⟩ := ih (step a s)
      have hl := step_lastTaskIndex a s
      rw [exec_cons]
      cases a with
      | add_task func args =>
          simp only [startsCall, if_true] at hl
          rw [hl] at ih1 ih2
          simp only [issuedIds, countAddTask, ih1, add_task_fst, List.range'_succ]
          exact ⟨trivial, by omega⟩
      | add_task_alloc func args =>
          simp only [startsCall, if_true] at hl
          rw [hl] at ih1 ih2
          simp only [issuedIds, countAddTask, ih1, add_task_alloc_fst, List.range'_succ]
          exact ⟨trivial, by omega⟩
      | add_task_register k =>
          simp only [startsCall] at hl
          simp only [issuedIds, countAddTask]; rw [hl] at ih1 ih2; exact ⟨ih1, ih2⟩
      | add_task_enqueue k =>
          simp only [startsCall] at hl
          simp only [issuedIds, countAddTask]; rw [hl] at ih1 ih2; exact ⟨ih1, ih2⟩
      | worker i =>
          simp only [startsCall] at hl
          simp only [issuedIds, countAddTask]; rw [hl] at ih1 ih2; exact ⟨ih1, ih2⟩
      | task_completed k =>
          simp only [startsCall] at hl
          simp only [issuedIds, countAddTask]; rw [hl] at ih1 ih2; exact ⟨ih1, ih2⟩
      | wait k =>
          simp only [startsCall] at hl
          simp only [issuedIds, countAddTask]; rw [hl] at ih1 ih2; exact ⟨ih1, ih2⟩
      | wait_result k =>
          simp only [startsCall] at hl
          simp only [issuedIds, countAddTask]; rw [hl] at ih1 ih2; exact ⟨ih1, ih2⟩
      | wait_all =>
          simp only [startsCall] at hl
          simp only [issuedIds, countAddTask]; rw [hl] at ih1 ih2; exact ⟨ih1, ih2⟩
      | shutdown =>
          simp only [startsCall] at hl
          simp only [issuedIds, countAddTask]; rw [hl] at ih1 ih2; exact ⟨ih1, ih2⟩

/-- C3. On a freshly constructed pool, for every schedule of calls of
`add_task` (whole or overlapping one another) interleaved with worker steps and
observers, the k-th call, in the order of the atomic increments the calls start
with, takes the id k: the list of issued ids is `[0, 1, ..., m - 1]` with `m` the
number of calls, so the ids are strictly increasing and pairwise distinct, and
`lastTaskIndex` ends at `m`. -/
theorem issued_ids_dense {W V : Type} (num_threads : Nat) (w0 : W)
    (acts : List (Action W V)) :
    issuedIds acts (System.fresh num_threads w0) =
        List.range (issuedIds acts (System.fresh num_threads w0)).length ∧
      (issuedIds acts (System.fresh num_threads w0)).Pairwise (fun a b => a < b) ∧
      (issuedIds acts (System.fresh num_threads w0)).Nodup ∧
      (exec acts (System.fresh num_threads w0)).pool.lastTaskIndex =
        (issuedIds acts (System.fresh num_threads w0)).length ∧
      (issuedIds acts (System.fresh num_threads w0)).length = countAddTask acts := by
  obtain ⟨h1, h2⟩ := issuedIds_range acts (System.fresh num_threads w0 : System W V)
  have hlen : (issuedIds acts (System.fresh num_threads w0 : System W V)).length =
      countAddTask acts := by
    rw [h1, List.length_range']
  have h3 : issuedIds acts (System.fresh num_threads w0 : System W V) =
      List.range (issuedIds acts (System.fresh num_threads w0 : System W V)).length := by
    rw [hlen, List.range_eq_range']; exact h1
  refine ⟨h3, ?_, ?_, ?_, hlen⟩
  · rw [h3]; exact List.pairwise_lt_range _
  · rw [h3]; exact List.nodup_range _
  · rw [hlen]; simpa [System.fresh] using h2

/-- C3 at two overlapping calls: the calls take 0 and 1 in the order of their
increments, although the second call enqueues first. -/
theorem issued_ids_dense_witness :
    issuedIds overlapSchedule (System.fresh 1 0) =
        List.range (issuedIds overlapSchedule (System.fresh 1 0)).length ∧
      issuedIds overlapSchedule (System.fresh 1 0) = [0, 1] ∧
      issuedIds demoSchedule (System.fresh 2 0) = [0, 1] ∧
      countAddTask overlapSchedule = 2 :=
  ⟨(issued_ids_dense 1 0 overlapSchedule).1, by decide, by decide, by decide⟩

/-! ## C7: `task_completed` on an id that was never issued -/

/-- C7, counterexample. On a fresh pool no id was issued; the specification's
`isCompleted(0)` fails with `UnknownTask`, while `task_completed(0)` returns
`false` (and the two outcomes differ). -/
theorem task_completed_unknown_returns_false :
    isCompleted_spec (System.fresh 1 0 : System Nat Nat).pool 0 =
        Except.error PoolError.UnknownTask ∧
      (task_completed (System.fresh 1 0 : System Nat Nat).pool 0).1 = false ∧
      (Except.ok (task_completed (System.fresh 1 0 : System Nat Nat).pool 0).1 :
          Except PoolError Bool) ≠
        isCompleted_spec (System.fresh 1 0 : System Nat Nat).pool 0 := by
  refine ⟨rfl, rfl, ?_⟩
  intro h
  cases h

/-- C7, amended. `task_completed(id)` never fails: for an id that `add_task`
never returned (`id >= lastTaskIndex`) it returns `false` and does not touch the
registry; for an id below `lastTaskIndex` it returns whether that id's record is
completed; and for an id whose call of `add_task` has registered it (in
particular one that `add_task` has returned) the record exists and the pool is
left as it is. -/
theorem task_completed_total {W V : Type} (num_threads : Nat) (w0 : W) (s : System W V)
    (hreach : Reachable num_threads w0 s) (task_id : Nat) :
    (s.pool.lastTaskIndex ≤ task_id → task_completed s.pool task_id = (false, s.pool)) ∧
      (task_id < s.pool.lastTaskIndex →
        (task_completed s.pool task_id).1 = completedAt s.pool.tasksInfoMap task_id) ∧
      (task_id < s.pool.lastTaskIndex →
        (∀ task, s.submitting task_id ≠ some (Submitting.allocated task)) →
        ∃ info, s.pool.tasksInfoMap task_id = some info ∧
          task_completed s.pool task_id =
            (decide (info.status = TaskStatus.completed), s.pool)) := by
  have hinv := inv_reachable hreach
  refine ⟨?_, ?_, ?_⟩
  · intro hle
    have : ¬ task_id < s.pool.lastTaskIndex := by omega
    simp [task_completed, this]
  · intro hlt
    rw [task_completed_fst]
    simp [hlt]
  · intro hlt hreg
    obtain ⟨info, hinfo⟩ := record_of_enqueued_or_registered hinv hlt hreg
    refine ⟨info, hinfo, ?_⟩
    apply Prod.ext
    · rw [task_completed_fst]
      simp [hlt, completedAt_of_some hinfo]
    · exact task_completed_snd_of_some s.pool hinfo

/-- C7, amended, at the demo state: id 1 is issued and completed, id 2 was never
issued and yields `false`. -/
theorem task_completed_total_witness :
    Reachable 2 0 demoState ∧
      task_completed demoState.pool 2 = (false, demoState.pool) ∧
      (task_completed demoState.pool 1).1 = true := by
  have h := task_completed_total 2 0 demoState (steps_of_exec demoSchedule _) 2
  exact ⟨steps_of_exec demoSchedule _, h.1 (by decide), by decide⟩

/-! ## C9: observation and the registry -/

/-- C9, the failing input evaluated. A call of `add_task` has executed
`lastTaskIndex++` (line 145) and not yet registered its record: id 0 is below
`lastTaskIndex` and has no record. `task_completed(0)` from another thread
passes the guard `task_id < lastTaskIndex`, the lookup `tasksInfoMap[0]`
inserts a record, and the pool is not the pool it was; the predicate of
`wait(0)` does the same. -/
theorem task_completed_inserts_record :
    Reachable 1 0 windowState ∧
      windowState.pool.lastTaskIndex = 1 ∧
      windowState.pool.tasksInfoMap 0 = none ∧
      (task_completed windowState.pool 0).1 = false ∧
      (task_completed windowState.pool 0).2.tasksInfoMap 0 = some TaskInfo.default ∧
      (wait_predicate windowState.pool 0).2.tasksInfoMap 0 = some TaskInfo.default ∧
      (task_completed windowState.pool 0).2 ≠ windowState.pool ∧
      step (Action.task_completed 0) windowState ≠ windowState := by
  have h1 : windowState.pool.tasksInfoMap 0 = none := by decide
  have h2 : (task_completed windowState.pool 0).2.tasksInfoMap 0 = some TaskInfo.default := by
    decide
  refine ⟨steps_of_exec _ _, by decide, h1, by decide, h2, h2, ?_, ?_⟩
  · intro e
    rw [e, h1] at h2
    cases h2
  · intro e
    have e1 : (step (Action.task_completed 0) windowState).pool.tasksInfoMap 0 =
        windowState.pool.tasksInfoMap 0 := by rw [e]
    rw [h1] at e1
    have e2 : (step (Action.task_completed 0) windowState).pool.tasksInfoMap 0 =
        some TaskInfo.default := h2
    rw [e2] at e1
    cases e1

/-- Outside that window observation is pure: in a reachable state, for an id
that is not below `lastTaskIndex` or whose record has been registered,
`task_completed`, the predicate of `wait` and `wait_result` leave the system
as it is. -/
theorem observation_pure_of_registered {W V : Type} (num_threads : Nat) (w0 : W)
    (s : System W V) (hreach : Reachable num_threads w0 s) (task_id : Nat)
    (hreg : ∀ task, s.submitting task_id ≠ some (Submitting.allocated task)) :
    step (Action.task_completed task_id) s = s ∧ step (Action.wait task_id) s = s ∧
      step (Action.wait_result task_id) s = s := by
  have hinv := inv_reachable hreach
  have hrec : s.pool.lastTaskIndex ≤ task_id ∨ ∃ info, s.pool.tasksInfoMap task_id = some info := by
    by_cases hlt : task_id < s.pool.lastTaskIndex
    · exact Or.inr (record_of_enqueued_or_registered hinv hlt hreg)
    · exact Or.inl (by omega)
  have hp : (task_completed s.pool task_id).2 = s.pool := by
    rcases hrec with hge | ⟨info, hinfo⟩
    · exact task_completed_snd_of_ge s.pool hge
    · exact task_completed_snd_of_some s.pool hinfo
  have e1 : step (Action.task_completed task_id) s = s := by
    show ({ s with pool := (task_completed s.pool task_id).2 } : System W V) = s
    rw [hp]
  have e2 : step (Action.wait task_id) s = s := by
    show ({ s with pool := (wait_predicate s.pool task_id).2 } : System W V) = s
    rw [wait_predicate_eq_task_completed, hp]
  refine ⟨e1, e2, ?_⟩
  have e3 : step (Action.wait_result task_id) s =
      (match wait_result s.pool task_id with
        | none => { s with pool := (wait_predicate s.pool task_id).2 }
        | some (_, p1) => { s with pool := p1 }) := rfl
  rw [e3]
  split
  · exact e2
  · next r p1 hr => rw [(wait_result_pool s.pool task_id r p1 hr).1]

/-! ## C10: who writes the records -/

/-- C10, the failing input evaluated. A call of `add_task` has taken id 0 and
not yet registered it, and there is no record for 0. `task_completed(0)` from
another thread creates the record: a record created by a step that is not
`add_task`. The call then executes `tasksInfoMap[0] = TaskInfo()` (line 149)
although a record for 0 exists. -/
theorem add_task_overwrites_record :
    Reachable 1 0 windowState ∧
      windowState.pool.tasksInfoMap 0 = none ∧
      (step (Action.task_completed 0) windowState).pool.tasksInfoMap 0 =
        some TaskInfo.default ∧
      (step (Action.task_completed 0) windowState).awaitsRegistration 0 = true ∧
      (step (Action.add_task_register 0)
        (step (Action.task_completed 0) windowState)).pool.tasksInfoMap 0 =
          some TaskInfo.default ∧
      (step (Action.add_task_register 0)
        (step (Action.task_completed 0) windowState)).awaitsRegistration 0 = false := by
  refine ⟨steps_of_exec _ _, by decide, by decide, by decide, by decide, by decide⟩

/-- A completed record is never changed: whatever the action, a record that is
completed before it is the same record, with the same result, after it. -/
theorem completed_record_step {W V : Type} {s : System W V} (h : Inv s) (a : Action W V)
    {k : Nat} {info : TaskInfo V} (hinfo : s.pool.tasksInfoMap k = some info)
    (hst : info.status = TaskStatus.completed) :
    (step a s).pool.tasksInfoMap k = some info := by
  have hc : completedAt s.pool.tasksInfoMap k = true := by
    rw [completedAt_of_some hinfo]; simp [hst]
  have hD : k ∈ s.dequeueLog := h.run_deq k (h.completed_logged k hc)
  have hreg : ∀ task_id, (register_step s task_id).pool.tasksInfoMap k = some info := by
    intro task_id
    rcases allocated_or_not s task_id with ⟨task, hcall⟩ | hno
    · rw [register_step_eq hcall]
      show (add_task_register s.pool task_id).tasksInfoMap k = some info
      have hne : k ≠ task_id := fun e => (submitting_facts h hcall).2.2 (e ▸ hD)
      rw [add_task_register_map]; simp only [hne, if_false]; exact hinfo
    · rw [register_step_noop hno]; exact hinfo
  have henq : ∀ (s1 : System W V) task_id, s1.pool.tasksInfoMap k = some info →
      (enqueue_step s1 task_id).pool.tasksInfoMap k = some info := by
    intro s1 task_id h1
    unfold enqueue_step
    split
    · exact h1
    · exact h1
  have hobs : ∀ a1, ((∃ j, a1 = Action.task_completed j) ∨ (∃ j, a1 = Action.wait j) ∨
      (∃ j, a1 = Action.wait_result j) ∨ a1 = Action.wait_all) →
      (step a1 s).pool.tasksInfoMap k = some info := by
    intro a1 ha1
    rcases step_observer s a1 ha1 with h1 | ⟨j, _, hm, h1⟩
    · rw [h1]; exact hinfo
    · rw [h1]
      have hne : k ≠ j := by
        intro e; rw [e, hm] at hinfo; cases hinfo
      show Function.update s.pool.tasksInfoMap j _ k = some info
      rw [Function.update_noteq hne]; exact hinfo
  cases a with
  | add_task func args =>
      rw [step_add_task_eq h]
      apply henq
      have h1 : Inv (step (Action.add_task_alloc func args) s) := inv_alloc h func args
      have h2 : (step (Action.add_task_alloc func args) s).pool.tasksInfoMap k = some info :=
        hinfo
      show (register_step (step (Action.add_task_alloc func args) s) _).pool.tasksInfoMap k =
        some info
      rcases allocated_or_not (step (Action.add_task_alloc func args) s) s.pool.lastTaskIndex
        with ⟨task, hcall⟩ | hno
      · rw [register_step_eq hcall]
        show (add_task_register _ s.pool.lastTaskIndex).tasksInfoMap k = some info
        have hne : k ≠ s.pool.lastTaskIndex := by
          have := h.enq_lt k (deq_subset h hD)
          omega
        rw [add_task_register_map]; simp only [hne, if_false]; exact h2
      · rw [register_step_noop hno]; exact h2
  | add_task_alloc func args => exact hinfo
  | add_task_register task_id => exact hreg task_id
  | add_task_enqueue task_id => exact henq s task_id hinfo
  | worker i =>
      show (run_step s i).pool.tasksInfoMap k = some info
      rcases run_step_cases h i with e | ⟨_, _, e⟩ | ⟨task, rest, _, _, _, _, e⟩ |
          ⟨task, err, _, _, e⟩ | ⟨task, t1, w1, _, _, e⟩ | ⟨task, _, hrec, e⟩
      · rw [e]; exact hinfo
      · rw [e]; exact hinfo
      · rw [e]; exact hinfo
      · rw [e]; exact hinfo
      · rw [e]; exact hinfo
      · rw [e]
        have hne : k ≠ task.2 := by
          intro e1
          rw [e1, hrec] at hinfo
          injection hinfo with hinfo
          rw [← hinfo] at hst
          cases hst
        show Function.update s.pool.tasksInfoMap task.2 _ k = some info
        rw [Function.update_noteq hne]; exact hinfo
  | task_completed j => exact hobs _ (Or.inl ⟨j, rfl⟩)
  | wait j => exact hobs _ (Or.inr (Or.inl ⟨j, rfl⟩))
  | wait_result j => exact hobs _ (Or.inr (Or.inr (Or.inl ⟨j, rfl⟩)))
  | wait_all => exact hinfo
  | shutdown => exact hinfo

theorem completed_record_exec {W V : Type} (acts : List (Action W V)) {s : System W V}
    (h : Inv s) {k : Nat} {info : TaskInfo V} (hinfo : s.pool.tasksInfoMap k = some info)
    (hst : info.status = TaskStatus.completed) :
    (exec acts s).pool.tasksInfoMap k = some info := by
  induction acts generalizing s with
  | nil => exact hinfo
  | cons a acts ih => exact ih (inv_step h a) (completed_record_step h a hinfo hst)

theorem completed_step {W V : Type} {s : System W V} (h : Inv s) (a : Action W V) {k : Nat}
    (hc : completedAt s.pool.tasksInfoMap k = true) :
    completedAt (step a s).pool.tasksInfoMap k = true := by
  obtain ⟨info, hinfo, hst⟩ := completedAt_some hc
  rw [completedAt_of_some (completed_record_step h a hinfo hst)]
  simp [hst]

theorem completed_exec {W V : Type} (acts : List (Action W V)) {s : System W V} (h : Inv s)
    {k : Nat} (hc : completedAt s.pool.tasksInfoMap k = true) :
    completedAt (exec acts s).pool.tasksInfoMap k = true := by
  induction acts generalizing s with
  | nil => exact hc
  | cons a acts ih => exact ih (inv_step h a) (completed_step h a hc)

theorem task_completed_of_completedAt {W V : Type} {s : System W V} (h : Inv s) {k : Nat}
    (hc : completedAt s.pool.tasksInfoMap k = true) : (task_completed s.pool k).1 = true := by
  have hlt : k < s.pool.lastTaskIndex := by
    by_contra hge
    have hnone := h.keys_none k (by omega)
    simp [completedAt, hnone] at hc
  rw [task_completed_fst]
  simp [hlt, hc]

/-- Once completed, an id stays completed and counts one returned `run()`. -/
theorem completed_forever {W V : Type} {s s1 : System W V} (h : Inv s) {k : Nat}
    (hc : completedAt s.pool.tasksInfoMap k = true) (hs : Steps anyAction s s1) :
    (task_completed s1.pool k).1 = true ∧ s1.runIds.count k = 1 := by
  obtain ⟨acts, _, e⟩ := hs
  have hinv1 : Inv s1 := by rw [e]; exact inv_exec acts h
  have hc1 : completedAt s1.pool.tasksInfoMap k = true := by
    rw [e]; exact completed_exec acts h hc
  exact ⟨task_completed_of_completedAt hinv1 hc1,
    List.count_eq_one_of_mem hinv1.run_nodup (hinv1.completed_logged k hc1)⟩

/-! ## C4: FIFO dequeue -/

/-- C4, counterexample. Two threads call `add_task`: the first takes id 0, the
second takes id 1, registers and enqueues, then the first registers and
enqueues. No call is in progress any more, nothing was dequeued, `quite` is
clear and `lastTaskIndex` is 2, but the queue holds the ids `[1, 0]`, not
`[0, 1]`, and the first dequeue takes id 1. -/
theorem overlapping_calls_reorder_queue :
    Reachable 1 0 overlapState ∧
      overlapState.pool.quite = false ∧
      callInProgress overlapState = false ∧
      overlapState.pool.lastTaskIndex = 2 ∧
      overlapState.dequeueLog.length = 0 ∧
      overlapState.pool.taskPool.map Prod.snd = [1, 0] ∧
      overlapState.pool.taskPool.map Prod.snd ≠
        List.range' overlapState.dequeueLog.length
          (overlapState.pool.lastTaskIndex - overlapState.dequeueLog.length) ∧
      (step (Action.worker 0) overlapState).dequeueLog = [1] := by
  refine ⟨steps_of_exec _ _, by decide, by decide, by decide, by decide, by decide, by decide,
    by decide⟩

theorem callInProgress_false {W V : Type} {s : System W V} (h : Inv s) :
    callInProgress s = false ↔ ∀ k, s.submitting k = none := by
  unfold callInProgress
  rw [List.any_eq_false]
  constructor
  · intro hall k
    by_cases hk : k < s.pool.lastTaskIndex
    · have := hall k (List.mem_range.mpr hk)
      cases hs : s.submitting k with
      | none => rfl
      | some c => rw [hs] at this; simp at this
    · exact h.sub_none k (by omega)
  · intro hall k _
    rw [hall k]; simp

theorem run_step_frame {W V : Type} (s : System W V) (i : Nat) :
    (run_step s i).submitting = s.submitting ∧ (run_step s i).enqueueLog = s.enqueueLog := by
  unfold run_step
  split
  · exact ⟨rfl, rfl⟩
  · exact ⟨rfl, rfl⟩
  · exact ⟨rfl, rfl⟩
  · split
    · exact ⟨rfl, rfl⟩
    · split <;> exact ⟨rfl, rfl⟩
  · split <;> exact ⟨rfl, rfl⟩
  · split <;> exact ⟨rfl, rfl⟩

theorem seq_congr {W V : Type} {s s1 : System W V} (he : s1.enqueueLog = s.enqueueLog)
    (hs : s1.submitting = s.submitting)
    (hn : s1.pool.lastTaskIndex = s.pool.lastTaskIndex) (h : Sequential s) :
    Sequential s1 := by
  refine { enq_range := ?_, pending := ?_, idle := ?_ }
  · rw [he]; exact h.enq_range
  · intro k hk
    rw [hs] at hk
    rw [he, hn]; exact h.pending k hk
  · intro hall
    rw [hs] at hall
    rw [he, hn]; exact h.idle hall

theorem seq_fresh {W V : Type} (num_threads : Nat) (w0 : W) :
    Sequential (System.fresh num_threads w0 : System W V) :=
  { enq_range := rfl
    pending := by intro k hk; exact absurd rfl hk
    idle := by intro _; rfl }

theorem seq_alloc {A W V : Type} {s : System W V} (hq : Sequential s)
    (hidle : ∀ k, s.submitting k = none) (func : Func A W V) (args : A) :
    Sequential (step (Action.add_task_alloc func args) s) := by
  have hn := hq.idle hidle
  refine { enq_range := hq.enq_range, pending := ?_, idle := ?_ }
  · intro k hk
    have hk1 : Function.update s.submitting s.pool.lastTaskIndex
        (some (Submitting.allocated (Task.construct func args))) k ≠ none := hk
    have hkn : k = s.pool.lastTaskIndex := by
      by_contra hne
      rw [Function.update_noteq hne] at hk1
      exact hk1 (hidle k)
    show k = s.enqueueLog.length ∧ s.pool.lastTaskIndex + 1 = s.enqueueLog.length + 1
    omega
  · intro hall
    have : Function.update s.submitting s.pool.lastTaskIndex
        (some (Submitting.allocated (Task.construct func args))) s.pool.lastTaskIndex = none :=
      hall s.pool.lastTaskIndex
    rw [Function.update_same] at this
    cases this

theorem seq_register {W V : Type} {s : System W V} (hq : Sequential s) (task_id : Nat) :
    Sequential (register_step s task_id) := by
  rcases allocated_or_not s task_id with ⟨task, hc⟩ | hno
  swap
  · rw [register_step_noop hno]; exact hq
  rw [register_step_eq hc]
  have hpend := hq.pending task_id (by rw [hc]; exact fun e => by cases e)
  refine { enq_range := hq.enq_range, pending := ?_, idle := ?_ }
  · intro k hk
    have hk1 : Function.update s.submitting task_id
        (some (Submitting.registered task)) k ≠ none := hk
    by_cases hkt : k = task_id
    · rw [hkt]; exact hpend
    · rw [Function.update_noteq hkt] at hk1
      exact hq.pending k hk1
  · intro hall
    have : Function.update s.submitting task_id
        (some (Submitting.registered task)) task_id = none := hall task_id
    rw [Function.update_same] at this
    cases this

theorem seq_enqueue {W V : Type} {s : System W V} (hq : Sequential s) (task_id : Nat) :
    Sequential (enqueue_step s task_id) := by
  rcases registered_or_not s task_id with ⟨task, hc⟩ | hno
  swap
  · rw [enqueue_step_noop hno]; exact hq
  rw [enqueue_step_eq hc]
  obtain ⟨hid, hn⟩ := hq.pending task_id (by rw [hc]; exact fun e => by cases e)
  have hlen : (s.enqueueLog ++ [task_id]).length = s.enqueueLog.length + 1 := by simp
  refine { enq_range := ?_, pending := ?_, idle := ?_ }
  · show s.enqueueLog ++ [task_id] = List.range (s.enqueueLog ++ [task_id]).length
    rw [hlen, List.range_succ, ← hq.enq_range, hid]
  · intro k hk
    exfalso
    have hk1 : Function.update s.submitting task_id none k ≠ none := hk
    by_cases hkt : k = task_id
    · rw [hkt, Function.update_same] at hk1
      exact hk1 rfl
    · rw [Function.update_noteq hkt] at hk1
      have := (hq.pending k hk1).1
      omega
  · intro _
    show s.pool.lastTaskIndex = (s.enqueueLog ++ [task_id]).length
    rw [hlen]; exact hn

theorem seq_step {W V : Type} {s : System W V} (h : Inv s) (hq : Sequential s)
    (a : Action W V) (hno : startsCall a = true → callInProgress s = false) :
    Sequential (step a s) := by
  cases a with
  | add_task func args =>
      have hidle := (callInProgress_false h).mp (hno rfl)
      rw [step_add_task_eq h]
      exact seq_enqueue (seq_register (seq_alloc hq hidle func args) _) _
  | add_task_alloc func args =>
      exact seq_alloc hq ((callInProgress_false h).mp (hno rfl)) func args
  | add_task_register task_id => exact seq_register hq task_id
  | add_task_enqueue task_id => exact seq_enqueue hq task_id
  | worker i =>
      exact seq_congr (run_step_frame s i).2 (run_step_frame s i).1
        (run_step_lastTaskIndex s i) hq
  | task_completed k =>
      have hl : (step (Action.task_completed k) s).pool.lastTaskIndex =
          s.pool.lastTaskIndex := task_completed_lastTaskIndex s.pool k
      have he : (step (Action.task_completed k) s).enqueueLog = s.enqueueLog := rfl
      have hs : (step (Action.task_completed k) s).submitting = s.submitting := rfl
      exact seq_congr he hs hl hq
  | wait k =>
      have hl : (step (Action.wait k) s).pool.lastTaskIndex =
          s.pool.lastTaskIndex := task_completed_lastTaskIndex s.pool k
      have he : (step (Action.wait k) s).enqueueLog = s.enqueueLog := rfl
      have hs : (step (Action.wait k) s).submitting = s.submitting := rfl
      exact seq_congr he hs hl hq
  | wait_result k =>
      have hl := step_lastTaskIndex (Action.wait_result k) s
      simp only [startsCall] at hl
      have e1 : step (Action.wait_result k) s =
          (match wait_result s.pool k with
            | none => { s with pool := (wait_predicate s.pool k).2 }
            | some (_, p1) => { s with pool := p1 }) := rfl
      have hf : (step (Action.wait_result k) s).enqueueLog = s.enqueueLog ∧
          (step (Action.wait_result k) s).submitting = s.submitting := by
        rw [e1]; split <;> exact ⟨rfl, rfl⟩
      exact seq_congr hf.1 hf.2 hl hq
  | wait_all => exact hq
  | shutdown =>
      have hl : (step Action.shutdown s).pool.lastTaskIndex = s.pool.lastTaskIndex := rfl
      have he : (step Action.shutdown s).enqueueLog = s.enqueueLog := rfl
      have hs : (step Action.shutdown s).submitting = s.submitting := rfl
      exact seq_congr he hs hl hq

theorem seq_exec {W V : Type} (acts : List (Action W V)) {s : System W V} (h : Inv s)
    (hq : Sequential s) (hno : noOverlap acts s = true) : Sequential (exec acts s) := by
  induction acts generalizing s with
  | nil => exact hq
  | cons a acts ih =>
      simp only [noOverlap, Bool.and_eq_true, Bool.or_eq_true, Bool.not_eq_true'] at hno
      obtain ⟨h1, h2⟩ := hno
      have hstart : startsCall a = true → callInProgress s = false := by
        intro hs
        rcases h1 with h1 | h1
        · rw [hs] at h1; cases h1
        · exact h1
      exact ih (inv_step h a) (seq_step h hq a hstart) h2

theorem swo_congr {W V : Type} {s s1 : System W V} (hw : s1.workers = s.workers)
    (hr : s1.runLog = s.runLog) (hd : s1.dequeueLog = s.dequeueLog)
    (h : SingleWorkerOrder s) : SingleWorkerOrder s1 := by
  unfold SingleWorkerOrder System.runIds at *
  rw [hw, hr, hd]; exact h

theorem singleton_getElem? {α : Type} {w x : α} {i : Nat} (h : [w][i]? = some x) :
    i = 0 ∧ x = w := by
  cases i with
  | zero => simp at h; exact ⟨rfl, h.symm⟩
  | succ i => simp at h

theorem swo_run_step {W V : Type} {s : System W V} (h : Inv s)
    (hJ : SingleWorkerOrder s) (i : Nat) : SingleWorkerOrder (run_step s i) := by
  obtain ⟨w, hws, hmatch⟩ := hJ
  rcases run_step_cases h i with e | ⟨hw, _, e⟩ | ⟨task, rest, hw, _, _, _, e⟩ |
      ⟨task, err, hw, _, e⟩ | ⟨task, t1, w1, hw, _, e⟩ | ⟨task, hw, _, e⟩
  · rw [e]; exact ⟨w, hws, hmatch⟩
  · rw [e]
    rw [hws] at hw
    obtain ⟨hi, hx⟩ := singleton_getElem? hw
    subst hi
    rw [← hx] at hmatch
    exact ⟨Worker.exited, by simp [hws], hmatch⟩
  · rw [e]
    rw [hws] at hw
    obtain ⟨hi, hx⟩ := singleton_getElem? hw
    subst hi
    rw [← hx] at hmatch
    simp only at hmatch
    refine ⟨Worker.dequeued task, by simp [hws], ?_⟩
    show s.dequeueLog ++ [task.2] = s.runIds ++ [task.2]
    rw [hmatch]
  · rw [e]
    rw [hws] at hw
    obtain ⟨hi, hx⟩ := singleton_getElem? hw
    subst hi
    rw [← hx] at hmatch
    simp only at hmatch
    exact ⟨Worker.dead task, by simp [hws], Or.inl hmatch⟩
  · rw [e]
    rw [hws] at hw
    obtain ⟨hi, hx⟩ := singleton_getElem? hw
    subst hi
    rw [← hx] at hmatch
    simp only at hmatch
    refine ⟨Worker.ran (t1, task.2), by simp [hws], ?_⟩
    show s.dequeueLog = (s.runLog ++ [(task.2, t1.return_value)]).map Prod.fst
    rw [hmatch]
    simp [System.runIds]
  · rw [e]
    rw [hws] at hw
    obtain ⟨hi, hx⟩ := singleton_getElem? hw
    subst hi
    rw [← hx] at hmatch
    exact ⟨Worker.idle, by simp [hws], hmatch⟩

theorem register_step_frame {W V : Type} (s : System W V) (task_id : Nat) :
    (register_step s task_id).workers = s.workers ∧
      (register_step s task_id).runLog = s.runLog ∧
      (register_step s task_id).dequeueLog = s.dequeueLog ∧
      (register_step s task_id).world = s.world := by
  unfold register_step
  split <;> exact ⟨rfl, rfl, rfl, rfl⟩

theorem enqueue_step_frame {W V : Type} (s : System W V) (task_id : Nat) :
    (enqueue_step s task_id).workers = s.workers ∧
      (enqueue_step s task_id).runLog = s.runLog ∧
      (enqueue_step s task_id).dequeueLog = s.dequeueLog ∧
      (enqueue_step s task_id).world = s.world := by
  unfold enqueue_step
  split <;> exact ⟨rfl, rfl, rfl, rfl⟩

theorem client_frame {W V : Type} (s : System W V) (a : Action W V)
    (ha : ∀ i, a ≠ Action.worker i) :
    (step a s).workers = s.workers ∧ (step a s).runLog = s.runLog ∧
      (step a s).dequeueLog = s.dequeueLog ∧ (step a s).world = s.world := by
  cases a with
  | add_task func args => exact ⟨rfl, rfl, rfl, rfl⟩
  | add_task_alloc func args => exact ⟨rfl, rfl, rfl, rfl⟩
  | add_task_register task_id => exact register_step_frame s task_id
  | add_task_enqueue task_id => exact enqueue_step_frame s task_id
  | worker i => exact absurd rfl (ha i)
  | task_completed k => exact ⟨rfl, rfl, rfl, rfl⟩
  | wait k => exact ⟨rfl, rfl, rfl, rfl⟩
  | wait_result k =>
      have e1 : step (Action.wait_result k) s =
          (match wait_result s.pool k with
            | none => { s with pool := (wait_predicate s.pool k).2 }
            | some (_, p1) => { s with pool := p1 }) := rfl
      rw [e1]
      split <;> exact ⟨rfl, rfl, rfl, rfl⟩
  | wait_all => exact ⟨rfl, rfl, rfl, rfl⟩
  | shutdown => exact ⟨rfl, rfl, rfl, rfl⟩

theorem swo_step {W V : Type} {s : System W V} (h : Inv s) (hJ : SingleWorkerOrder s)
    (a : Action W V) : SingleWorkerOrder (step a s) := by
  by_cases hw : ∃ i, a = Action.worker i
  · obtain ⟨i, e⟩ := hw
    subst e
    exact swo_run_step h hJ i
  · have hf := client_frame s a (fun i e => hw ⟨i, e⟩)
    exact swo_congr hf.1 hf.2.1 hf.2.2.1 hJ

theorem swo_exec {W V : Type} (acts : List (Action W V)) {s : System W V} (h : Inv s)
    (hJ : SingleWorkerOrder s) : SingleWorkerOrder (exec acts s) := by
  induction acts generalizing s with
  | nil => exact hJ
  | cons a acts ih => exact ih (inv_step h a) (swo_step h hJ a)

theorem swo_fresh {W V : Type} (w0 : W) :
    SingleWorkerOrder (System.fresh 1 w0 : System W V) :=
  ⟨Worker.idle, rfl, rfl⟩

/-- With one worker the ids whose `run()` returned are an initial part of the
dequeue history. -/
theorem swo_take {W V : Type} {s : System W V} (hJ : SingleWorkerOrder s) :
    s.runIds = s.dequeueLog.take s.runIds.length := by
  obtain ⟨w, _, hmatch⟩ := hJ
  have key : s.dequeueLog = s.runIds ∨ ∃ k, s.dequeueLog = s.runIds ++ [k] := by
    cases w with
    | idle => exact Or.inl hmatch
    | dequeued task => exact Or.inr ⟨task.2, hmatch⟩
    | ran task => exact Or.inl hmatch
    | exited => exact Or.inl hmatch
    | dead task =>
        rcases hmatch with h1 | h1
        · exact Or.inr ⟨task.2, h1⟩
        · exact Or.inl h1
  rcases key with h1 | ⟨k, h1⟩
  · rw [h1, List.take_length]
  · rw [h1, List.take_left]

theorem range_take {n d : Nat} (h : d ≤ n) : (List.range n).take d = List.range d := by
  rw [List.take_range, Nat.min_eq_left h]

theorem range_drop (n d : Nat) : (List.range n).drop d = List.range' d (n - d) := by
  apply List.ext_getElem
  · simp
  · intro i h1 h2
    simp

/-- C4, amended. In every state reached from a fresh pool, with `d` the number
of dequeues performed so far: the queue holds, in the order of their enqueue,
exactly the ids enqueued and not yet dequeued; the dequeue history is the
first `d` entries of the enqueue history, so the j-th dequeue takes the j-th
id enqueued; no id is enqueued or dequeued twice and no two workers hold the
same id; with a single worker the calls of `run()` that have returned are, in
this order, those of the first ids dequeued. When no two calls of `add_task` of
the schedule overlap, ids are enqueued in increasing order: with `e` the number
of enqueues, the queue holds exactly the ids `d, ..., e - 1` in this order, the
j-th dequeue takes the id j, with a single worker the calls of `run()` that
have returned are those of the ids `0, 1, 2, ...` in this order, and `e` is
`lastTaskIndex` whenever no call of `add_task` is in progress. -/
theorem fifo_dequeue {W V : Type} (num_threads : Nat) (w0 : W)
    (acts : List (Action W V)) (s : System W V)
    (hs : s = exec acts (System.fresh num_threads w0)) :
    (s.pool.taskPool.map Prod.snd = s.enqueueLog.drop s.dequeueLog.length ∧
      s.dequeueLog = s.enqueueLog.take s.dequeueLog.length ∧
      s.enqueueLog.Nodup ∧ s.dequeueLog.Nodup ∧
      (∀ (i j : Nat) (wi wj : Worker W V) (k : Nat), s.workers[i]? = some wi →
        s.workers[j]? = some wj → wi.heldId = some k → wj.heldId = some k → i = j) ∧
      (num_threads = 1 → s.runIds = s.dequeueLog.take s.runIds.length)) ∧
    (noOverlap acts (System.fresh num_threads w0) = true →
      s.enqueueLog = List.range s.enqueueLog.length ∧
      s.pool.taskPool.map Prod.snd =
        List.range' s.dequeueLog.length (s.enqueueLog.length - s.dequeueLog.length) ∧
      s.dequeueLog = List.range s.dequeueLog.length ∧
      (num_threads = 1 → s.runIds = List.range s.runIds.length) ∧
      (callInProgress s = false → s.enqueueLog.length = s.pool.lastTaskIndex)) := by
  have hinv : Inv s := by rw [hs]; exact inv_exec acts (inv_fresh num_threads w0)
  have hq : s.pool.taskPool.map Prod.snd = s.enqueueLog.drop s.dequeueLog.length := by
    rw [hinv.enq_deq, List.drop_left]
  have hd : s.dequeueLog = s.enqueueLog.take s.dequeueLog.length := by
    have := List.take_left s.dequeueLog (s.pool.taskPool.map Prod.snd)
    rw [← hinv.enq_deq] at this
    exact this.symm
  have hdle : s.dequeueLog.length ≤ s.enqueueLog.length := by
    rw [hinv.enq_deq, List.length_append]; omega
  have hrun : num_threads = 1 → s.runIds = s.dequeueLog.take s.runIds.length := by
    intro h1
    subst h1
    have hswo : SingleWorkerOrder (exec acts (System.fresh 1 w0 : System W V)) :=
      swo_exec acts (inv_fresh 1 w0) (swo_fresh w0)
    rw [← hs] at hswo
    exact swo_take hswo
  refine ⟨⟨hq, hd, hinv.enq_nodup, deq_nodup hinv, hinv.held_distinct, hrun⟩, ?_⟩
  intro hno
  have hseq : Sequential s := by
    rw [hs]
    exact seq_exec acts (inv_fresh num_threads w0) (seq_fresh num_threads w0) hno
  have hdr : s.dequeueLog = List.range s.dequeueLog.length := by
    have h1 := hd
    rw [hseq.enq_range, range_take hdle] at h1
    exact h1
  refine ⟨hseq.enq_range, ?_, hdr, ?_, ?_⟩
  · have h1 := hq
    rw [hseq.enq_range, range_drop] at h1
    simpa using h1
  · intro h1
    have h2 := hrun h1
    have hle : s.runIds.length ≤ s.dequeueLog.length := by
      have := congrArg List.length h2
      rw [List.length_take] at this
      omega
    rw [hdr, range_take hle] at h2
    exact h2
  · intro hidle
    exact (hseq.idle ((callInProgress_false hinv).mp hidle)).symm

/-- C4, amended, at a pool with one worker and three calls of `add_task` that
do not overlap: ids 0 and 1 were dequeued and run in this order, id 2 is still
queued. -/
theorem fifo_dequeue_witness :
    singleState = exec singleSchedule (System.fresh 1 0) ∧
      noOverlap singleSchedule (System.fresh 1 0 : System Nat Nat) = true ∧
      (singleState.enqueueLog = List.range singleState.enqueueLog.length ∧
      singleState.pool.taskPool.map Prod.snd =
        List.range' singleState.dequeueLog.length
          (singleState.enqueueLog.length - singleState.dequeueLog.length) ∧
      singleState.dequeueLog = List.range singleState.dequeueLog.length ∧
      (1 = 1 → singleState.runIds = List.range singleState.runIds.length) ∧
      (callInProgress singleState = false →
        singleState.enqueueLog.length = singleState.pool.lastTaskIndex)) ∧
      singleState.pool.taskPool.map Prod.snd = [2] ∧
      singleState.dequeueLog = [0, 1] ∧ singleState.runIds = [0, 1] ∧
      callInProgress singleState = false :=
  ⟨rfl, by decide,
    (fifo_dequeue 1 0 singleSchedule singleState rfl).2 (by decide),
    by decide, by decide, by decide, by decide⟩

/-! ## C5: every task runs exactly once -/

/-- `Task::run` on a task built from a `void` function: the effect is that of
one call of the function; the stand-in leaves `0` in `return_value`. -/
theorem run_construct_void {A W V : Type} (f : A → W → Except Exn W) (args : A) (w : W) :
    (Task.construct (Func.returnsVoid f : Func A W V) args).run w =
      match f args w with
      | Except.error e => Except.error e
      | Except.ok w1 =>
          Except.ok ({ Task.construct (Func.returnsVoid f : Func A W V) args with
            return_value := StdAny.ofInt 0 }, w1) := by
  unfold Task.run
  simp only [Task.construct]

/-- `Task::run` on a task built from a function with a result: the effect is
that of one call of the function, whose value lands in `return_value`. -/
theorem run_construct_value {A W V : Type} (f : A → W → Except Exn (W × V)) (args : A)
    (w : W) :
    (Task.construct (Func.returnsValue f : Func A W V) args).run w =
      match f args w with
      | Except.error e => Except.error e
      | Except.ok (w1, v) =>
          Except.ok ({ Task.construct (Func.returnsValue f : Func A W V) args with
            return_value := StdAny.ofVal v }, w1) := by
  unfold Task.run
  simp only [Task.construct]
  cases h : f args w with
  | error e => rfl
  | ok r => cases r; rfl

/-- The second copy of `Task::run` has the same effect on the environment. -/
theorem run_Src_construct {A W V : Type} (func : Func A W V) (args : A) (w : W) :
    ((Task.construct func args).run_Src w).map Prod.snd =
      ((Task.construct func args).run w).map Prod.snd := by
  cases func with
  | returnsVoid f =>
      rw [run_construct_void]
      unfold Task.run_Src
      simp only [Task.construct, if_true]
      cases f args w <;> rfl
  | returnsValue f =>
      rw [run_construct_value]
      unfold Task.run_Src
      simp only [Task.construct]
      cases h : f args w with
      | error e => simp [h, Except.map]
      | ok r => cases r; simp [h, Except.map]

theorem increments_construct {A V : Type} {func : Func A Nat V} {args : A}
    (h : IncrementsOnce func args) : Increments (Task.construct func args) := by
  intro w
  cases func with
  | returnsVoid f =>
      rw [run_construct_void]
      have hf : f args w = Except.ok (w + 1) := h w
      rw [hf]
      exact ⟨_, rfl⟩
  | returnsValue f =>
      rw [run_construct_value]
      obtain ⟨v, hf⟩ : ∃ v, f args w = Except.ok (w + 1, v) := h w
      rw [hf]
      exact ⟨_, rfl⟩

theorem increments_construct_Src {A V : Type} {func : Func A Nat V} {args : A}
    (h : IncrementsOnce func args) (w : Nat) :
    ∃ t1, (Task.construct func args).run_Src w = Except.ok (t1, w + 1) := by
  obtain ⟨t1, ht1⟩ := increments_construct h w
  have e := run_Src_construct func args w
  rw [ht1] at e
  cases hs : (Task.construct func args).run_Src w with
  | error err => rw [hs] at e; cases e
  | ok r =>
      rw [hs] at e
      obtain ⟨t2, w2⟩ := r
      simp only [Except.map] at e
      injection e with e
      exact ⟨t2, by rw [e]⟩

theorem counter_fresh {V : Type} (num_threads : Nat) :
    CounterInv (System.fresh num_threads 0 : System Nat V) := by
  refine { submitting := ?_, queue := ?_, dequeued := ?_, world := rfl }
  · intro k c hk; cases hk
  · intro task ht; simp [System.fresh] at ht
  · intro i task hw
    simp only [System.fresh, List.getElem?_replicate] at hw
    split at hw <;> cases hw

theorem counter_run_step {V : Type} {s : System Nat V} (h : Inv s) (hc : CounterInv s)
    (i : Nat) : CounterInv (run_step s i) := by
  rcases run_step_cases h i with e | ⟨hw, _, e⟩ | ⟨task, rest, hw, _, hq, _, e⟩ |
      ⟨task, err, hw, _, e⟩ | ⟨task, t1, w1, hw, hrun, e⟩ | ⟨task, hw, _, e⟩
  · rw [e]; exact hc
  · rw [e]
    refine { submitting := hc.submitting, queue := hc.queue, dequeued := ?_, world := hc.world }
    intro j t hj
    rcases getElem?_set_cases hj with ⟨_, e1⟩ | ⟨_, hold⟩
    · cases e1
    · exact hc.dequeued j t hold
  · rw [e]
    refine { submitting := hc.submitting, queue := ?_, dequeued := ?_, world := hc.world }
    · intro t ht
      exact hc.queue t (by rw [hq]; exact List.mem_cons_of_mem _ ht)
    · intro j t hj
      rcases getElem?_set_cases hj with ⟨_, e1⟩ | ⟨_, hold⟩
      · injection e1 with e1
        subst e1
        exact hc.queue _ (by rw [hq]; exact List.mem_cons_self _ _)
      · exact hc.dequeued j t hold
  · rw [e]
    refine { submitting := hc.submitting, queue := hc.queue, dequeued := ?_, world := hc.world }
    intro j t hj
    rcases getElem?_set_cases hj with ⟨_, e1⟩ | ⟨_, hold⟩
    · cases e1
    · exact hc.dequeued j t hold
  · rw [e]
    refine { submitting := hc.submitting, queue := hc.queue, dequeued := ?_, world := ?_ }
    · intro j t hj
      rcases getElem?_set_cases hj with ⟨_, e1⟩ | ⟨_, hold⟩
      · cases e1
      · exact hc.dequeued j t hold
    · show w1 = (s.runLog ++ [(task.2, t1.return_value)]).length
      obtain ⟨t2, ht2⟩ := hc.dequeued i task hw s.world
      rw [ht2] at hrun
      injection hrun with hrun
      injection hrun with _ hw1
      rw [List.length_append, List.length_singleton, ← hc.world, ← hw1]
  · rw [e]
    refine { submitting := hc.submitting, queue := hc.queue, dequeued := ?_, world := hc.world }
    intro j t hj
    rcases getElem?_set_cases hj with ⟨_, e1⟩ | ⟨_, hold⟩
    · cases e1
    · exact hc.dequeued j t hold

theorem counter_alloc {A V : Type} {s : System Nat V} (hc : CounterInv s)
    (func : Func A Nat V) (args : A) (ha : IncrementsOnce func args) :
    CounterInv (step (Action.add_task_alloc func args) s) := by
  refine { submitting := ?_, queue := hc.queue, dequeued := hc.dequeued, world := hc.world }
  intro k c hk
  have hk1 : Function.update s.submitting s.pool.lastTaskIndex
      (some (Submitting.allocated (Task.construct func args))) k = some c := hk
  by_cases e : k = s.pool.lastTaskIndex
  · subst e
    rw [Function.update_same] at hk1
    injection hk1 with hk1
    subst hk1
    exact increments_construct ha
  · rw [Function.update_noteq e] at hk1
    exact hc.submitting k c hk1

theorem counter_register {V : Type} {s : System Nat V} (hc : CounterInv s) (task_id : Nat) :
    CounterInv (register_step s task_id) := by
  rcases allocated_or_not s task_id with ⟨task, ht⟩ | hno
  · rw [register_step_eq ht]
    refine { submitting := ?_, queue := hc.queue, dequeued := hc.dequeued, world := hc.world }
    intro k c hk
    have hk1 : Function.update s.submitting task_id
        (some (Submitting.registered task)) k = some c := hk
    by_cases e : k = task_id
    · subst e
      rw [Function.update_same] at hk1
      injection hk1 with hk1
      subst hk1
      exact hc.submitting k (Submitting.allocated task) ht
    · rw [Function.update_noteq e] at hk1
      exact hc.submitting k c hk1
  · rw [register_step_noop hno]; exact hc

theorem counter_enqueue {V : Type} {s : System Nat V} (hc : CounterInv s) (task_id : Nat) :
    CounterInv (enqueue_step s task_id) := by
  rcases registered_or_not s task_id with ⟨task, ht⟩ | hno
  · rw [enqueue_step_eq ht]
    refine { submitting := ?_, queue := ?_, dequeued := hc.dequeued, world := hc.world }
    · intro k c hk
      have hk1 : Function.update s.submitting task_id none k = some c := hk
      by_cases e : k = task_id
      · subst e
        rw [Function.update_same] at hk1
        cases hk1
      · rw [Function.update_noteq e] at hk1
        exact hc.submitting k c hk1
    · intro t hmem
      have hmem1 : t ∈ s.pool.taskPool ++ [(task, task_id)] := hmem
      rw [List.mem_append, List.mem_singleton] at hmem1
      rcases hmem1 with h1 | h1
      · exact hc.queue t h1
      · rw [h1]; exact hc.submitting task_id (Submitting.registered task) ht
  · rw [enqueue_step_noop hno]; exact hc

theorem counter_congr {V : Type} {s s1 : System Nat V} (hc : CounterInv s)
    (hq : s1.pool.taskPool = s.pool.taskPool) (hw : s1.workers = s.workers)
    (hs : s1.submitting = s.submitting) (hwo : s1.world = s.world)
    (hl : s1.runLog = s.runLog) : CounterInv s1 := by
  refine { submitting := ?_, queue := ?_, dequeued := ?_, world := ?_ }
  · rw [hs]; exact hc.submitting
  · rw [hq]; exact hc.queue
  · rw [hw]; exact hc.dequeued
  · rw [hwo, hl]; exact hc.world

theorem counter_step {V : Type} {s : System Nat V} (h : Inv s) (hc : CounterInv s)
    (a : Action Nat V) (ha : counterAction a) : CounterInv (step a s) := by
  cases a with
  | add_task func args =>
      rw [step_add_task_eq h]
      exact counter_enqueue (counter_register (counter_alloc hc func args ha) _) _
  | add_task_alloc func args => exact counter_alloc hc func args ha
  | add_task_register k => exact counter_register hc k
  | add_task_enqueue k => exact counter_enqueue hc k
  | worker i => exact counter_run_step h hc i
  | task_completed k =>
      rcases step_observer s (Action.task_completed k) (Or.inl ⟨k, rfl⟩) with e | ⟨_, _, _, e⟩
      · rw [e]; exact hc
      · rw [e]; exact counter_congr hc rfl rfl rfl rfl rfl
  | wait k =>
      rcases step_observer s (Action.wait k) (Or.inr (Or.inl ⟨k, rfl⟩)) with e | ⟨_, _, _, e⟩
      · rw [e]; exact hc
      · rw [e]; exact counter_congr hc rfl rfl rfl rfl rfl
  | wait_result k =>
      rcases step_observer s (Action.wait_result k) (Or.inr (Or.inr (Or.inl ⟨k, rfl⟩)))
        with e | ⟨_, _, _, e⟩
      · rw [e]; exact hc
      · rw [e]; exact counter_congr hc rfl rfl rfl rfl rfl
  | wait_all => exact hc
  | shutdown => exact counter_congr hc rfl rfl rfl rfl rfl

theorem counter_exec {V : Type} (acts : List (Action Nat V)) {s : System Nat V}
    (h : Inv s) (hc : CounterInv s) (ha : ∀ a ∈ acts, counterAction a) :
    CounterInv (exec acts s) := by
  induction acts generalizing s with
  | nil => exact hc
  | cons a acts ih =>
      exact ih (inv_step h a) (counter_step h hc a (ha a (List.mem_cons_self _ _)))
        (fun b hb => ha b (List.mem_cons_of_mem _ hb))

/-- When every issued id is completed, the returned `run()` calls are exactly
one for each issued id. -/
theorem runIds_perm_of_all_completed {W V : Type} {s : System W V} (h : Inv s)
    (hall : s.pool.completedTasksCounter = s.pool.lastTaskIndex) :
    s.runIds.Perm (List.range s.pool.lastTaskIndex) := by
  rw [List.perm_ext_iff_of_nodup h.run_nodup (List.nodup_range _)]
  intro k
  rw [List.mem_range]
  constructor
  · intro hk
    exact h.enq_lt k (deq_subset h (h.run_deq k hk))
  · intro hk
    have hcount : numCompleted s.pool.tasksInfoMap s.pool.lastTaskIndex =
        s.pool.lastTaskIndex := by
      rw [← h.counter]; exact hall
    exact h.completed_logged k (numCompleted_eq_all _ _ hcount k hk)

/-- C5. Submit K tasks to a fresh pool with any number of workers, each
callable adding one to a shared counter that starts at 0; the calls of
`add_task` may overlap one another and the workers in any way. In every state
the pool can reach in which the predicate of `wait_all` holds
(`completedTasksCounter == lastTaskIndex == K`), the counter is exactly K and
`run()` has returned exactly once for each id below K. In particular `Task::run`
(in both copies of the source) performs the submitted increment once, for a
`void` callable and for one with a result. -/
theorem fan_out_fan_in {V : Type} (num_threads K : Nat) (s : System Nat V)
    (hsteps : Steps counterAction (System.fresh num_threads 0) s)
    (hall : wait_all_predicate s.pool = true) (hK : s.pool.lastTaskIndex = K) :
    s.world = K ∧ s.runIds.length = K ∧ (∀ task_id, task_id < K → s.runIds.count task_id = 1) ∧
      (∀ (A : Type) (func : Func A Nat V) (args : A), IncrementsOnce func args →
        ∀ w, (∃ t1, (Task.construct func args).run w = Except.ok (t1, w + 1)) ∧
          (∃ t1, (Task.construct func args).run_Src w = Except.ok (t1, w + 1))) := by
  have hinv : Inv s := inv_steps (inv_fresh num_threads 0) hsteps
  have hc : CounterInv s := by
    obtain ⟨acts, ha, e⟩ := hsteps
    rw [e]
    exact counter_exec acts (inv_fresh num_threads 0) (counter_fresh num_threads) ha
  have hall1 : s.pool.completedTasksCounter = s.pool.lastTaskIndex := by
    simpa [wait_all_predicate] using hall
  have hperm := runIds_perm_of_all_completed hinv hall1
  have hlen : s.runIds.length = K := by
    rw [hperm.length_eq, List.length_range, hK]
  refine ⟨?_, hlen, ?_, ?_⟩
  · rw [hc.world, ← hlen]
    simp [System.runIds]
  · intro task_id hlt
    apply List.count_eq_one_of_mem hinv.run_nodup
    rw [hperm.mem_iff, List.mem_range, hK]
    exact hlt
  · intro A func args hf w
    exact ⟨increments_construct hf w, increments_construct_Src hf w⟩

/-- C5 at a schedule with two overlapping calls of `add_task`, two counting
tasks and two workers: after both tasks are published the counter is 2. -/
theorem fan_out_fan_in_witness :
    Steps counterAction (System.fresh 2 0) overlapDoneState ∧
      wait_all_predicate overlapDoneState.pool = true ∧
      overlapDoneState.pool.lastTaskIndex = 2 ∧
      overlapDoneState.world = 2 ∧ overlapDoneState.runIds.length = 2 :=
  have hsteps : Steps counterAction (System.fresh 2 0) overlapDoneState :=
    ⟨overlapDoneSchedule, by
      intro a ha
      simp only [overlapDoneSchedule, List.mem_cons, List.mem_singleton, List.not_mem_nil,
        or_false] at ha
      rcases ha with h | h | h | h | h | h | h | h | h | h | h | h | h | h <;> subst h <;>
        simp [counterAction, IncrementsOnce, returnArg, returnArgFn, bump], rfl⟩
  ⟨hsteps, by decide, by decide,
    (fan_out_fan_in 2 2 overlapDoneState hsteps (by decide) (by decide)).1,
    (fan_out_fan_in 2 2 overlapDoneState hsteps (by decide) (by decide)).2.1⟩

/-! ## C6: shutdown abandons queued work -/

theorem run_step_dequeued {W V : Type} {s : System W V} {i : Nat} {task : Task W V × Nat}
    {t1 : Task W V} {w1 : W} (hw : s.workers[i]? = some (Worker.dequeued task))
    (hrun : task.1.run s.world = Except.ok (t1, w1)) :
    run_step s i =
      { s with
        world := w1
        workers := s.workers.set i (Worker.ran (t1, task.2))
        runLog := s.runLog ++ [(task.2, t1.return_value)] } := by
  unfold run_step
  simp only [hw, hrun]

theorem run_step_ran {W V : Type} {s : System W V} (h : Inv s) {i : Nat}
    {task : Task W V × Nat} (hw : s.workers[i]? = some (Worker.ran task)) :
    run_step s i =
      { s with
        pool := { s.pool with
          tasksInfoMap := Function.update s.pool.tasksInfoMap task.2
            (some { status := TaskStatus.completed
                    result :=
                      if task.1.has_result then task.1.return_value
                      else (TaskInfo.default : TaskInfo V).result })
          completedTasksCounter := s.pool.completedTasksCounter + 1 }
        workers := s.workers.set i Worker.idle } := by
  have hinfo := h.held_default i _ task.2 hw rfl
  unfold run_step
  simp only [hw, run_publish_eq s.pool task TaskInfo.default hinfo (h.ran_has_value i task hw)]

theorem getElem?_set_self_of_some {α : Type} {l : List α} {i : Nat} {a b : α}
    (h : l[i]? = some a) : (l.set i b)[i]? = some b := by
  have hlt : i < l.length := by
    by_contra hge
    rw [List.getElem?_eq_none (by omega)] at h
    cases h
  rw [List.getElem?_set]
  simp [hlt]

/-- After `quite` is set no action clears it and no action dequeues. -/
theorem quite_step {W V : Type} {s : System W V} (h : Inv s) (hq : s.pool.quite = true)
    (a : Action W V) :
    (step a s).pool.quite = true ∧ (step a s).dequeueLog = s.dequeueLog ∧
      ∃ added, (step a s).pool.taskPool = s.pool.taskPool ++ added := by
  cases a with
  | add_task func args => exact ⟨hq, rfl, _, rfl⟩
  | add_task_alloc func args => exact ⟨hq, rfl, [], by simp [step, add_task_alloc]⟩
  | add_task_register k =>
      show (register_step s k).pool.quite = true ∧ (register_step s k).dequeueLog = _ ∧
        ∃ added, (register_step s k).pool.taskPool = _
      rcases allocated_or_not s k with ⟨task, ht⟩ | hno
      · rw [register_step_eq ht]
        exact ⟨hq, rfl, [], by simp [add_task_register]⟩
      · rw [register_step_noop hno]; exact ⟨hq, rfl, [], by simp⟩
  | add_task_enqueue k =>
      show (enqueue_step s k).pool.quite = true ∧ (enqueue_step s k).dequeueLog = _ ∧
        ∃ added, (enqueue_step s k).pool.taskPool = _
      rcases registered_or_not s k with ⟨task, ht⟩ | hno
      · rw [enqueue_step_eq ht]
        exact ⟨hq, rfl, _, rfl⟩
      · rw [enqueue_step_noop hno]; exact ⟨hq, rfl, [], by simp⟩
  | worker i =>
      show (run_step s i).pool.quite = true ∧ (run_step s i).dequeueLog = _ ∧
        ∃ added, (run_step s i).pool.taskPool = _
      rcases run_step_cases h i with e | ⟨_, _, e⟩ | ⟨task, rest, _, hnq, _, _, e⟩ |
          ⟨task, err, _, _, e⟩ | ⟨task, t1, w1, _, _, e⟩ | ⟨task, _, _, e⟩
      · rw [e]; exact ⟨hq, rfl, [], by simp⟩
      · rw [e]; exact ⟨hq, rfl, [], by simp⟩
      · rw [hq] at hnq; cases hnq
      · rw [e]; exact ⟨hq, rfl, [], by simp⟩
      · rw [e]; exact ⟨hq, rfl, [], by simp⟩
      · rw [e]; exact ⟨hq, rfl, [], by simp⟩
  | task_completed k =>
      rcases step_observer s (Action.task_completed k) (Or.inl ⟨k, rfl⟩) with e | ⟨_, _, _, e⟩
      · rw [e]; exact ⟨hq, rfl, [], by simp⟩
      · rw [e]; exact ⟨hq, rfl, [], by simp⟩
  | wait k =>
      rcases step_observer s (Action.wait k) (Or.inr (Or.inl ⟨k, rfl⟩)) with e | ⟨_, _, _, e⟩
      · rw [e]; exact ⟨hq, rfl, [], by simp⟩
      · rw [e]; exact ⟨hq, rfl, [], by simp⟩
  | wait_result k =>
      rcases step_observer s (Action.wait_result k) (Or.inr (Or.inr (Or.inl ⟨k, rfl⟩)))
        with e | ⟨_, _, _, e⟩
      · rw [e]; exact ⟨hq, rfl, [], by simp⟩
      · rw [e]; exact ⟨hq, rfl, [], by simp⟩
  | wait_all => exact ⟨hq, rfl, [], by simp [step]⟩
  | shutdown => exact ⟨rfl, rfl, [], by simp [step, destructor]⟩

theorem quite_exec {W V : Type} (acts : List (Action W V)) {s : System W V} (h : Inv s)
    (hq : s.pool.quite = true) :
    (exec acts s).pool.quite = true ∧ (exec acts s).dequeueLog = s.dequeueLog ∧
      ∃ added, (exec acts s).pool.taskPool = s.pool.taskPool ++ added := by
  induction acts generalizing s with
  | nil => exact ⟨hq, rfl, [], by simp [exec]⟩
  | cons a acts ih =>
      obtain ⟨h1, h2, l1, h3⟩ := quite_step h hq a
      obtain ⟨h4, h5, l2, h6⟩ := ih (inv_step h a) h1
      rw [exec_cons]
      exact ⟨h4, by rw [h5, h2], l1 ++ l2, by rw [h6, h3, List.append_assoc]⟩

/-- C6. Let `quite` be set in a reachable state. (1) No action dequeues: the
number of dequeues never changes again. (2) Every pair that is in the queue now
is still in the queue in every later state, its id is never dequeued, its
`run()` is never called and `task_completed` keeps answering `false` for it.
(3) A worker that holds a dequeued pair whose `run()` returns normally still
runs and publishes it (as long as `std::terminate` has not been called): after
its next two steps, and in every later state,
`task_completed` answers `true` for the id and exactly one `run()` call is
recorded for it. (4) Likewise a worker whose `run()` call had already returned
still publishes. -/
theorem shutdown_abandons_queue {W V : Type} (num_threads : Nat) (w0 : W) (s : System W V)
    (hreach : Reachable num_threads w0 s) (hq : s.pool.quite = true) :
    (∀ a, (step a s).dequeueLog = s.dequeueLog ∧ (step a s).pool.quite = true) ∧
      (∀ s1, Steps anyAction s s1 → ∀ task, task ∈ s.pool.taskPool →
        task ∈ s1.pool.taskPool ∧ task.2 ∉ s1.dequeueLog ∧ task.2 ∉ s1.runIds ∧
          (task_completed s1.pool task.2).1 = false) ∧
      (∀ i task t1 w1, s.terminated = false →
        s.workers[i]? = some (Worker.dequeued task) →
        task.1.run s.world = Except.ok (t1, w1) →
        ∀ s3, Steps anyAction (step (Action.worker i) (step (Action.worker i) s)) s3 →
          (task_completed s3.pool task.2).1 = true ∧ s3.runIds.count task.2 = 1) ∧
      (∀ i task, s.terminated = false → s.workers[i]? = some (Worker.ran task) →
        ∀ s3, Steps anyAction (step (Action.worker i) s) s3 →
          (task_completed s3.pool task.2).1 = true ∧ s3.runIds.count task.2 = 1) := by
  have hinv := inv_reachable hreach
  refine ⟨?_, ?_, ?_, ?_⟩
  · intro a
    obtain ⟨h1, h2, _⟩ := quite_step hinv hq a
    exact ⟨h2, h1⟩
  · intro s1 hs task hmem
    obtain ⟨acts, _, e⟩ := hs
    obtain ⟨_, hd, added, hpool⟩ := quite_exec acts hinv hq
    have hinv1 : Inv s1 := by rw [e]; exact inv_exec acts hinv
    rw [← e] at hd hpool
    have hnd : task.2 ∉ s1.dequeueLog := by rw [hd]; exact queue_not_deq hinv hmem
    have hnr : task.2 ∉ s1.runIds := fun hrun => hnd (hinv1.run_deq _ hrun)
    refine ⟨by rw [hpool]; exact List.mem_append_left _ hmem, hnd, hnr, ?_⟩
    rw [task_completed_fst]
    cases hc : completedAt s1.pool.tasksInfoMap task.2 with
    | false => simp
    | true => exact absurd (hinv1.completed_logged _ hc) hnr
  · intro i task t1 w1 _ hw hrun s3 hs
    change Steps anyAction (run_step (run_step s i) i) s3 at hs
    rw [run_step_dequeued hw hrun] at hs
    have hinv1 : Inv ({ s with
        world := w1
        workers := s.workers.set i (Worker.ran (t1, task.2))
        runLog := s.runLog ++ [(task.2, t1.return_value)] } : System W V) :=
      inv_execute hinv i hw hrun
    have hw1 : (s.workers.set i (Worker.ran (t1, task.2)))[i]? =
        some (Worker.ran (t1, task.2)) := getElem?_set_self_of_some hw
    have e := run_step_ran hinv1 hw1
    rw [e] at hs
    have hinv2 := inv_run_step hinv1 i
    rw [e] at hinv2
    exact completed_forever hinv2 (by simp [completedAt]) hs
  · intro i task _ hw s3 hs
    change Steps anyAction (run_step s i) s3 at hs
    have e := run_step_ran hinv hw
    rw [e] at hs
    have hinv2 := inv_run_step hinv i
    rw [e] at hinv2
    exact completed_forever hinv2 (by simp [completedAt]) hs

/-- C6 at a shutdown with two queued tasks (ids 1 and 2) and one dequeued task
(id 0): whatever the threads do next, ids 1 and 2 are never dequeued, run or
completed; id 0 is run once and published. -/
theorem shutdown_abandons_queue_witness :
    Reachable 2 0 shutdownState ∧ shutdownState.pool.quite = true ∧
      shutdownState.pool.taskPool.map Prod.snd = [1, 2] ∧
      (∀ s1, Steps anyAction shutdownState s1 → ∀ task, task ∈ shutdownState.pool.taskPool →
        task ∈ s1.pool.taskPool ∧ task.2 ∉ s1.dequeueLog ∧ task.2 ∉ s1.runIds ∧
          (task_completed s1.pool task.2).1 = false) ∧
      (exec afterShutdownSchedule shutdownState).runLog = [(0, StdAny.ofVal 5)] ∧
      (task_completed (exec afterShutdownSchedule shutdownState).pool 0).1 = true ∧
      (exec afterShutdownSchedule shutdownState).world = 1 :=
  ⟨steps_of_exec shutdownSchedule _, by decide, by decide,
    (shutdown_abandons_queue 2 0 shutdownState (steps_of_exec shutdownSchedule _)
      (by decide)).2.1,
    by decide, by decide, by decide⟩

/-! ## C8: a failing task -/

theorem run_throws {A W V : Type} {func : Func A W V} {args : A} {w : W} {e : Exn}
    (h : Throws func args w e) : (Task.construct func args).run w = Except.error e := by
  cases func with
  | returnsVoid f =>
      have hf : f args w = Except.error e := h
      rw [run_construct_void, hf]
  | returnsValue f =>
      have hf : f args w = Except.error e := h
      rw [run_construct_value, hf]

theorem getElem?_set_other {α : Type} {l : List α} {i j : Nat} {a b w : α}
    (hi : l[i]? = some a) (hj : l[j]? = some w) (hne : w ≠ a) :
    (l.set j b)[i]? = some a := by
  have hji : j ≠ i := by
    intro e
    subst e
    rw [hi] at hj
    injection hj with hj
    exact hne hj.symm
  rw [List.getElem?_set_ne hji]
  exact hi

/-- A thread that an exception has left executes nothing: its place is the
same after every action of every thread. -/
theorem dead_step {W V : Type} {s : System W V} (h : Inv s) {i : Nat}
    {task : Task W V × Nat} (hd : s.workers[i]? = some (Worker.dead task))
    (a : Action W V) : (step a s).workers[i]? = some (Worker.dead task) := by
  by_cases hw : ∃ j, a = Action.worker j
  · obtain ⟨j, e⟩ := hw
    subst e
    show (run_step s j).workers[i]? = some (Worker.dead task)
    rcases run_step_cases h j with e | ⟨hj, _, e⟩ | ⟨t, rest, hj, _, _, _, e⟩ |
        ⟨t, err, hj, _, e⟩ | ⟨t, t1, w1, hj, _, e⟩ | ⟨t, hj, _, e⟩
    · rw [e]; exact hd
    · rw [e]; exact getElem?_set_other hd hj (fun e1 => by cases e1)
    · rw [e]; exact getElem?_set_other hd hj (fun e1 => by cases e1)
    · rw [e]; exact getElem?_set_other hd hj (fun e1 => by cases e1)
    · rw [e]; exact getElem?_set_other hd hj (fun e1 => by cases e1)
    · rw [e]; exact getElem?_set_other hd hj (fun e1 => by cases e1)
  · rw [(client_frame s a (fun j e => hw ⟨j, e⟩)).1]
    exact hd

theorem dead_exec {W V : Type} (acts : List (Action W V)) {s : System W V} (h : Inv s)
    {i : Nat} {task : Task W V × Nat} (hd : s.workers[i]? = some (Worker.dead task)) :
    (exec acts s).workers[i]? = some (Worker.dead task) := by
  induction acts generalizing s with
  | nil => exact hd
  | cons a acts ih => exact ih (inv_step h a) (dead_step h hd a)

theorem run_step_dead {W V : Type} {s : System W V} {i : Nat} {task : Task W V × Nat}
    (hd : s.workers[i]? = some (Worker.dead task)) : run_step s i = s := by
  unfold run_step
  simp only [hd]

theorem run_step_throw {W V : Type} {s : System W V} {i : Nat} {task : Task W V × Nat}
    {e : Exn} (hw : s.workers[i]? = some (Worker.dequeued task))
    (hfail : task.1.run s.world = Except.error e) :
    run_step s i =
      { s with workers := s.workers.set i (Worker.dead task), terminated := true } := by
  unfold run_step
  simp only [hw, hfail]

/-- C8, counterexample. The only worker of a pool dequeues a task whose
callable throws, calls its `run()` and is scheduled three more times.
Afterwards `std::terminate` has been called, the worker thread is dead, no
outcome is published for id 0 (`task_completed(0)` is `false`, the record is
the untouched `in_proces` record with an empty result),
`completedTasksCounter` is still 0, and the next task (id 1) is still in the
queue. -/
theorem failing_task_not_captured :
    (Task.construct thrower ()).run (0 : Nat) = Except.error { what := 7 } ∧
      beforeFailState.workers.map Worker.heldId = [some 0] ∧
      beforeFailState.terminated = false ∧
      failState.terminated = true ∧
      failState.workers.map Worker.heldId = [some 0] ∧
      (task_completed failState.pool 0).1 = false ∧
      failState.pool.tasksInfoMap 0 = some TaskInfo.default ∧
      failState.pool.completedTasksCounter = 0 ∧
      failState.pool.taskPool.map Prod.snd = [1] ∧
      failState.dequeueLog = [0] ∧ failState.runLog = [] := by
  refine ⟨rfl, by decide, by decide, by decide, by decide, by decide, by decide, by decide,
    by decide, by decide, by decide⟩

/-- C8, amended. When the `run()` of the pair a worker holds throws (as it does
when the submitted callable throws), the failure leaves the worker loop and
`std::terminate` is called. The step leaves the pool object exactly as it was:
no outcome is published for the id and `completedTasksCounter` is not
incremented. In every later state, whatever the other threads have done in
between, the record of the id is still the value-initialised `in_proces`
record with an empty result, `task_completed` answers `false` for the id, and
the worker is the same dead thread, whose scheduling changes nothing: it never
dequeues or runs another task. -/
theorem failing_task_terminates {W V : Type} (num_threads : Nat) (w0 : W) (s : System W V)
    (hreach : Reachable num_threads w0 s) (i : Nat) (task : Task W V × Nat) (e : Exn)
    (hw : s.workers[i]? = some (Worker.dequeued task))
    (hfail : task.1.run s.world = Except.error e) :
    (step (Action.worker i) s).terminated = true ∧
      (step (Action.worker i) s).pool = s.pool ∧
      (step (Action.worker i) s).workers[i]? = some (Worker.dead task) ∧
      (∀ s1, Steps anyAction (step (Action.worker i) s) s1 →
        s1.workers[i]? = some (Worker.dead task) ∧ step (Action.worker i) s1 = s1 ∧
          s1.pool.tasksInfoMap task.2 = some TaskInfo.default ∧
          (task_completed s1.pool task.2).1 = false) ∧
      (∀ (A : Type) (func : Func A W V) (args : A) (w : W) (e1 : Exn),
        Throws func args w e1 → (Task.construct func args).run w = Except.error e1) := by
  have hinv := inv_reachable hreach
  have hstep : step (Action.worker i) s =
      { s with workers := s.workers.set i (Worker.dead task), terminated := true } :=
    run_step_throw hw hfail
  have hinv0 : Inv (step (Action.worker i) s) := inv_step hinv _
  have hdead : (step (Action.worker i) s).workers[i]? = some (Worker.dead task) := by
    rw [hstep]; exact getElem?_set_self_of_some hw
  refine ⟨by rw [hstep], by rw [hstep], hdead, ?_, ?_⟩
  · intro s1 hs
    obtain ⟨acts, _, e1⟩ := hs
    have hinv1 : Inv s1 := by rw [e1]; exact inv_exec acts hinv0
    have hd1 : s1.workers[i]? = some (Worker.dead task) := by
      rw [e1]; exact dead_exec acts hinv0 hdead
    have hrec : s1.pool.tasksInfoMap task.2 = some TaskInfo.default :=
      hinv1.held_default i _ task.2 hd1 rfl
    refine ⟨hd1, run_step_dead hd1, hrec, ?_⟩
    rw [task_completed_fst, completedAt_default hrec]
    simp
  · intro A func args w e1 h
    exact run_throws h

/-- C8, amended, at the state in which the worker holds the throwing task. -/
theorem failing_task_terminates_witness :
    Reachable 1 0 beforeFailState ∧
      beforeFailState.workers[0]? = some (Worker.dequeued (Task.construct thrower (), 0)) ∧
      (step (Action.worker 0) beforeFailState).terminated = true ∧
      (step (Action.worker 0) beforeFailState).pool = beforeFailState.pool ∧
      (task_completed failState.pool 0).1 = false :=
  ⟨steps_of_exec beforeFailSchedule _, rfl,
    (failing_task_terminates 1 0 beforeFailState (steps_of_exec beforeFailSchedule _) 0
      (Task.construct thrower (), 0) { what := 7 } rfl rfl).1,
    (failing_task_terminates 1 0 beforeFailState (steps_of_exec beforeFailSchedule _) 0
      (Task.construct thrower (), 0) { what := 7 } rfl rfl).2.1,
    ((failing_task_terminates 1 0 beforeFailState (steps_of_exec beforeFailSchedule _) 0
      (Task.construct thrower (), 0) { what := 7 } rfl rfl).2.2.2.1 failState
        (steps_of_exec [Action.worker 0, Action.worker 0, Action.worker 0] _)).2.2.2⟩

/-! ## C2: the result of a task is the value its function returned -/

/-- The state right after a call `add_task(f, args)` has taken its id. -/
theorem result_inv_start {A W V : Type} {s : System W V} (h : Inv s)
    (f : A → W → Except Exn (W × V)) (args : A) :
    ResultInv f args s.pool.lastTaskIndex
      (step (Action.add_task_alloc (Func.returnsValue f) args) s) := by
  have hheld : ∀ (i : Nat) (w : Worker W V), s.workers[i]? = some w →
      w.heldId = some s.pool.lastTaskIndex → False := by
    intro i w hw hid
    have := h.enq_lt _ (deq_subset h (h.held_deq i w _ hw hid))
    omega
  refine { issued := ?_, pending := ?_, queued := ?_, dequeued := ?_, ran := ?_,
           completed := ?_ }
  · show s.pool.lastTaskIndex < s.pool.lastTaskIndex + 1
    omega
  · intro c hc
    have hc1 : Function.update s.submitting s.pool.lastTaskIndex
        (some (Submitting.allocated (Task.construct (Func.returnsValue f) args)))
        s.pool.lastTaskIndex = some c := hc
    rw [Function.update_same] at hc1
    injection hc1 with hc1
    rw [← hc1]
    rfl
  · intro task hmem hid
    have hmem1 : task ∈ s.pool.taskPool := hmem
    have := h.enq_lt _ (queue_subset h hmem1)
    omega
  · intro i task hw hid
    exact absurd (hheld i _ hw (by rw [← hid]; rfl)) id
  · intro i task hw hid
    exact absurd (hheld i _ hw (by rw [← hid]; rfl)) id
  · intro info hinfo hst
    have hinfo1 : s.pool.tasksInfoMap s.pool.lastTaskIndex = some info := hinfo
    rw [h.keys_none _ (Nat.le_refl _)] at hinfo1
    cases hinfo1

theorem result_inv_run_step {A W V : Type} {f : A → W → Except Exn (W × V)} {args : A}
    {task_id : Nat} {s : System W V} (h : Inv s) (hr : ResultInv f args task_id s) (i : Nat) :
    ResultInv f args task_id (run_step s i) := by
  rcases run_step_cases h i with e | ⟨hw, _, e⟩ | ⟨task, rest, hw, _, hq, _, e⟩ |
      ⟨task, err, hw, _, e⟩ | ⟨task, t1, w1, hw, hrun, e⟩ | ⟨task, hw, hinfo, e⟩
  · rw [e]; exact hr
  · rw [e]
    refine { issued := hr.issued, pending := hr.pending, queued := hr.queued, dequeued := ?_,
             ran := ?_, completed := hr.completed }
    · intro j t hj
      rcases getElem?_set_cases hj with ⟨_, e1⟩ | ⟨_, hold⟩
      · cases e1
      · exact hr.dequeued j t hold
    · intro j t hj
      rcases getElem?_set_cases hj with ⟨_, e1⟩ | ⟨_, hold⟩
      · cases e1
      · exact hr.ran j t hold
  · rw [e]
    refine { issued := hr.issued, pending := hr.pending, queued := ?_, dequeued := ?_,
             ran := ?_, completed := hr.completed }
    · intro t ht
      exact hr.queued t (by rw [hq]; exact List.mem_cons_of_mem _ ht)
    · intro j t hj
      rcases getElem?_set_cases hj with ⟨_, e1⟩ | ⟨_, hold⟩
      · injection e1 with e1
        subst e1
        exact hr.queued _ (by rw [hq]; exact List.mem_cons_self _ _)
      · exact hr.dequeued j t hold
    · intro j t hj
      rcases getElem?_set_cases hj with ⟨_, e1⟩ | ⟨_, hold⟩
      · cases e1
      · exact hr.ran j t hold
  · rw [e]
    refine { issued := hr.issued, pending := hr.pending, queued := hr.queued, dequeued := ?_,
             ran := ?_, completed := hr.completed }
    · intro j t hj
      rcases getElem?_set_cases hj with ⟨_, e1⟩ | ⟨_, hold⟩
      · cases e1
      · exact hr.dequeued j t hold
    · intro j t hj
      rcases getElem?_set_cases hj with ⟨_, e1⟩ | ⟨_, hold⟩
      · cases e1
      · exact hr.ran j t hold
  · rw [e]
    refine { issued := hr.issued, pending := hr.pending, queued := hr.queued, dequeued := ?_,
             ran := ?_, completed := ?_ }
    · intro j t hj
      rcases getElem?_set_cases hj with ⟨_, e1⟩ | ⟨_, hold⟩
      · cases e1
      · exact hr.dequeued j t hold
    · intro j t hj hid
      rcases getElem?_set_cases hj with ⟨_, e1⟩ | ⟨_, hold⟩
      · injection e1 with e1
        subst e1
        have hid1 : task.2 = task_id := hid
        have htask := hr.dequeued i task hw hid1
        rw [htask, run_construct_value] at hrun
        cases hf : f args s.world with
        | error err => rw [hf] at hrun; cases hrun
        | ok pr =>
            obtain ⟨w2, v⟩ := pr
            rw [hf] at hrun
            simp only at hrun
            injection hrun with hrun
            injection hrun with ht1 _
            refine ⟨by rw [← ht1]; rfl, s.world, w2, v, hf, by rw [← ht1]⟩
      · exact hr.ran j t hold hid
    · intro info hinfo hst
      obtain ⟨w, w2, v, hf, hres, hmem⟩ := hr.completed info hinfo hst
      exact ⟨w, w2, v, hf, hres, List.mem_append_left _ hmem⟩
  · rw [e]
    refine { issued := hr.issued, pending := hr.pending, queued := hr.queued, dequeued := ?_,
             ran := ?_, completed := ?_ }
    · intro j t hj
      rcases getElem?_set_cases hj with ⟨_, e1⟩ | ⟨_, hold⟩
      · cases e1
      · exact hr.dequeued j t hold
    · intro j t hj
      rcases getElem?_set_cases hj with ⟨_, e1⟩ | ⟨_, hold⟩
      · cases e1
      · exact hr.ran j t hold
    · intro info1 hinfo1 hst
      have hinfo2 : Function.update s.pool.tasksInfoMap task.2
          (some { status := TaskStatus.completed
                  result := if task.1.has_result then task.1.return_value
                            else (TaskInfo.default : TaskInfo V).result })
          task_id = some info1 := hinfo1
      by_cases hid : task.2 = task_id
      · obtain ⟨hvoid, w, w2, v, hf, hrv⟩ := hr.ran i task hw hid
        rw [← hid, Function.update_same] at hinfo2
        injection hinfo2 with hinfo2
        have hhas : task.1.has_result = true := by simp [Task.has_result, hvoid]
        refine ⟨w, w2, v, hf, ?_, ?_⟩
        · rw [← hinfo2]; simp [hhas, hrv]
        · have := h.ran_logged i task hw
          rw [hrv, hid] at this
          exact this
      · rw [Function.update_noteq (fun e1 => hid e1.symm)] at hinfo2
        exact hr.completed info1 hinfo2 hst

theorem result_inv_alloc {A B W V : Type} {f : A → W → Except Exn (W × V)} {args : A}
    {task_id : Nat} {s : System W V} (hr : ResultInv f args task_id s)
    (func : Func B W V) (args1 : B) :
    ResultInv f args task_id (step (Action.add_task_alloc func args1) s) := by
  have hlt := hr.issued
  refine { issued := ?_, pending := ?_, queued := hr.queued, dequeued := hr.dequeued,
           ran := hr.ran, completed := hr.completed }
  · show task_id < s.pool.lastTaskIndex + 1
    omega
  · intro c hc
    have hc1 : Function.update s.submitting s.pool.lastTaskIndex
        (some (Submitting.allocated (Task.construct func args1))) task_id = some c := hc
    rw [Function.update_noteq (by omega)] at hc1
    exact hr.pending c hc1

theorem result_inv_register {A W V : Type} {f : A → W → Except Exn (W × V)} {args : A}
    {task_id : Nat} {s : System W V} (hr : ResultInv f args task_id s) (k : Nat) :
    ResultInv f args task_id (register_step s k) := by
  rcases allocated_or_not s k with ⟨task, ht⟩ | hno
  · rw [register_step_eq ht]
    refine { issued := hr.issued, pending := ?_, queued := hr.queued, dequeued := hr.dequeued,
             ran := hr.ran, completed := ?_ }
    · intro c hc
      have hc1 : Function.update s.submitting k (some (Submitting.registered task)) task_id =
          some c := hc
      by_cases e : task_id = k
      · subst e
        rw [Function.update_same] at hc1
        injection hc1 with hc1
        rw [← hc1]
        exact hr.pending (Submitting.allocated task) ht
      · rw [Function.update_noteq e] at hc1
        exact hr.pending c hc1
    · intro info hinfo hst
      have hinfo1 : (add_task_register s.pool k).tasksInfoMap task_id = some info := hinfo
      rw [add_task_register_map] at hinfo1
      by_cases e : task_id = k
      · simp only [e, if_true] at hinfo1
        injection hinfo1 with hinfo1
        rw [← hinfo1] at hst
        cases hst
      · simp only [e, if_false] at hinfo1
        exact hr.completed info hinfo1 hst
  · rw [register_step_noop hno]; exact hr

theorem result_inv_enqueue {A W V : Type} {f : A → W → Except Exn (W × V)} {args : A}
    {task_id : Nat} {s : System W V} (hr : ResultInv f args task_id s) (k : Nat) :
    ResultInv f args task_id (enqueue_step s k) := by
  rcases registered_or_not s k with ⟨task, ht⟩ | hno
  · rw [enqueue_step_eq ht]
    refine { issued := hr.issued, pending := ?_, queued := ?_, dequeued := hr.dequeued,
             ran := hr.ran, completed := hr.completed }
    · intro c hc
      have hc1 : Function.update s.submitting k none task_id = some c := hc
      by_cases e : task_id = k
      · subst e
        rw [Function.update_same] at hc1
        cases hc1
      · rw [Function.update_noteq e] at hc1
        exact hr.pending c hc1
    · intro t hmem hid
      have hmem1 : t ∈ s.pool.taskPool ++ [(task, k)] := hmem
      rw [List.mem_append, List.mem_singleton] at hmem1
      rcases hmem1 with h1 | h1
      · exact hr.queued t h1 hid
      · rw [h1] at hid ⊢
        have hid1 : k = task_id := hid
        subst hid1
        exact hr.pending (Submitting.registered task) ht
  · rw [enqueue_step_noop hno]; exact hr

/-- An observer that inserts a value-initialised record changes nothing that is
known about the task. -/
theorem result_inv_insert {A W V : Type} {f : A → W → Except Exn (W × V)} {args : A}
    {task_id : Nat} {s : System W V} (hr : ResultInv f args task_id s) (k : Nat) :
    ResultInv f args task_id { s with pool := { s.pool with
      tasksInfoMap := Function.update s.pool.tasksInfoMap k (some TaskInfo.default) } } := by
  refine { issued := hr.issued, pending := hr.pending, queued := hr.queued,
           dequeued := hr.dequeued, ran := hr.ran, completed := ?_ }
  intro info hinfo hst
  have hinfo1 : Function.update s.pool.tasksInfoMap k (some TaskInfo.default) task_id =
      some info := hinfo
  by_cases e : task_id = k
  · subst e
    rw [Function.update_same] at hinfo1
    injection hinfo1 with hinfo1
    rw [← hinfo1] at hst
    cases hst
  · rw [Function.update_noteq e] at hinfo1
    exact hr.completed info hinfo1 hst

theorem result_inv_step {A W V : Type} {f : A → W → Except Exn (W × V)} {args : A}
    {task_id : Nat} {s : System W V} (h : Inv s) (hr : ResultInv f args task_id s)
    (a : Action W V) : ResultInv f args task_id (step a s) := by
  cases a with
  | add_task func args1 =>
      rw [step_add_task_eq h]
      exact result_inv_enqueue (result_inv_register (result_inv_alloc hr func args1) _) _
  | add_task_alloc func args1 => exact result_inv_alloc hr func args1
  | add_task_register k => exact result_inv_register hr k
  | add_task_enqueue k => exact result_inv_enqueue hr k
  | worker i => exact result_inv_run_step h hr i
  | task_completed k =>
      rcases step_observer s (Action.task_completed k) (Or.inl ⟨k, rfl⟩) with e | ⟨j, _, _, e⟩
      · rw [e]; exact hr
      · rw [e]; exact result_inv_insert hr j
  | wait k =>
      rcases step_observer s (Action.wait k) (Or.inr (Or.inl ⟨k, rfl⟩)) with e | ⟨j, _, _, e⟩
      · rw [e]; exact hr
      · rw [e]; exact result_inv_insert hr j
  | wait_result k =>
      rcases step_observer s (Action.wait_result k) (Or.inr (Or.inr (Or.inl ⟨k, rfl⟩)))
        with e | ⟨j, _, _, e⟩
      · rw [e]; exact hr
      · rw [e]; exact result_inv_insert hr j
  | wait_all => exact hr
  | shutdown =>
      exact { issued := hr.issued, pending := hr.pending, queued := hr.queued,
              dequeued := hr.dequeued, ran := hr.ran, completed := hr.completed }

theorem result_inv_exec {A W V : Type} {f : A → W → Except Exn (W × V)} {args : A}
    {task_id : Nat} (acts : List (Action W V)) {s : System W V} (h : Inv s)
    (hr : ResultInv f args task_id s) : ResultInv f args task_id (exec acts s) := by
  induction acts generalizing s with
  | nil => exact hr
  | cons a acts ih => exact ih (inv_step h a) (result_inv_step h hr a)

/-- In every state, `wait_result` on a completed record of an issued id returns
the stored result and leaves the pool as it is. -/
theorem wait_result_of_completed {W V : Type} {s : System W V} (h : Inv s) {k : Nat}
    {info : TaskInfo V} (hinfo : s.pool.tasksInfoMap k = some info)
    (hst : info.status = TaskStatus.completed) :
    wait_result s.pool k = some (info.result, s.pool) := by
  have hc : completedAt s.pool.tasksInfoMap k = true := by
    rw [completedAt_of_some hinfo]; simp [hst]
  have h1 := task_completed_of_completedAt h hc
  have h2 := task_completed_snd_of_some s.pool hinfo
  unfold wait_result wait
  rw [wait_predicate_eq_task_completed]
  cases htc : task_completed s.pool k with
  | mk b p2 =>
      rw [htc] at h1 h2
      simp only at h1 h2
      subst h1
      subst h2
      simp [subscript_of_some hinfo]

/-- C2. Let `add_task(f, args)` be called in a reachable state, for a function
`f` with a result, and let it take the id `task_id` (the value it returns);
the call may run without interruption or be interleaved with the steps of
other threads, other calls of `add_task` included. In every later state in
which `wait_result(task_id)` returns (the predicate of `wait` holds: the record
is completed), the value it yields is `std::any(v)` for a value `v` that a call
`f(args)` returned, this value is the one recorded for the single `run()` of
the task, and the pool is left unchanged. In particular, when `f(args)` returns
the same value `v0` in every environment, `wait_result` yields exactly `v0`.
The lookup `tasksInfoMap[task_id].result` that follows `wait` is made after
`wait` has released `tasksInfoMutex`: whatever the other threads do in between,
the lookup finds the same value in every later state, and so does a repeated
`wait_result(task_id)`. -/
theorem wait_result_round_trip {A W V : Type} (num_threads : Nat) (w0 : W)
    (s0 : System W V) (hreach : Reachable num_threads w0 s0)
    (f : A → W → Except Exn (W × V)) (args : A) (s1 s2 : System W V)
    (hcall : s1 = step (Action.add_task (Func.returnsValue f) args) s0 ∨
      s1 = step (Action.add_task_alloc (Func.returnsValue f) args) s0)
    (hsteps : Steps anyAction s1 s2)
    (r : StdAny V) (p2 : ThreadsPool W V)
    (hres : wait_result s2.pool (add_task s0.pool (Func.returnsValue f) args).1 =
      some (r, p2)) :
    p2 = s2.pool ∧
      (∃ w w1 v, f args w = Except.ok (w1, v) ∧ r = StdAny.ofVal v ∧
        ((add_task s0.pool (Func.returnsValue f) args).1, StdAny.ofVal v) ∈ s2.runLog) ∧
      s2.runIds.count (add_task s0.pool (Func.returnsValue f) args).1 = 1 ∧
      (∀ v0, (∀ w, ∃ w1, f args w = Except.ok (w1, v0)) → r = StdAny.ofVal v0) ∧
      (∀ s3, Steps anyAction s2 s3 →
        (Registry.subscript s3.pool.tasksInfoMap
          (add_task s0.pool (Func.returnsValue f) args).1).1.result = r ∧
        wait_result s3.pool (add_task s0.pool (Func.returnsValue f) args).1 =
          some (r, s3.pool)) := by
  have hinv0 := inv_reachable hreach
  have hstart := result_inv_start hinv0 f args
  have hinvA : Inv (step (Action.add_task_alloc (Func.returnsValue f) args) s0) :=
    inv_step hinv0 _
  have h1 : Inv s1 ∧ ResultInv f args s0.pool.lastTaskIndex s1 := by
    rcases hcall with e | e
    · rw [e, step_add_task_eq hinv0]
      exact ⟨inv_step (inv_step hinvA _) _,
        result_inv_enqueue (result_inv_register hstart _) _⟩
    · rw [e]; exact ⟨hinvA, hstart⟩
  have hinv2 : Inv s2 := inv_steps h1.1 hsteps
  rw [add_task_fst] at hres ⊢
  obtain ⟨hp2, hlt, info, hinfo, hst, hresult⟩ :=
    wait_result_pool s2.pool s0.pool.lastTaskIndex r p2 hres
  have hr2 : ResultInv f args s0.pool.lastTaskIndex s2 := by
    obtain ⟨acts, _, e⟩ := hsteps
    rw [e]
    exact result_inv_exec acts h1.1 h1.2
  obtain ⟨w, w1, v, hf, hv, hmem⟩ := hr2.completed info hinfo hst
  have hrv : r = StdAny.ofVal v := by rw [← hresult, hv]
  refine ⟨hp2, ⟨w, w1, v, hf, hrv, hmem⟩, ?_, ?_, ?_⟩
  · exact List.count_eq_one_of_mem hinv2.run_nodup (mem_runIds_of_mem hmem)
  · intro v0 hpure
    obtain ⟨w2, hf2⟩ := hpure w
    rw [hf] at hf2
    injection hf2 with hf2
    injection hf2 with _ hv0
    rw [hrv, hv0]
  · intro s3 hs3
    obtain ⟨acts, _, e⟩ := hs3
    have hinv3 : Inv s3 := by rw [e]; exact inv_exec acts hinv2
    have hinfo3 : s3.pool.tasksInfoMap s0.pool.lastTaskIndex = some info := by
      rw [e]; exact completed_record_exec acts hinv2 hinfo hst
    refine ⟨by rw [subscript_of_some hinfo3]; exact hresult, ?_⟩
    rw [wait_result_of_completed hinv3 hinfo3 hst, hresult]

/-- C2 at a schedule in which the call `add_task(returnArgFn, 5)` takes id 0
and is overtaken by a second call: after the schedule `wait_result(0)`
yields 5. -/
theorem wait_result_round_trip_witness :
    Reachable 2 0 (System.fresh 2 0 : System Nat Nat) ∧
      Steps anyAction
        (step (Action.add_task_alloc (Func.returnsValue returnArgFn) 5) (System.fresh 2 0))
        overlapDoneState ∧
      wait_result overlapDoneState.pool 0 = some (StdAny.ofVal 5, overlapDoneState.pool) ∧
      (∀ v0, (∀ w, ∃ w1, returnArgFn 5 w = Except.ok (w1, v0)) →
        (StdAny.ofVal 5 : StdAny Nat) = StdAny.ofVal v0) :=
  have hres : wait_result overlapDoneState.pool 0 =
      some (StdAny.ofVal 5, overlapDoneState.pool) :=
    wait_result_of_completed (inv_reachable (steps_of_exec overlapDoneSchedule _))
      (by decide :
        overlapDoneState.pool.tasksInfoMap 0 =
          some { status := TaskStatus.completed, result := StdAny.ofVal 5 })
      rfl
  have hsteps : Steps anyAction
      (step (Action.add_task_alloc (Func.returnsValue returnArgFn) 5) (System.fresh 2 0))
      overlapDoneState := ⟨overlapDoneSchedule.tail, fun _ _ => trivial, rfl⟩
  ⟨steps_refl _ _, hsteps, hres,
    (wait_result_round_trip 2 0 (System.fresh 2 0) (steps_refl _ _) returnArgFn 5
      (step (Action.add_task_alloc (Func.returnsValue returnArgFn) 5) (System.fresh 2 0))
      overlapDoneState (Or.inr rfl) hsteps (StdAny.ofVal 5) overlapDoneState.pool
      hres).2.2.2.1⟩

end ThreadPool
